import Mathlib

/-!
# The AES-256-GCM functions of `encrpytion/AES.cpp`

`aes256_gcm_encrypt`, `aes256_gcm_decrypt` and `main` call libcrypto through the EVP
interface. Here the two functions are written over that interface as a parameter
(`Evp`), with a record of every call they make (`Run`), so that what they do for every
behaviour of the library is a theorem about them alone. What they compute with the
real library is settled over `openssl`, a model of `EVP_aes_256_gcm()` built from AES-256
(FIPS-197) and GCM (SP 800-38D) as executable definitions.

Sizes are natural numbers; the cast `(int)size` is `castInt`. The `int` sums
`ciphertext_len += len` and `plaintext_len += len` are taken in the integers: the
library model never reports more than the input length, which is below 2^31.

The last part is the allocation loop of `case_study/memoryOverflow.cpp`
(`MemoryOverflow.main`), over the allocator and the limits of `std::vector` given as a
parameter (`MemoryOverflow.Env`), with `std::size_t` arithmetic taken modulo 2^64.
-/

namespace Xlab

/-- An `unsigned char`: one element of a `std::vector<unsigned char>`. -/
abbrev Byte := Fin 256

namespace AES

/-- The AES substitution table of FIPS-197 (figure 7), row-major. -/
def sboxTable : List Nat :=
  [
   0x63, 0x7c, 0x77, 0x7b, 0xf2, 0x6b, 0x6f, 0xc5, 0x30, 0x01, 0x67, 0x2b, 0xfe, 0xd7, 0xab, 0x76,
   0xca, 0x82, 0xc9, 0x7d, 0xfa, 0x59, 0x47, 0xf0, 0xad, 0xd4, 0xa2, 0xaf, 0x9c, 0xa4, 0x72, 0xc0,
   0xb7, 0xfd, 0x93, 0x26, 0x36, 0x3f, 0xf7, 0xcc, 0x34, 0xa5, 0xe5, 0xf1, 0x71, 0xd8, 0x31, 0x15,
   0x04, 0xc7, 0x23, 0xc3, 0x18, 0x96, 0x05, 0x9a, 0x07, 0x12, 0x80, 0xe2, 0xeb, 0x27, 0xb2, 0x75,
   0x09, 0x83, 0x2c, 0x1a, 0x1b, 0x6e, 0x5a, 0xa0, 0x52, 0x3b, 0xd6, 0xb3, 0x29, 0xe3, 0x2f, 0x84,
   0x53, 0xd1, 0x00, 0xed, 0x20, 0xfc, 0xb1, 0x5b, 0x6a, 0xcb, 0xbe, 0x39, 0x4a, 0x4c, 0x58, 0xcf,
   0xd0, 0xef, 0xaa, 0xfb, 0x43, 0x4d, 0x33, 0x85, 0x45, 0xf9, 0x02, 0x7f, 0x50, 0x3c, 0x9f, 0xa8,
   0x51, 0xa3, 0x40, 0x8f, 0x92, 0x9d, 0x38, 0xf5, 0xbc, 0xb6, 0xda, 0x21, 0x10, 0xff, 0xf3, 0xd2,
   0xcd, 0x0c, 0x13, 0xec, 0x5f, 0x97, 0x44, 0x17, 0xc4, 0xa7, 0x7e, 0x3d, 0x64, 0x5d, 0x19, 0x73,
   0x60, 0x81, 0x4f, 0xdc, 0x22, 0x2a, 0x90, 0x88, 0x46, 0xee, 0xb8, 0x14, 0xde, 0x5e, 0x0b, 0xdb,
   0xe0, 0x32, 0x3a, 0x0a, 0x49, 0x06, 0x24, 0x5c, 0xc2, 0xd3, 0xac, 0x62, 0x91, 0x95, 0xe4, 0x79,
   0xe7, 0xc8, 0x37, 0x6d, 0x8d, 0xd5, 0x4e, 0xa9, 0x6c, 0x56, 0xf4, 0xea, 0x65, 0x7a, 0xae, 0x08,
   0xba, 0x78, 0x25, 0x2e, 0x1c, 0xa6, 0xb4, 0xc6, 0xe8, 0xdd, 0x74, 0x1f, 0x4b, 0xbd, 0x8b, 0x8a,
   0x70, 0x3e, 0xb5, 0x66, 0x48, 0x03, 0xf6, 0x0e, 0x61, 0x35, 0x57, 0xb9, 0x86, 0xc1, 0x1d, 0x9e,
   0xe1, 0xf8, 0x98, 0x11, 0x69, 0xd9, 0x8e, 0x94, 0x9b, 0x1e, 0x87, 0xe9, 0xce, 0x55, 0x28, 0xdf,
   0x8c, 0xa1, 0x89, 0x0d, 0xbf, 0xe6, 0x42, 0x68, 0x41, 0x99, 0x2d, 0x0f, 0xb0, 0x54, 0xbb, 0x16]

/-- SubBytes on one byte. -/
def subByte (b : Nat) : Nat := sboxTable.getD b 0

/-- Multiplication by `x` in GF(2^8) modulo `x^8 + x^4 + x^3 + x + 1`. -/
def xtime (b : Nat) : Nat := if b < 128 then 2 * b else (2 * b - 256) ^^^ 0x1b

/-- Bytewise xor; AddRoundKey is this with the round key. -/
def xorBytes (a b : List Nat) : List Nat := List.zipWith (fun x y => x ^^^ y) a b

/-- SubBytes, also SubWord. -/
def subBytes (s : List Nat) : List Nat := s.map subByte

/-- ShiftRows on a state stored column by column (byte `r + 4c` is row `r`, column `c`). -/
def shiftRows (s : List Nat) : List Nat :=
  [0, 5, 10, 15, 4, 9, 14, 3, 8, 13, 2, 7, 12, 1, 6, 11].map (fun i => s.getD i 0)

/-- MixColumns on one column: multiplication by the matrix with rows `2 3 1 1`,
`1 2 3 1`, `1 1 2 3`, `3 1 1 2`. -/
def mixColumn (a0 a1 a2 a3 : Nat) : List Nat :=
  [ xtime a0 ^^^ (xtime a1 ^^^ a1) ^^^ a2 ^^^ a3,
    a0 ^^^ xtime a1 ^^^ (xtime a2 ^^^ a2) ^^^ a3,
    a0 ^^^ a1 ^^^ xtime a2 ^^^ (xtime a3 ^^^ a3),
    (xtime a0 ^^^ a0) ^^^ a1 ^^^ a2 ^^^ xtime a3 ]

/-- MixColumns on the four columns of the state. -/
def mixColumns (s : List Nat) : List Nat :=
  mixColumn (s.getD 0 0) (s.getD 1 0) (s.getD 2 0) (s.getD 3 0) ++
  mixColumn (s.getD 4 0) (s.getD 5 0) (s.getD 6 0) (s.getD 7 0) ++
  mixColumn (s.getD 8 0) (s.getD 9 0) (s.getD 10 0) (s.getD 11 0) ++
  mixColumn (s.getD 12 0) (s.getD 13 0) (s.getD 14 0) (s.getD 15 0)

/-- Round constants `Rcon[1..7]`, all an AES-256 key schedule uses. -/
def rcon : List Nat := [0x01, 0x02, 0x04, 0x08, 0x10, 0x20, 0x40]

/-- RotWord. -/
def rotWord (w : List Nat) : List Nat := w.drop 1 ++ w.take 1

/-- The next word `w[i]` of the AES-256 key schedule (`Nk = 8`), `i` being the number of
words computed so far. -/
def nextWord (w : List (List Nat)) : List Nat :=
  let i := w.length
  let prev := w.getD (i - 1) []
  let temp :=
    if i % 8 = 0 then xorBytes (subBytes (rotWord prev)) [rcon.getD (i / 8 - 1) 0, 0, 0, 0]
    else if i % 8 = 4 then subBytes prev
    else prev
  xorBytes (w.getD (i - 8) []) temp

/-- The key schedule extended by `n` words. -/
def expandKey : Nat → List (List Nat) → List (List Nat)
  | 0, w => w
  | n + 1, w => expandKey n (w ++ [nextWord w])

/-- The 60 words of the AES-256 key schedule. -/
def keySchedule (key : List Nat) : List (List Nat) :=
  expandKey 52 ((List.range 8).map (fun j => (key.drop (4 * j)).take 4))

/-- The four words of round key `r`. -/
def roundKey (w : List (List Nat)) (r : Nat) : List Nat :=
  w.getD (4 * r) [] ++ w.getD (4 * r + 1) [] ++ w.getD (4 * r + 2) [] ++ w.getD (4 * r + 3) []

/-- Rounds `r, r+1, ...` (`n` of them), each SubBytes, ShiftRows, MixColumns, AddRoundKey. -/
def rounds (w : List (List Nat)) : Nat → Nat → List Nat → List Nat
  | 0, _, s => s
  | n + 1, r, s => rounds w n (r + 1) (xorBytes (mixColumns (shiftRows (subBytes s))) (roundKey w r))

/-- The AES-256 cipher (`Nr = 14`) on one 16-byte block. -/
def encryptBlock (key blk : List Nat) : List Nat :=
  let w := keySchedule key
  let s := rounds w 13 1 (xorBytes blk (roundKey w 0))
  xorBytes (shiftRows (subBytes s)) (roundKey w 14)

/-- The inverse substitution table of FIPS-197 (figure 14), row-major; the cipher does
not use it, it serves to show that SubBytes is one-to-one. -/
def invSboxTable : List Nat :=
  [
   0x52, 0x09, 0x6a, 0xd5, 0x30, 0x36, 0xa5, 0x38, 0xbf, 0x40, 0xa3, 0x9e, 0x81, 0xf3, 0xd7, 0xfb,
   0x7c, 0xe3, 0x39, 0x82, 0x9b, 0x2f, 0xff, 0x87, 0x34, 0x8e, 0x43, 0x44, 0xc4, 0xde, 0xe9, 0xcb,
   0x54, 0x7b, 0x94, 0x32, 0xa6, 0xc2, 0x23, 0x3d, 0xee, 0x4c, 0x95, 0x0b, 0x42, 0xfa, 0xc3, 0x4e,
   0x08, 0x2e, 0xa1, 0x66, 0x28, 0xd9, 0x24, 0xb2, 0x76, 0x5b, 0xa2, 0x49, 0x6d, 0x8b, 0xd1, 0x25,
   0x72, 0xf8, 0xf6, 0x64, 0x86, 0x68, 0x98, 0x16, 0xd4, 0xa4, 0x5c, 0xcc, 0x5d, 0x65, 0xb6, 0x92,
   0x6c, 0x70, 0x48, 0x50, 0xfd, 0xed, 0xb9, 0xda, 0x5e, 0x15, 0x46, 0x57, 0xa7, 0x8d, 0x9d, 0x84,
   0x90, 0xd8, 0xab, 0x00, 0x8c, 0xbc, 0xd3, 0x0a, 0xf7, 0xe4, 0x58, 0x05, 0xb8, 0xb3, 0x45, 0x06,
   0xd0, 0x2c, 0x1e, 0x8f, 0xca, 0x3f, 0x0f, 0x02, 0xc1, 0xaf, 0xbd, 0x03, 0x01, 0x13, 0x8a, 0x6b,
   0x3a, 0x91, 0x11, 0x41, 0x4f, 0x67, 0xdc, 0xea, 0x97, 0xf2, 0xcf, 0xce, 0xf0, 0xb4, 0xe6, 0x73,
   0x96, 0xac, 0x74, 0x22, 0xe7, 0xad, 0x35, 0x85, 0xe2, 0xf9, 0x37, 0xe8, 0x1c, 0x75, 0xdf, 0x6e,
   0x47, 0xf1, 0x1a, 0x71, 0x1d, 0x29, 0xc5, 0x89, 0x6f, 0xb7, 0x62, 0x0e, 0xaa, 0x18, 0xbe, 0x1b,
   0xfc, 0x56, 0x3e, 0x4b, 0xc6, 0xd2, 0x79, 0x20, 0x9a, 0xdb, 0xc0, 0xfe, 0x78, 0xcd, 0x5a, 0xf4,
   0x1f, 0xdd, 0xa8, 0x33, 0x88, 0x07, 0xc7, 0x31, 0xb1, 0x12, 0x10, 0x59, 0x27, 0x80, 0xec, 0x5f,
   0x60, 0x51, 0x7f, 0xa9, 0x19, 0xb5, 0x4a, 0x0d, 0x2d, 0xe5, 0x7a, 0x9f, 0x93, 0xc9, 0x9c, 0xef,
   0xa0, 0xe0, 0x3b, 0x4d, 0xae, 0x2a, 0xf5, 0xb0, 0xc8, 0xeb, 0xbb, 0x3c, 0x83, 0x53, 0x99, 0x61,
   0x17, 0x2b, 0x04, 0x7e, 0xba, 0x77, 0xd6, 0x26, 0xe1, 0x69, 0x14, 0x63, 0x55, 0x21, 0x0c, 0x7d]

/-- InvSubBytes on one byte. -/
def invSubByte (b : Nat) : Nat := invSboxTable.getD b 0

end AES

/-- Modelled from the spec: the block cipher of the "256-bit-key Galois/Counter Mode"
construction, which the source reaches through libcrypto (not part of the
repository). AES-256 of FIPS-197 on byte vectors: a 32-byte key and a 16-byte block
give a 16-byte block. -/
def aes256 (key blk : List Byte) : List Byte :=
  (AES.encryptBlock (key.map Fin.val) (blk.map Fin.val)).map (Fin.ofNat)

namespace GCM

/-- Big-endian value of a byte string. -/
def beNat (bs : List Byte) : Nat := bs.foldl (fun acc b => acc * 256 + b.val) 0

/-- The `len` low-order bytes of `n`, big-endian. -/
def natBE (len n : Nat) : List Byte :=
  (List.range len).map (fun i => Fin.ofNat (n / 256 ^ (len - 1 - i)))

/-- Multiplication in GF(2^128) as SP 800-38D algorithm 1 runs it: the bits of `x` from
the leftmost, `v` shifted right and reduced by `R = 11100001 || 0^120`. -/
def gfMulAux : Nat → Nat → Nat → Nat → Nat
  | 0, _, z, _ => z
  | n + 1, x, z, v =>
    gfMulAux n x (if x.testBit n then z ^^^ v else z)
      (if v % 2 = 0 then v / 2 else (v / 2) ^^^ (0xe1 * 2 ^ 120))

/-- The product of two blocks in GF(2^128), blocks read as big-endian numbers. -/
def gfMul (x y : Nat) : Nat := gfMulAux 128 x 0 y

/-- The 16-byte blocks of a byte string, the last one padded with zero bytes. -/
def padBlocks (bs : List Byte) : List Nat :=
  (List.range ((bs.length + 15) / 16)).map (fun j =>
    let c := (bs.drop (16 * j)).take 16
    beNat c * 256 ^ (16 - c.length))

/-- The function `GHASH_H` on a list of blocks. -/
def ghash (h : Nat) (blocks : List Nat) : Nat :=
  blocks.foldl (fun y x => gfMul (y ^^^ x) h) 0

/-- The pre-counter block `J0`: `IV || 0^31 || 1` for a 96-bit IV, a GHASH of it otherwise. -/
def j0 (E : List Byte → List Byte → List Byte) (key iv : List Byte) : List Byte :=
  if iv.length = 12 then iv ++ [0, 0, 0, 1]
  else natBE 16 (ghash (beNat (E key (List.replicate 16 0)))
    (padBlocks iv ++ [(8 * iv.length) % 2 ^ 64]))

/-- The counter block `inc32^j (cb)`. -/
def ctrBlock (cb : List Byte) (j : Nat) : List Byte :=
  cb.take 12 ++ natBE 4 ((beNat (cb.drop 12) + j) % 2 ^ 32)

/-- Modelled from the spec: the stream that turns plaintext into "Ciphertext of
identical length", libcrypto not being part of the repository. Byte `i` of the key
stream of `GCTR_K(inc32(J0), .)` of SP 800-38D. -/
def ksAt (E : List Byte → List Byte → List Byte) (key iv : List Byte) (i : Nat) : Byte :=
  (E key (ctrBlock (j0 E key iv) (i / 16 + 1))).getD (i % 16) 0

/-- A byte string xored with the key stream from byte offset `off` on. -/
def xorStream (ks : Nat → Byte) : Nat → List Byte → List Byte
  | _, [] => []
  | off, b :: bs => (b ^^^ ks off) :: xorStream ks (off + 1) bs

/-- Modelled from the spec: "the 16-byte AuthenticationTag over all processed AAD and
ciphertext bytes, bound to Key and Nonce", libcrypto not being part of the repository.
The full tag `GCTR_K(J0, GHASH_H(A || 0^v || C || 0^u || len A || len C))` of
SP 800-38D. -/
def tagOf (E : List Byte → List Byte → List Byte) (key iv aad ct : List Byte) : List Byte :=
  let h := beNat (E key (List.replicate 16 0))
  let s := ghash h (padBlocks aad ++ padBlocks ct ++
    [((8 * aad.length) % 2 ^ 64) * 2 ^ 64 + (8 * ct.length) % 2 ^ 64])
  natBE 16 (beNat (E key (j0 E key iv)) ^^^ s)

end GCM

/-! ## Machine-level helpers -/

/-- The C cast `(int)n` of a `size_t` value: reduction modulo 2^32 into the signed
32-bit range. -/
def castInt (n : Nat) : Int :=
  if n % 2 ^ 32 < 2 ^ 31 then ((n % 2 ^ 32 : Nat) : Int) else ((n % 2 ^ 32 : Nat) : Int) - 2 ^ 32

/-- The call `v.resize(n)` of a `std::vector<unsigned char>`: truncation, or growth by
zero bytes. -/
def resize (v : List Byte) (n : Nat) : List Byte :=
  v.take n ++ List.replicate (n - v.length) 0

/-- A store of `src` through the pointer `buf.data() + off`. The vector keeps its
size; bytes that would land past its end (undefined behaviour in C++) are dropped. -/
def memWrite (buf : List Byte) (off : Nat) (src : List Byte) : List Byte :=
  (buf.take off ++ src ++ buf.drop (off + src.length)).take buf.length

/-! ## The OpenSSL interface the source calls -/

/-- The value of `EVP_aes_256_gcm()`. -/
inductive Cipher
  | aes_256_gcm
  deriving DecidableEq, Repr

/-- The `EVP_CTRL_GCM_*` request codes the source uses. -/
inductive Ctrl
  | GCM_SET_IVLEN
  | GCM_GET_TAG
  | GCM_SET_TAG
  deriving DecidableEq, Repr

/-- What one library call hands back: its return code, the context afterwards, the
bytes it stored through its output pointer, and the value it stored in `*outl`. -/
structure Ret (Ctx : Type) where
  rc : Int
  ctx : Ctx
  out : List Byte
  outl : Int

/-- The part of libcrypto the source links against, as a parameter. `none` from
`EVP_CIPHER_CTX_new` is the null pointer; an absent pointer argument is `none`; the
`out` flag of an update call says whether the output pointer is non-null. -/
structure Evp where
  Ctx : Type
  EVP_CIPHER_CTX_new : Option Ctx
  EVP_EncryptInit_ex : Ctx → Option Cipher → Option (List Byte) → Option (List Byte) → Ret Ctx
  EVP_DecryptInit_ex : Ctx → Option Cipher → Option (List Byte) → Option (List Byte) → Ret Ctx
  EVP_CIPHER_CTX_ctrl : Ctx → Ctrl → Int → Option (List Byte) → Ret Ctx
  EVP_EncryptUpdate : Ctx → Bool → List Byte → Int → Ret Ctx
  EVP_DecryptUpdate : Ctx → Bool → List Byte → Int → Ret Ctx
  EVP_EncryptFinal_ex : Ctx → Ret Ctx
  EVP_DecryptFinal_ex : Ctx → Ret Ctx

/-- One call into the library or the random generator, with its arguments and its
return code, as the instrumented run records it. -/
inductive Call
  | RAND_bytes (num rc : Int)
  | EVP_CIPHER_CTX_new (ok : Bool)
  | EVP_EncryptInit_ex (cipher : Option Cipher) (key iv : Option (List Byte)) (rc : Int)
  | EVP_DecryptInit_ex (cipher : Option Cipher) (key iv : Option (List Byte)) (rc : Int)
  | EVP_CIPHER_CTX_ctrl (type : Ctrl) (arg : Int) (ptr : Option (List Byte)) (rc : Int)
  | EVP_EncryptUpdate (out : Bool) (input : List Byte) (inl rc : Int)
  | EVP_DecryptUpdate (out : Bool) (input : List Byte) (inl rc : Int)
  | EVP_EncryptFinal_ex (rc : Int)
  | EVP_DecryptFinal_ex (rc : Int)
  | EVP_CIPHER_CTX_free
  deriving DecidableEq, Repr

/-- The exceptions the two functions can let escape, one per `throwIf` message, and the
`std::length_error` of a `resize` to a negative `int`. In the words of the
specification, `keyLength`, `nonceLength` and `tagLength` are the three length errors,
`randBytes` is the entropy error, `decFinal` is the authentication error, and the
failures to create or set up the context are the cipher-initialisation error. -/
inductive Error
  | keyLength
  | nonceLength
  | tagLength
  | randBytes
  | ctxNew
  | encInitCipher
  | decInitCipher
  | setIvlen
  | encInitKeyIv
  | decInitKeyIv
  | encUpdateAad
  | decUpdateAad
  | encUpdatePt
  | decUpdateCt
  | encFinal
  | setTag
  | decFinal
  | getTag
  | lengthError
  deriving DecidableEq, Repr

/-- The message `e.what()` carries (for `lengthError`, the one of libstdc++). -/
def Error.what : Error → String
  | .keyLength => "Key must be 32 bytes for AES-256"
  | .nonceLength => "Nonce should be 12 bytes for AES-GCM"
  | .tagLength => "Tag must be 16 bytes (recommended) for AES-GCM"
  | .randBytes => "RAND_bytes failed"
  | .ctxNew => "EVP_CIPHER_CTX_new failed"
  | .encInitCipher => "EncryptInit (cipher) failed"
  | .decInitCipher => "DecryptInit (cipher) failed"
  | .setIvlen => "SET_IVLEN failed"
  | .encInitKeyIv => "EncryptInit (key/iv) failed"
  | .decInitKeyIv => "DecryptInit (key/iv) failed"
  | .encUpdateAad => "EncryptUpdate (AAD) failed"
  | .decUpdateAad => "DecryptUpdate (AAD) failed"
  | .encUpdatePt => "EncryptUpdate (pt) failed"
  | .decUpdateCt => "DecryptUpdate (ct) failed"
  | .encFinal => "EncryptFinal failed"
  | .setTag => "SET_TAG failed"
  | .decFinal => "DecryptFinal failed: tag mismatch (tampered or wrong key/nonce/tag)"
  | .getTag => "GET_TAG failed"
  | .lengthError => "vector::_M_default_append"

/-- An instrumented run: the calls made, in order, and the value returned or the
exception thrown. -/
structure Run (α : Type) where
  trace : List Call
  res : Except Error α

namespace Run

variable {α β : Type}

/-- A `return a`. -/
def ret (a : α) : Run α := ⟨[], .ok a⟩

/-- A `throw`. -/
def raise (e : Error) : Run α := ⟨[], .error e⟩

/-- Sequencing: an exception in `x` skips `f`. -/
def andThen (x : Run α) (f : α → Run β) : Run β :=
  match x.res with
  | .error e => ⟨x.trace, .error e⟩
  | .ok a => ⟨x.trace ++ (f a).trace, (f a).res⟩

/-- The statement `try { x } catch (...) { handler }`. -/
def tryCatchAll (x : Run α) (handler : Error → Run α) : Run α :=
  match x.res with
  | .ok a => ⟨x.trace, .ok a⟩
  | .error e => ⟨x.trace ++ (handler e).trace, (handler e).res⟩

instance : Monad Run where
  pure := ret
  bind := andThen

/-- The run `r` after the calls `t`. -/
def after (t : List Call) (r : Run α) : Run α := ⟨t ++ r.trace, r.res⟩

end Run

/-- Records one call. -/
def emit (c : Call) : Run Unit := ⟨[c], .ok ()⟩

/-- The function `throwIf` of the source: throws `std::runtime_error(msg)` when `cond`
holds. -/
def throwIf (cond : Bool) (msg : Error) : Run Unit :=
  if cond then Run.raise msg else Run.ret ()

/-- The struct `GcmEncrypted` of the source. -/
structure GcmEncrypted where
  nonce : List Byte
  ciphertext : List Byte
  tag : List Byte
  deriving DecidableEq, Repr

/-- Source lines 46 to 49: the associated data, when there is any, goes through
`EVP_EncryptUpdate` with a null output pointer. -/
def encryptAad (L : Evp) (ctx : L.Ctx) (aad : List Byte) : Run L.Ctx :=
  if !aad.isEmpty then do
    let r := L.EVP_EncryptUpdate ctx false aad (castInt aad.length)
    emit (Call.EVP_EncryptUpdate false aad (castInt aad.length) r.rc)
    throwIf (r.rc != 1) Error.encUpdateAad
    pure r.ctx
  else pure ctx

/-- Source lines 51 to 56: the plaintext, when there is any, goes through
`EVP_EncryptUpdate` into the ciphertext vector; the result is the context, the vector
and `ciphertext_len`. -/
def encryptPt (L : Evp) (ctx : L.Ctx) (plaintext ciphertext : List Byte) :
    Run (L.Ctx × List Byte × Int) :=
  if !plaintext.isEmpty then do
    let r := L.EVP_EncryptUpdate ctx true plaintext (castInt plaintext.length)
    emit (Call.EVP_EncryptUpdate true plaintext (castInt plaintext.length) r.rc)
    throwIf (r.rc != 1) Error.encUpdatePt
    pure (r.ctx, memWrite ciphertext 0 r.out, r.outl)
  else pure (ctx, ciphertext, 0)

/-- The `try` block of `aes256_gcm_encrypt` (source lines 36 to 68); `out` holds the
three vectors as they are when the block is entered. -/
def encryptTry (L : Evp) (ctx : L.Ctx) (key plaintext aad : List Byte) (out : GcmEncrypted) :
    Run GcmEncrypted := do
  let r1 := L.EVP_EncryptInit_ex ctx (some Cipher.aes_256_gcm) none none
  emit (Call.EVP_EncryptInit_ex (some Cipher.aes_256_gcm) none none r1.rc)
  throwIf (r1.rc != 1) Error.encInitCipher
  let r2 := L.EVP_CIPHER_CTX_ctrl r1.ctx Ctrl.GCM_SET_IVLEN (castInt out.nonce.length) none
  emit (Call.EVP_CIPHER_CTX_ctrl Ctrl.GCM_SET_IVLEN (castInt out.nonce.length) none r2.rc)
  throwIf (r2.rc != 1) Error.setIvlen
  let r3 := L.EVP_EncryptInit_ex r2.ctx none (some key) (some out.nonce)
  emit (Call.EVP_EncryptInit_ex none (some key) (some out.nonce) r3.rc)
  throwIf (r3.rc != 1) Error.encInitKeyIv
  let ctx4 ← encryptAad L r3.ctx aad
  let s5 ← encryptPt L ctx4 plaintext out.ciphertext
  let r6 := L.EVP_EncryptFinal_ex s5.1
  emit (Call.EVP_EncryptFinal_ex r6.rc)
  throwIf (r6.rc != 1) Error.encFinal
  let ciphertext_len := s5.2.2 + r6.outl
  throwIf (ciphertext_len < 0) Error.lengthError
  let ciphertext := resize (memWrite s5.2.1 s5.2.2.toNat r6.out) ciphertext_len.toNat
  let r7 := L.EVP_CIPHER_CTX_ctrl r6.ctx Ctrl.GCM_GET_TAG (castInt out.tag.length) (some out.tag)
  emit (Call.EVP_CIPHER_CTX_ctrl Ctrl.GCM_GET_TAG (castInt out.tag.length) (some out.tag) r7.rc)
  throwIf (r7.rc != 1) Error.getTag
  emit Call.EVP_CIPHER_CTX_free
  pure ⟨out.nonce, ciphertext, memWrite out.tag 0 r7.out⟩

/-- The function `aes256_gcm_encrypt` of `AES.cpp`, over a library `L` and the answer
`RAND_bytes num = (return code, bytes stored)` of the random generator. -/
def aes256_gcm_encrypt (L : Evp) (RAND_bytes : Int → Int × List Byte)
    (key plaintext aad : List Byte) : Run GcmEncrypted := do
  throwIf (key.length != 32) Error.keyLength
  let nonce0 := resize [] 12
  let tag0 := resize [] 16
  let ciphertext0 := resize [] plaintext.length
  let rnd := RAND_bytes (castInt nonce0.length)
  let nonce := memWrite nonce0 0 rnd.2
  emit (Call.RAND_bytes (castInt nonce0.length) rnd.1)
  throwIf (rnd.1 != 1) Error.randBytes
  match L.EVP_CIPHER_CTX_new with
  | none => do
    emit (Call.EVP_CIPHER_CTX_new false)
    Run.raise Error.ctxNew
  | some ctx => do
    emit (Call.EVP_CIPHER_CTX_new true)
    Run.tryCatchAll (encryptTry L ctx key plaintext aad ⟨nonce, ciphertext0, tag0⟩)
      (fun e => do emit Call.EVP_CIPHER_CTX_free; Run.raise e)

/-- Source lines 102 to 105: the associated data, when there is any, goes through
`EVP_DecryptUpdate` with a null output pointer. -/
def decryptAad (L : Evp) (ctx : L.Ctx) (aad : List Byte) : Run L.Ctx :=
  if !aad.isEmpty then do
    let r := L.EVP_DecryptUpdate ctx false aad (castInt aad.length)
    emit (Call.EVP_DecryptUpdate false aad (castInt aad.length) r.rc)
    throwIf (r.rc != 1) Error.decUpdateAad
    pure r.ctx
  else pure ctx

/-- Source lines 107 to 112: the ciphertext, when there is any, goes through
`EVP_DecryptUpdate` into the plaintext vector; the result is the context, the vector
and `plaintext_len`. -/
def decryptCt (L : Evp) (ctx : L.Ctx) (ciphertext plaintext : List Byte) :
    Run (L.Ctx × List Byte × Int) :=
  if !ciphertext.isEmpty then do
    let r := L.EVP_DecryptUpdate ctx true ciphertext (castInt ciphertext.length)
    emit (Call.EVP_DecryptUpdate true ciphertext (castInt ciphertext.length) r.rc)
    throwIf (r.rc != 1) Error.decUpdateCt
    pure (r.ctx, memWrite plaintext 0 r.out, r.outl)
  else pure (ctx, plaintext, 0)

/-- The `try` block of `aes256_gcm_decrypt` (source lines 93 to 126); `plaintext` is the
vector of `ciphertext.size()` zero bytes. -/
def decryptTry (L : Evp) (ctx : L.Ctx) (key nonce ciphertext tag aad plaintext : List Byte) :
    Run (List Byte) := do
  let r1 := L.EVP_DecryptInit_ex ctx (some Cipher.aes_256_gcm) none none
  emit (Call.EVP_DecryptInit_ex (some Cipher.aes_256_gcm) none none r1.rc)
  throwIf (r1.rc != 1) Error.decInitCipher
  let r2 := L.EVP_CIPHER_CTX_ctrl r1.ctx Ctrl.GCM_SET_IVLEN (castInt nonce.length) none
  emit (Call.EVP_CIPHER_CTX_ctrl Ctrl.GCM_SET_IVLEN (castInt nonce.length) none r2.rc)
  throwIf (r2.rc != 1) Error.setIvlen
  let r3 := L.EVP_DecryptInit_ex r2.ctx none (some key) (some nonce)
  emit (Call.EVP_DecryptInit_ex none (some key) (some nonce) r3.rc)
  throwIf (r3.rc != 1) Error.decInitKeyIv
  let ctx4 ← decryptAad L r3.ctx aad
  let s5 ← decryptCt L ctx4 ciphertext plaintext
  let r6 := L.EVP_CIPHER_CTX_ctrl s5.1 Ctrl.GCM_SET_TAG (castInt tag.length) (some tag)
  emit (Call.EVP_CIPHER_CTX_ctrl Ctrl.GCM_SET_TAG (castInt tag.length) (some tag) r6.rc)
  throwIf (r6.rc != 1) Error.setTag
  let r7 := L.EVP_DecryptFinal_ex r6.ctx
  emit (Call.EVP_DecryptFinal_ex r7.rc)
  throwIf (r7.rc != 1) Error.decFinal
  let plaintext_len := s5.2.2 + r7.outl
  throwIf (plaintext_len < 0) Error.lengthError
  emit Call.EVP_CIPHER_CTX_free
  pure (resize (memWrite s5.2.1 s5.2.2.toNat r7.out) plaintext_len.toNat)

/-- The function `aes256_gcm_decrypt` of `AES.cpp`, over a library `L`. -/
def aes256_gcm_decrypt (L : Evp) (key nonce ciphertext tag aad : List Byte) :
    Run (List Byte) := do
  throwIf (key.length != 32) Error.keyLength
  throwIf (nonce.length != 12) Error.nonceLength
  throwIf (tag.length != 16) Error.tagLength
  let plaintext := resize [] ciphertext.length
  match L.EVP_CIPHER_CTX_new with
  | none => do
    emit (Call.EVP_CIPHER_CTX_new false)
    Run.raise Error.ctxNew
  | some ctx => do
    emit (Call.EVP_CIPHER_CTX_new true)
    Run.tryCatchAll (decryptTry L ctx key nonce ciphertext tag aad plaintext)
      (fun e => do emit Call.EVP_CIPHER_CTX_free; Run.raise e)

/-- The 17 bytes of `hello AES-256-GCM`, the message of `main`. -/
def mainMessage : List Byte :=
  [0x68, 0x65, 0x6c, 0x6c, 0x6f, 0x20, 0x41, 0x45, 0x53, 0x2d, 0x32, 0x35, 0x36, 0x2d, 0x47, 0x43,
   0x4d]

/-- The 11 bytes of `Decrypted: `. -/
def decryptedLabel : List Byte :=
  [0x44, 0x65, 0x63, 0x72, 0x79, 0x70, 0x74, 0x65, 0x64, 0x3a, 0x20]

/-- The function `main` of `AES.cpp`: a key of 32 random bytes (the return code of this
`RAND_bytes` call is not looked at), one encryption and one decryption of the message
without associated data. The value is what is written to `std::cout`; an exception
that escapes ends the program. -/
def main (L : Evp) (RAND_bytes : Int → Int × List Byte) : Run (List Byte) := do
  let key0 := resize [] 32
  let rnd := RAND_bytes (castInt key0.length)
  let key := memWrite key0 0 rnd.2
  emit (Call.RAND_bytes (castInt key0.length) rnd.1)
  let enc ← aes256_gcm_encrypt L RAND_bytes key mainMessage []
  let dec ← aes256_gcm_decrypt L key enc.nonce enc.ciphertext enc.tag []
  pure (decryptedLabel ++ dec ++ [0x0a])

/-! ## AES-256-GCM behind the interface

The library the source links against is not part of the repository. This section
models it from the specification (the AEAD primitive of section 4: initialised with
key and nonce, fed associated data as authenticated-only input, fed the message
through a stream of identical length, finalised to a 16-byte tag or to a tag
verification), for the calls the source makes: the state an `EVP_CIPHER_CTX` keeps for
`EVP_aes_256_gcm()` and what each call does to it, in the detail of the OpenSSL manual
pages and SP 800-38D. -/

/-- Modelled from the spec: the state of the primitive between calls, libcrypto not
being part of the repository. The fields are the cipher chosen, the direction, the IV length,
the key and the IV once set, the associated data and the ciphertext hashed so far,
the 16-byte tag buffer, and the tag length (-1 while there is no tag). -/
structure GcmCtx where
  cipher : Option Cipher
  encrypt : Bool
  ivlen : Nat
  key : Option (List Byte)
  iv : Option (List Byte)
  aad : List Byte
  data : List Byte
  buf : List Byte
  taglen : Int
  deriving DecidableEq, Repr

namespace OpenSSL

/-- A fresh context: no cipher, no key, no IV. -/
def ctxNew : GcmCtx :=
  ⟨none, false, 12, none, none, [], [], List.replicate 16 0, -1⟩

/-- A call that fails: return code 0, context unchanged, nothing stored. -/
def fail (ctx : GcmCtx) : Ret GcmCtx := ⟨0, ctx, [], 0⟩

/-- A call that succeeds with return code 1 and stores nothing. -/
def ok (ctx : GcmCtx) : Ret GcmCtx := ⟨1, ctx, [], 0⟩

/-- Modelled from the spec: "Initialize the AEAD primitive with Key and Nonce",
libcrypto not being part of the repository.
Both `EVP_EncryptInit_ex` (`enc = true`) and `EVP_DecryptInit_ex` (`enc = false`):
a cipher argument resets the context to the cipher's defaults (12-byte IV, no tag);
a key is read as 32 bytes and an IV as `ivlen` bytes, and a new IV restarts the
message. Without a cipher, in the call or from an earlier one, the call fails. -/
def cipherInit (enc : Bool) (ctx : GcmCtx) (cipher : Option Cipher)
    (key iv : Option (List Byte)) : Ret GcmCtx :=
  let c1 : GcmCtx :=
    match cipher with
    | some c => ⟨some c, enc, 12, none, none, [], [], List.replicate 16 0, -1⟩
    | none => { ctx with encrypt := enc }
  if c1.cipher = none then fail c1
  else
    let c2 : GcmCtx :=
      match key with
      | some k => { c1 with key := some (k.take 32) }
      | none => c1
    match iv with
    | some v => ok { c2 with iv := some (v.take c2.ivlen), aad := [], data := [], taglen := -1 }
    | none => ok c2

/-- Modelled from the spec: the 12-byte nonce, the 16-byte tag handed out after
encryption and the expected tag supplied before decryption is finalised, libcrypto
not being part of the repository.
The three control requests: an IV length must be positive; the tag is read
back only from an encrypting context after finalisation, 1 to 16 bytes of it; an
expected tag of 1 to 16 bytes is stored only in a decrypting context. -/
def ctrl (ctx : GcmCtx) (type : Ctrl) (arg : Int) (ptr : Option (List Byte)) : Ret GcmCtx :=
  if ctx.cipher = none then fail ctx
  else
    match type with
    | Ctrl.GCM_SET_IVLEN =>
      if arg ≤ 0 then fail ctx else ok { ctx with ivlen := arg.toNat }
    | Ctrl.GCM_GET_TAG =>
      if arg ≤ 0 ∨ 16 < arg ∨ ctx.encrypt = false ∨ ctx.taglen < 0 then fail ctx
      else ⟨1, ctx, ctx.buf.take arg.toNat, 0⟩
    | Ctrl.GCM_SET_TAG =>
      match ptr with
      | none => fail ctx
      | some t =>
        if arg ≤ 0 ∨ 16 < arg ∨ ctx.encrypt = true then fail ctx
        else ok { ctx with buf := memWrite ctx.buf 0 (t.take arg.toNat), taglen := arg }

/-- Modelled from the spec: associated data fed "as authenticated-only input" and the
message fed "through the primitive" to an output of identical length, libcrypto not
being part of the repository.
Both `EVP_EncryptUpdate` and `EVP_DecryptUpdate`: `inl` bytes are read from the
input. With no output pointer they are associated data, accepted only before any
message byte and up to 2^61 bytes in all; otherwise they are xored with the key
stream at the current offset, and the ciphertext side is hashed, up to 2^36 - 32 bytes
in all. `*outl` is `inl`; a call with `inl = 0` succeeds and changes nothing. A context
of the other direction, a negative `inl`, or a missing key or IV fails. -/
def update (enc : Bool) (ctx : GcmCtx) (out : Bool) (input : List Byte) (inl : Int) :
    Ret GcmCtx :=
  if ctx.encrypt ≠ enc ∨ inl < 0 then fail ctx
  else
    match ctx.key, ctx.iv with
    | some k, some v =>
      let x := input.take inl.toNat
      if out = false then
        if ctx.data ≠ [] ∨ 2 ^ 61 < ctx.aad.length + inl.toNat then fail ctx
        else ⟨1, { ctx with aad := ctx.aad ++ x }, [], inl⟩
      else
        if 2 ^ 36 - 32 < ctx.data.length + inl.toNat then fail ctx
        else
          let y := GCM.xorStream (GCM.ksAt aes256 k v) ctx.data.length x
          ⟨1, { ctx with data := ctx.data ++ (if enc then y else x) }, y, inl⟩
    | _, _ => fail ctx

/-- Modelled from the spec: "Finalize to derive the 16-byte AuthenticationTag" and
"finalization recomputes/verifies the tag over AAD and ciphertext bound to Key and
Nonce", libcrypto not being part of the repository.
Both `EVP_EncryptFinal_ex` and `EVP_DecryptFinal_ex`: no byte is output. Encrypting,
the 16-byte tag is computed into the context buffer. Decrypting, the first `taglen`
bytes of the computed tag are compared with the expected tag; the return code is 1
only if one was set and they agree. -/
def final (enc : Bool) (ctx : GcmCtx) : Ret GcmCtx :=
  if ctx.encrypt ≠ enc then fail ctx
  else
    match ctx.key, ctx.iv with
    | some k, some v =>
      let t := GCM.tagOf aes256 k v ctx.aad ctx.data
      if enc then ok { ctx with buf := t, taglen := 16, iv := none }
      else if ctx.taglen < 0 then fail ctx
      else if t.take ctx.taglen.toNat = ctx.buf.take ctx.taglen.toNat then
        ok { ctx with iv := none }
      else fail { ctx with iv := none }
    | _, _ => fail ctx

end OpenSSL

/-- Modelled from the spec: the AEAD primitive as a whole, libcrypto not being part
of the repository. The library with AES-256-GCM behind `EVP_aes_256_gcm()` and an
allocator that does not run out of memory. -/
def openssl : Evp where
  Ctx := GcmCtx
  EVP_CIPHER_CTX_new := some OpenSSL.ctxNew
  EVP_EncryptInit_ex := OpenSSL.cipherInit true
  EVP_DecryptInit_ex := OpenSSL.cipherInit false
  EVP_CIPHER_CTX_ctrl := OpenSSL.ctrl
  EVP_EncryptUpdate := OpenSSL.update true
  EVP_DecryptUpdate := OpenSSL.update false
  EVP_EncryptFinal_ex := OpenSSL.final true
  EVP_DecryptFinal_ex := OpenSSL.final false

/-- A generator that stores the given bytes and reports success. -/
def randOk (bytes : List Byte) : Int → Int × List Byte := fun num => (1, bytes.take num.toNat)

/-- A generator that reports failure with return code `rc` and stores nothing. -/
def randFail (rc : Int) : Int → Int × List Byte := fun _ => (rc, [])


/-! ## Inputs used in the examples -/

/-- The byte string `v` with bit `i mod 8` of byte `i / 8` inverted. -/
def flipBit (v : List Byte) (i : Nat) : List Byte :=
  v.set (i / 8) (v.getD (i / 8) 0 ^^^ Fin.ofNat (2 ^ (i % 8)))

/-- A key of 32 zero bytes. -/
def zeroKey : List Byte := List.replicate 32 0

/-- A nonce of 12 zero bytes. -/
def zeroNonce : List Byte := List.replicate 12 0

/-- A tag of 16 zero bytes. -/
def zeroTag : List Byte := List.replicate 16 0

/-- The ten bytes of the text `hello AEAD`. -/
def helloAEAD : List Byte := [0x68, 0x65, 0x6c, 0x6c, 0x6f, 0x20, 0x41, 0x45, 0x41, 0x44]

/-- A vector of 2^32 zero bytes (4 GiB). -/
def fourGiB : List Byte := List.replicate (2 ^ 32) 0

/-- The five bytes of `hello` followed by 4 GiB of zero bytes. -/
def helloThenFourGiB : List Byte := [0x68, 0x65, 0x6c, 0x6c, 0x6f] ++ fourGiB

/-- A key of 32 bytes of value 1. -/
def onesKey : List Byte := List.replicate 32 1

/-- The message that `aes256_gcm_encrypt` returns for the zero key, the zero nonce, the
plaintext `hello AEAD` and no associated data. -/
def scenarioMessage : GcmEncrypted :=
  ⟨[0, 0, 0, 0, 0, 0, 0, 0, 0, 0, 0, 0],
   [166, 194, 44, 81, 34, 64, 42, 43, 70, 10],
   [157, 48, 24, 97, 29, 0, 62, 20, 139, 216, 177, 109, 153, 184, 67, 135]⟩

/-- The tag of test case 13 of the GCM specification: zero key, zero IV, nothing to
encrypt or authenticate. -/
def testCase13Tag : List Byte :=
  [0x53, 0x0f, 0x8a, 0xfb, 0xc7, 0x45, 0x36, 0xb9, 0xa9, 0x63, 0xb4, 0xf1, 0xc4, 0xcb, 0x73, 0x8b]

/-- Twelve bytes 01, a second nonce. -/
def onesNonce : List Byte := List.replicate 12 1

/-- Sixteen bytes of plaintext chosen so that the tag of their ciphertext under the
zero key and the zero nonce is also its tag under `onesKey`. -/
def twoKeyPlaintext : List Byte :=
  [0x68, 0x29, 0x11, 0xb6, 0x43, 0x1b, 0x72, 0xc6, 0x21, 0x11, 0xfd, 0x85, 0x45, 0xb4, 0x7f, 0x86]

/-- The message `aes256_gcm_encrypt` returns for `twoKeyPlaintext` under the zero key and
the zero nonce, without associated data. -/
def twoKeyMessage : GcmEncrypted :=
  ⟨zeroNonce,
   [0xa6, 0x8e, 0x51, 0x8b, 0x0e, 0x7b, 0x19, 0xa8, 0x26, 0x5f, 0x38, 0x56, 0xff, 0x47, 0xe2, 0x9e],
   [0x66, 0xda, 0x14, 0x2a, 0xcc, 0x04, 0xce, 0xdc, 0x22, 0x79, 0x5a, 0xf5, 0x96, 0x47, 0xfb, 0xae]⟩

/-- What `aes256_gcm_decrypt` returns for `twoKeyMessage` under `onesKey`. -/
def twoKeyOutput : List Byte :=
  [0x19, 0xbb, 0xc9, 0x57, 0x7b, 0x40, 0x1a, 0x17, 0xb5, 0x26, 0xaa, 0x13, 0x8e, 0x63, 0x23, 0xdf]

/-! ## The memory load generator (`memoryOverflow.cpp`) -/

namespace MemoryOverflow

/-- Subtraction of two `std::size_t` values (64 bits, wrapping). -/
def subSize (a b : Nat) : Nat := (a + 2 ^ 64 - b % 2 ^ 64) % 2 ^ 64

/-- Addition of two `std::size_t` values (64 bits, wrapping). -/
def addSize (a b : Nat) : Nat := (a + b) % 2 ^ 64

/-- The struct `Config` of the source; the two sizes are `std::size_t` values. -/
structure Config where
  target_bytes : Nat
  chunk_bytes : Nat
  leak : Bool
  deriving DecidableEq, Repr

/-- What the program meets outside its own code: `max_size` is `blocks.max_size()` of
the `std::vector<char*>`; `new_char k n` tells whether `new char[n]` succeeds when `k`
blocks are held; `new_ptrs n` tells whether the vector obtains storage for `n`
pointers; `grow n` is the capacity the vector asks for when it is full with `n`
elements. -/
structure Env where
  max_size : Nat
  new_char : Nat → Nat → Bool
  new_ptrs : Nat → Bool
  grow : Nat → Nat

/-- How `main` ends before the loop is left: with the message of a
`std::runtime_error`, which `main` catches (usage text, exit code 1), or with an
exception of the vector, which `main` does not catch, so that the program is
terminated. -/
inductive Stop
  | usage (msg : String)
  | length_error
  | bad_alloc
  deriving DecidableEq, Repr

/-- The argument of `blocks.reserve` (source line 80):
`cfg.target_bytes / cfg.chunk_bytes + 1` in `std::size_t`. -/
def reserveArg (cfg : Config) : Nat := addSize (cfg.target_bytes / cfg.chunk_bytes) 1

/-- The call `blocks.reserve(n)` on the empty vector: `std::length_error` when `n`
exceeds `max_size()`, otherwise storage for `n` pointers is obtained (none is needed
for `n = 0`); the value is the capacity. -/
def reserve (env : Env) (n : Nat) : Except Stop Nat :=
  if env.max_size < n then .error .length_error
  else if n = 0 then .ok 0
  else if env.new_ptrs n then .ok n
  else .error .bad_alloc

/-- The call `blocks.push_back(p)`, the vector being the list of the sizes of its
blocks together with its capacity: within the capacity the element is stored; a full
vector throws `std::length_error` at `max_size()` elements and otherwise obtains
larger storage first. -/
def push_back (env : Env) (capacity : Nat) (blocks : List Nat) (p : Nat) :
    Except Stop (Nat × List Nat) :=
  if blocks.length < capacity then .ok (capacity, blocks ++ [p])
  else if env.max_size ≤ blocks.length then .error .length_error
  else if env.new_ptrs (env.grow blocks.length) then .ok (env.grow blocks.length, blocks ++ [p])
  else .error .bad_alloc

/-- The function `touch_pages` of the source, as far as its control goes: the loop
`for (i = 0; i < bytes; i += page)` with `page = 4096` on the `std::size_t` variable
`i` (the stores into the block are not kept). Each test of the loop uses one unit of
`fuel`; the value is `none` when the fuel runs out before the loop is left. -/
def touch_pages (bytes : Nat) : Nat → Nat → Option Unit
  | 0, _ => none
  | fuel + 1, i => if i < bytes then touch_pages bytes fuel (addSize i 4096) else some ()

/-- What `main` has when the loop is left: the capacity of the vector, the variable
`allocated` and the sizes of the blocks held. -/
structure Loaded where
  capacity : Nat
  allocated : Nat
  blocks : List Nat
  deriving DecidableEq, Repr

/-- The `while` loop of `main` (source lines 84 to 101) on the variable `allocated` and
the vector `blocks`. On `std::bad_alloc` from `new char[this_chunk]` the loop is left
by `break`; an exception of `push_back` is not caught. Each test of the loop
condition uses one unit of `fuel`, and every `touch_pages` call gets `pageFuel`; the
value is `none` when fuel runs out before the loop is left. -/
def mainLoop (env : Env) (cfg : Config) (pageFuel : Nat) :
    Nat → Nat → Nat → List Nat → Option (Except Stop Loaded)
  | 0, _, _, _ => none
  | fuel + 1, allocated, capacity, blocks =>
    if allocated < cfg.target_bytes then
      let this_chunk := min cfg.chunk_bytes (subSize cfg.target_bytes allocated)
      if env.new_char blocks.length this_chunk then
        match touch_pages this_chunk pageFuel 0 with
        | none => none
        | some () =>
          match push_back env capacity blocks this_chunk with
          | .error e => some (.error e)
          | .ok v => mainLoop env cfg pageFuel fuel (addSize allocated this_chunk) v.1 v.2
      else some (.ok ⟨capacity, allocated, blocks⟩)
    else some (.ok ⟨capacity, allocated, blocks⟩)

/-- The function `main` of `memoryOverflow.cpp` from the two checks of the
configuration (source lines 70 and 71) to the end of the allocation loop (line 101):
a zero chunk or target ends the program with the message of the exception; otherwise
the vector is reserved, which may throw, and the loop runs. -/
def main (env : Env) (cfg : Config) (fuel : Nat) : Option (Except Stop Loaded) :=
  if cfg.chunk_bytes = 0 then some (.error (.usage "chunk must be > 0"))
  else if cfg.target_bytes = 0 then some (.error (.usage "target must be > 0"))
  else
    match reserve env (reserveArg cfg) with
    | .error e => some (.error e)
    | .ok capacity => mainLoop env cfg fuel fuel 0 capacity []

/-- The surroundings on a 64-bit target with libstdc++ when no allocation fails:
`max_size()` of a `std::vector<char*>` is `PTRDIFF_MAX / sizeof(char*)`, and a full
vector asks for twice its size, at most `max_size()`. -/
def libstdcxx : Env where
  max_size := (2 ^ 63 - 1) / 8
  new_char := fun _ _ => true
  new_ptrs := fun _ => true
  grow := fun n => min ((2 ^ 63 - 1) / 8) (n + max n 1)

end MemoryOverflow

/-! # Theorems -/

/-! ## Reasoning about instrumented runs -/

namespace Run

variable {α β γ : Type}

theorem after_nil (r : Run α) : after [] r = r := rfl

theorem after_res (t : List Call) (r : Run α) : (after t r).res = r.res := rfl

theorem after_trace (t : List Call) (r : Run α) : (after t r).trace = t ++ r.trace := rfl

theorem after_mk (t u : List Call) (x : Except Error α) :
    after t ⟨u, x⟩ = ⟨t ++ u, x⟩ := rfl

theorem after_after (t u : List Call) (r : Run α) :
    after t (after u r) = after (t ++ u) r := by
  simp [after, List.append_assoc]

theorem after_ite (t : List Call) (c : Prop) [Decidable c] (x y : Run α) :
    after t (if c then x else y) = if c then after t x else after t y := by
  split <;> rfl

theorem after_pure (t : List Call) (a : α) : after t (pure a) = ⟨t, .ok a⟩ := by
  show after t (Run.ret a) = _
  simp [after, Run.ret]

theorem after_raise (t : List Call) (e : Error) : after t (Run.raise e : Run α) = ⟨t, .error e⟩ := by
  simp [after, Run.raise]

theorem pure_bind (a : α) (f : α → Run β) : (pure a : Run α) >>= f = f a := by
  show Run.andThen (Run.ret a) f = f a
  simp [Run.andThen, Run.ret]

theorem ite_bind (c : Prop) [Decidable c] (x y : Run α) (f : α → Run β) :
    (if c then x else y) >>= f = if c then x >>= f else y >>= f := by
  split <;> rfl

theorem bind_assoc (x : Run α) (f : α → Run β) (g : β → Run γ) :
    (x >>= f) >>= g = x >>= fun a => f a >>= g := by
  show Run.andThen (Run.andThen x f) g = Run.andThen x (fun a => Run.andThen (f a) g)
  unfold Run.andThen
  cases hx : x.res with
  | error e => simp
  | ok a =>
    simp only
    cases hf : (f a).res with
    | error e => simp
    | ok b => simp [List.append_assoc]

theorem after_emit_bind (t : List Call) (c : Call) (f : Unit → Run β) :
    after t (emit c >>= f) = after (t ++ [c]) (f ()) := by
  show after t (Run.andThen (emit c) f) = _
  simp [after, Run.andThen, emit]

theorem after_emit (t : List Call) (c : Call) : after t (emit c) = ⟨t ++ [c], .ok ()⟩ := rfl

theorem after_throwIf_bind (t : List Call) (cond : Bool) (msg : Error) (f : Unit → Run β) :
    after t (throwIf cond msg >>= f) = if cond then ⟨t, .error msg⟩ else after t (f ()) := by
  show after t (Run.andThen (throwIf cond msg) f) = _
  cases cond <;> simp [throwIf, Run.andThen, Run.raise, Run.ret, after]

theorem after_raise_bind (t : List Call) (e : Error) (f : α → Run β) :
    after t ((Run.raise e : Run α) >>= f) = ⟨t, .error e⟩ := by
  show after t (Run.andThen (Run.raise e) f) = _
  simp [Run.andThen, Run.raise, after]

theorem after_tryCatchAll (t : List Call) (x : Run α) (handler : Error → Run α) :
    after t (Run.tryCatchAll x handler) = Run.tryCatchAll (after t x) handler := by
  unfold Run.tryCatchAll
  cases h : x.res with
  | error e => simp [after, h, List.append_assoc]
  | ok a => simp [after, h]

theorem tryCatchAll_ite (c : Prop) [Decidable c] (x y : Run α) (handler : Error → Run α) :
    Run.tryCatchAll (if c then x else y) handler =
      if c then Run.tryCatchAll x handler else Run.tryCatchAll y handler := by
  split <;> rfl

theorem tryCatchAll_ok (t : List Call) (a : α) (handler : Error → Run α) :
    Run.tryCatchAll ⟨t, .ok a⟩ handler = ⟨t, .ok a⟩ := rfl

/-- The `catch (...)` handler of both functions frees the context and rethrows. -/
theorem tryCatchAll_error_free (t : List Call) (e : Error) :
    Run.tryCatchAll (⟨t, .error e⟩ : Run α)
        (fun e => do emit Call.EVP_CIPHER_CTX_free; Run.raise e) =
      ⟨t ++ [Call.EVP_CIPHER_CTX_free], .error e⟩ := rfl

end Run

/-! ## Vectors and casts -/

@[simp] theorem resize_length (v : List Byte) (n : Nat) : (resize v n).length = n := by
  simp [resize]; omega

@[simp] theorem memWrite_length (buf : List Byte) (off : Nat) (src : List Byte) :
    (memWrite buf off src).length = buf.length := by
  simp [memWrite]; omega

theorem resize_nil (n : Nat) : resize [] n = List.replicate n 0 := by
  simp [resize]

theorem memWrite_nil_src (buf : List Byte) (off : Nat) : memWrite buf off [] = buf := by
  simp [memWrite]

/-- A store that fills the whole vector leaves exactly the stored bytes. -/
theorem memWrite_full (buf src : List Byte) (h : src.length = buf.length) :
    memWrite buf 0 src = src := by
  simp [memWrite, h]

/-- Storing `src` at the start of a vector and resizing to `src.size()` leaves `src`. -/
theorem resize_memWrite (buf src : List Byte) (h : src.length ≤ buf.length) :
    resize (memWrite buf 0 src) src.length = src := by
  have h1 : (memWrite buf 0 src).take src.length = src := by
    simp only [memWrite, List.take_zero, List.nil_append, zero_add, List.take_take]
    rw [Nat.min_eq_left h, List.take_left']
    rfl
  simp [resize, h1, h]

theorem castInt_of_lt (n : Nat) (h : n < 2 ^ 31) : castInt n = n := by
  unfold castInt
  have : n % 2 ^ 32 = n := Nat.mod_eq_of_lt (by omega)
  rw [this, if_pos h]

theorem castInt_lt (n : Nat) : castInt n < 2 ^ 31 := by
  unfold castInt
  split <;> omega

theorem castInt_toNat_le (n : Nat) : (castInt n).toNat ≤ n := by
  unfold castInt
  have := Nat.mod_le n (2 ^ 32)
  split <;> omega

@[simp] theorem castInt_zero : castInt 0 = 0 := by decide

@[simp] theorem castInt_12 : castInt 12 = 12 := by decide

@[simp] theorem castInt_16 : castInt 16 = 16 := by decide

/-- The value `(int)n` for `n = 2^32`: the cast keeps the low 32 bits. -/
theorem castInt_two_pow_32 : castInt (2 ^ 32) = 0 := by decide

theorem castInt_neg_ne_nil (l : List Byte) (h : castInt l.length < 0) : l ≠ [] := by
  rintro rfl
  simp at h

/-! ## The key stream and the tag -/

namespace GCM

theorem xor_cancel (a b : Byte) : (a ^^^ b) ^^^ b = a := by
  apply Fin.ext
  have hab : a.val ^^^ b.val < 256 := Nat.xor_lt_two_pow (n := 8) a.isLt b.isLt
  show ((a.val ^^^ b.val) % 256 ^^^ b.val) % 256 = a.val
  rw [Nat.mod_eq_of_lt hab, Nat.xor_assoc, Nat.xor_self, Nat.xor_zero, Nat.mod_eq_of_lt a.isLt]

@[simp] theorem xorStream_length (ks : Nat → Byte) (off : Nat) (bs : List Byte) :
    (xorStream ks off bs).length = bs.length := by
  induction bs generalizing off with
  | nil => rfl
  | cons b bs ih => simp [xorStream, ih]

/-- Xoring twice with the same key stream from the same offset gives the bytes back. -/
theorem xorStream_xorStream (ks : Nat → Byte) (off : Nat) (bs : List Byte) :
    xorStream ks off (xorStream ks off bs) = bs := by
  induction bs generalizing off with
  | nil => rfl
  | cons b bs ih => simp [xorStream, ih, xor_cancel]

@[simp] theorem natBE_length (len n : Nat) : (natBE len n).length = len := by
  simp [natBE]

@[simp] theorem tagOf_length (E : List Byte → List Byte → List Byte) (key iv aad ct : List Byte) :
    (tagOf E key iv aad ct).length = 16 := by
  simp [tagOf]

end GCM

namespace AES

/-! ## AES-256 with a fixed key is one-to-one -/

theorem xor_lt_256 {a b : Nat} (ha : a < 256) (hb : b < 256) : a ^^^ b < 256 :=
  Nat.xor_lt_two_pow (n := 8) ha hb

theorem xor_left_comm (a b c : Nat) : a ^^^ (b ^^^ c) = b ^^^ (a ^^^ c) := by
  rw [← Nat.xor_assoc, Nat.xor_comm a b, Nat.xor_assoc]

set_option maxRecDepth 100000 in
theorem xtime_eq : ∀ b < 256, xtime b = (2 * b) % 256 ^^^ (if b.testBit 7 then 27 else 0) := by
  decide

set_option maxRecDepth 100000 in
theorem xtime_lt : ∀ b < 256, xtime b < 256 := by decide

theorem two_mul_xor (a b : Nat) : 2 * (a ^^^ b) = 2 * a ^^^ 2 * b := by
  apply Nat.eq_of_testBit_eq
  intro i
  have h : ∀ x, (2 * x).testBit i = (decide (i ≥ 1) && x.testBit (i - 1)) := fun x => by
    have := @Nat.testBit_mul_pow_two 1 x i
    simpa using this
  rw [Nat.testBit_xor, h, h, h, Nat.testBit_xor]
  cases decide (i ≥ 1) <;> simp

theorem xor_mod_256 (a b : Nat) : (a ^^^ b) % 256 = a % 256 ^^^ b % 256 := by
  apply Nat.eq_of_testBit_eq
  intro i
  have h : ∀ x, (x % 256).testBit i = (decide (i < 8) && x.testBit i) := fun x =>
    Nat.testBit_mod_two_pow x 8 i
  rw [Nat.testBit_xor, h, h, h, Nat.testBit_xor]
  cases decide (i < 8) <;> simp

/-- Multiplication by `x` in GF(2^8) is linear over xor. -/
theorem xtime_xor (a b : Nat) (ha : a < 256) (hb : b < 256) :
    xtime (a ^^^ b) = xtime a ^^^ xtime b := by
  rw [xtime_eq _ (xor_lt_256 ha hb), xtime_eq a ha, xtime_eq b hb, two_mul_xor, xor_mod_256,
    Nat.testBit_xor]
  cases a.testBit 7 <;> cases b.testBit 7 <;>
    simp [Nat.xor_assoc, Nat.xor_comm, xor_left_comm, Nat.xor_cancel_left]

theorem xtime_zero : xtime 0 = 0 := by decide

set_option maxRecDepth 100000 in
theorem sboxTable_lt : ∀ b ∈ sboxTable, b < 256 := by decide


/-- The kernel of MixColumns on one column is trivial. -/
theorem mixColumn_ker (d0 d1 d2 d3 : Nat) (h0 : d0 < 256) (h1 : d1 < 256) (h2 : d2 < 256)
    (h3 : d3 < 256)
    (e0 : xtime d0 ^^^ (xtime d1 ^^^ d1) ^^^ d2 ^^^ d3 = 0)
    (e1 : d0 ^^^ xtime d1 ^^^ (xtime d2 ^^^ d2) ^^^ d3 = 0)
    (e2 : d0 ^^^ d1 ^^^ xtime d2 ^^^ (xtime d3 ^^^ d3) = 0)
    (e3 : (xtime d0 ^^^ d0) ^^^ d1 ^^^ d2 ^^^ xtime d3 = 0) :
    d0 = 0 ∧ d1 = 0 ∧ d2 = 0 ∧ d3 = 0 := by
  have l01 := xtime_xor d0 d1 h0 h1
  have l23 := xtime_xor d2 d3 h2 h3
  have l12 := xtime_xor d1 d2 h1 h2
  have l30 := xtime_xor d3 d0 h3 h0
  have la := xtime_xor (d0 ^^^ d1) (d2 ^^^ d3) (xor_lt_256 h0 h1) (xor_lt_256 h2 h3)
  have lb := xtime_xor (d1 ^^^ d2) (d3 ^^^ d0) (xor_lt_256 h1 h2) (xor_lt_256 h3 h0)
  generalize hf0 : xtime d0 = f0 at *
  generalize hf1 : xtime d1 = f1 at *
  generalize hf2 : xtime d2 = f2 at *
  generalize hf3 : xtime d3 = f3 at *
  have t : d0 ^^^ d1 ^^^ d2 ^^^ d3 = 0 := by
    have : d0 ^^^ d1 ^^^ d2 ^^^ d3 =
        (f0 ^^^ (f1 ^^^ d1) ^^^ d2 ^^^ d3) ^^^ (d0 ^^^ f1 ^^^ (f2 ^^^ d2) ^^^ d3) ^^^
        (d0 ^^^ d1 ^^^ f2 ^^^ (f3 ^^^ d3)) ^^^ ((f0 ^^^ d0) ^^^ d1 ^^^ d2 ^^^ f3) := by
      simp only [Nat.xor_assoc, Nat.xor_comm, xor_left_comm, Nat.xor_cancel_left, Nat.xor_self,
        Nat.xor_zero]
    rw [this, e0, e1, e2, e3]
    rfl
  have q0 : d0 = f0 ^^^ f1 := by
    apply Nat.xor_eq_zero.mp
    have : d0 ^^^ (f0 ^^^ f1) =
        (f0 ^^^ (f1 ^^^ d1) ^^^ d2 ^^^ d3) ^^^ (d0 ^^^ d1 ^^^ d2 ^^^ d3) := by
      simp only [Nat.xor_assoc, Nat.xor_comm, xor_left_comm, Nat.xor_cancel_left, Nat.xor_self,
        Nat.xor_zero]
    rw [this, e0, t]
    rfl
  have q1 : d1 = f1 ^^^ f2 := by
    apply Nat.xor_eq_zero.mp
    have : d1 ^^^ (f1 ^^^ f2) =
        (d0 ^^^ f1 ^^^ (f2 ^^^ d2) ^^^ d3) ^^^ (d0 ^^^ d1 ^^^ d2 ^^^ d3) := by
      simp only [Nat.xor_assoc, Nat.xor_comm, xor_left_comm, Nat.xor_cancel_left, Nat.xor_self,
        Nat.xor_zero]
    rw [this, e1, t]
    rfl
  have q2 : d2 = f2 ^^^ f3 := by
    apply Nat.xor_eq_zero.mp
    have : d2 ^^^ (f2 ^^^ f3) =
        (d0 ^^^ d1 ^^^ f2 ^^^ (f3 ^^^ d3)) ^^^ (d0 ^^^ d1 ^^^ d2 ^^^ d3) := by
      simp only [Nat.xor_assoc, Nat.xor_comm, xor_left_comm, Nat.xor_cancel_left, Nat.xor_self,
        Nat.xor_zero]
    rw [this, e2, t]
    rfl
  have q3 : d3 = f3 ^^^ f0 := by
    apply Nat.xor_eq_zero.mp
    have : d3 ^^^ (f3 ^^^ f0) =
        ((f0 ^^^ d0) ^^^ d1 ^^^ d2 ^^^ f3) ^^^ (d0 ^^^ d1 ^^^ d2 ^^^ d3) := by
      simp only [Nat.xor_assoc, Nat.xor_comm, xor_left_comm, Nat.xor_cancel_left, Nat.xor_self,
        Nat.xor_zero]
    rw [this, e3, t]
    rfl
  have ta : (d0 ^^^ d1) ^^^ (d2 ^^^ d3) = 0 := by rw [← t]; simp only [Nat.xor_assoc]
  have tb : (d1 ^^^ d2) ^^^ (d3 ^^^ d0) = 0 := by
    rw [← t]
    simp only [Nat.xor_assoc, Nat.xor_comm, xor_left_comm]
  rw [ta, xtime_zero, l01, l23] at la
  rw [tb, xtime_zero, l12, l30] at lb
  have e02 : d0 = d2 := by
    apply Nat.xor_eq_zero.mp
    rw [q0, q2]
    exact la.symm
  have e13 : d1 = d3 := by
    apply Nat.xor_eq_zero.mp
    rw [q1, q3]
    exact lb.symm
  have g02 : f0 = f2 := by rw [← hf0, ← hf2, e02]
  have e01 : d0 = d1 := by rw [q0, q1, ← g02, Nat.xor_comm]
  have g01 : f0 = f1 := by rw [← hf0, ← hf1, e01]
  have z0 : d0 = 0 := by rw [q0, ← g01, Nat.xor_self]
  exact ⟨z0, by rw [← e01, z0], by rw [← e02, z0], by rw [← e13, ← e01, z0]⟩

/-- MixColumns on one column is one-to-one on bytes. -/
theorem mixColumn_inj (a0 a1 a2 a3 b0 b1 b2 b3 : Nat)
    (ha0 : a0 < 256) (ha1 : a1 < 256) (ha2 : a2 < 256) (ha3 : a3 < 256)
    (hb0 : b0 < 256) (hb1 : b1 < 256) (hb2 : b2 < 256) (hb3 : b3 < 256)
    (h : mixColumn a0 a1 a2 a3 = mixColumn b0 b1 b2 b3) :
    a0 = b0 ∧ a1 = b1 ∧ a2 = b2 ∧ a3 = b3 := by
  simp only [mixColumn, List.cons.injEq, and_true] at h
  obtain ⟨e0, e1, e2, e3⟩ := h
  have l0 := xtime_xor a0 b0 ha0 hb0
  have l1 := xtime_xor a1 b1 ha1 hb1
  have l2 := xtime_xor a2 b2 ha2 hb2
  have l3 := xtime_xor a3 b3 ha3 hb3
  have k := mixColumn_ker (a0 ^^^ b0) (a1 ^^^ b1) (a2 ^^^ b2) (a3 ^^^ b3)
    (xor_lt_256 ha0 hb0) (xor_lt_256 ha1 hb1) (xor_lt_256 ha2 hb2) (xor_lt_256 ha3 hb3)
    (by
      rw [l0, l1]
      have : xtime a0 ^^^ xtime b0 ^^^ (xtime a1 ^^^ xtime b1 ^^^ (a1 ^^^ b1)) ^^^ (a2 ^^^ b2) ^^^
          (a3 ^^^ b3) =
          (xtime a0 ^^^ (xtime a1 ^^^ a1) ^^^ a2 ^^^ a3) ^^^
          (xtime b0 ^^^ (xtime b1 ^^^ b1) ^^^ b2 ^^^ b3) := by
        simp only [Nat.xor_assoc, Nat.xor_comm, xor_left_comm]
      rw [this, e0, Nat.xor_self])
    (by
      rw [l1, l2]
      have : a0 ^^^ b0 ^^^ (xtime a1 ^^^ xtime b1) ^^^ (xtime a2 ^^^ xtime b2 ^^^ (a2 ^^^ b2)) ^^^
          (a3 ^^^ b3) =
          (a0 ^^^ xtime a1 ^^^ (xtime a2 ^^^ a2) ^^^ a3) ^^^
          (b0 ^^^ xtime b1 ^^^ (xtime b2 ^^^ b2) ^^^ b3) := by
        simp only [Nat.xor_assoc, Nat.xor_comm, xor_left_comm]
      rw [this, e1, Nat.xor_self])
    (by
      rw [l2, l3]
      have : a0 ^^^ b0 ^^^ (a1 ^^^ b1) ^^^ (xtime a2 ^^^ xtime b2) ^^^
          (xtime a3 ^^^ xtime b3 ^^^ (a3 ^^^ b3)) =
          (a0 ^^^ a1 ^^^ xtime a2 ^^^ (xtime a3 ^^^ a3)) ^^^
          (b0 ^^^ b1 ^^^ xtime b2 ^^^ (xtime b3 ^^^ b3)) := by
        simp only [Nat.xor_assoc, Nat.xor_comm, xor_left_comm]
      rw [this, e2, Nat.xor_self])
    (by
      rw [l0, l3]
      have : (xtime a0 ^^^ xtime b0 ^^^ (a0 ^^^ b0)) ^^^ (a1 ^^^ b1) ^^^ (a2 ^^^ b2) ^^^
          (xtime a3 ^^^ xtime b3) =
          ((xtime a0 ^^^ a0) ^^^ a1 ^^^ a2 ^^^ xtime a3) ^^^
          ((xtime b0 ^^^ b0) ^^^ b1 ^^^ b2 ^^^ xtime b3) := by
        simp only [Nat.xor_assoc, Nat.xor_comm, xor_left_comm]
      rw [this, e3, Nat.xor_self])
  exact ⟨Nat.xor_eq_zero.mp k.1, Nat.xor_eq_zero.mp k.2.1, Nat.xor_eq_zero.mp k.2.2.1,
    Nat.xor_eq_zero.mp k.2.2.2⟩

/-! ### States: lists of 16 bytes -/

theorem getD_lt (s : List Nat) (hb : ∀ b ∈ s, b < 256) (i : Nat) : s.getD i 0 < 256 := by
  rw [List.getD_eq_getElem?_getD]
  by_cases h : i < s.length
  · rw [List.getElem?_eq_getElem h]
    exact hb _ (List.getElem_mem h)
  · rw [List.getElem?_eq_none (by omega)]
    decide

theorem ext_getD (s t : List Nat) (n : Nat) (hs : s.length = n) (ht : t.length = n)
    (h : ∀ i < n, s.getD i 0 = t.getD i 0) : s = t := by
  apply List.ext_getElem (by omega)
  intro i h1 h2
  have := h i (by omega)
  simpa only [List.getD_eq_getElem?_getD, List.getElem?_eq_getElem h1,
    List.getElem?_eq_getElem h2, Option.getD_some] using this

theorem map_inj_on {α β : Type} (f : α → β) (P : α → Prop)
    (hf : ∀ a b, P a → P b → f a = f b → a = b) :
    ∀ s t : List α, (∀ a ∈ s, P a) → (∀ a ∈ t, P a) → s.map f = t.map f → s = t := by
  intro s
  induction s with
  | nil => intro t _ _ h; cases t with
    | nil => rfl
    | cons b t => simp at h
  | cons a s ih =>
    intro t hs ht h
    cases t with
    | nil => simp at h
    | cons b t =>
      simp only [List.map_cons, List.cons.injEq] at h
      rw [hf a b (hs a (List.mem_cons_self _ _)) (ht b (List.mem_cons_self _ _)) h.1,
        ih t (fun x hx => hs x (List.mem_cons_of_mem _ hx))
          (fun x hx => ht x (List.mem_cons_of_mem _ hx)) h.2]

theorem xorBytes_length (a b : List Nat) : (xorBytes a b).length = min a.length b.length := by
  simp [xorBytes]

theorem xorBytes_lt (a b : List Nat) (ha : ∀ x ∈ a, x < 256) (hb : ∀ x ∈ b, x < 256) :
    ∀ x ∈ xorBytes a b, x < 256 := by
  induction a generalizing b with
  | nil => intro x hx; simp [xorBytes] at hx
  | cons a0 a ih =>
    cases b with
    | nil => intro x hx; simp [xorBytes] at hx
    | cons b0 b =>
      intro x hx
      simp only [xorBytes, List.zipWith_cons_cons, List.mem_cons] at hx
      rcases hx with rfl | hx
      · exact xor_lt_256 (ha _ (List.mem_cons_self _ _)) (hb _ (List.mem_cons_self _ _))
      · exact ih b (fun y hy => ha y (List.mem_cons_of_mem _ hy))
          (fun y hy => hb y (List.mem_cons_of_mem _ hy)) x hx

/-- AddRoundKey is one-to-one on states at least as short as the round key. -/
theorem xorBytes_inj (k : List Nat) : ∀ s t : List Nat, s.length = t.length →
    s.length ≤ k.length → xorBytes s k = xorBytes t k → s = t := by
  induction k with
  | nil =>
    intro s t hst hs _
    have h1 : s = [] := List.length_eq_zero.mp (by simpa using hs)
    have h2 : t = [] := List.length_eq_zero.mp (by rw [← hst, h1]; rfl)
    rw [h1, h2]
  | cons k0 k ih =>
    intro s t hst hs h
    cases s with
    | nil =>
      have h2 : t = [] := List.length_eq_zero.mp (by rw [← hst]; rfl)
      rw [h2]
    | cons s0 s =>
      cases t with
      | nil => simp at hst
      | cons t0 t =>
        simp only [xorBytes, List.zipWith_cons_cons, List.cons.injEq] at h
        rw [Nat.xor_left_inj.mp h.1, ih s t (by simpa using hst) (by simpa using hs) h.2]

theorem subByte_lt (b : Nat) : subByte b < 256 := by
  unfold subByte
  rw [List.getD_eq_getElem?_getD]
  by_cases h : b < sboxTable.length
  · rw [List.getElem?_eq_getElem h]
    exact sboxTable_lt _ (List.getElem_mem h)
  · rw [List.getElem?_eq_none (by omega)]
    decide

set_option maxRecDepth 100000 in
theorem invSubByte_subByte : ∀ b < 256, invSubByte (subByte b) = b := by decide

theorem subByte_inj (a b : Nat) (ha : a < 256) (hb : b < 256) (h : subByte a = subByte b) :
    a = b := by
  rw [← invSubByte_subByte a ha, ← invSubByte_subByte b hb, h]

theorem subBytes_length (s : List Nat) : (subBytes s).length = s.length := by
  simp [subBytes]

theorem subBytes_lt (s : List Nat) : ∀ x ∈ subBytes s, x < 256 := by
  intro x hx
  simp only [subBytes, List.mem_map] at hx
  obtain ⟨a, -, rfl⟩ := hx
  exact subByte_lt a

theorem subBytes_inj (s t : List Nat) (hs : ∀ x ∈ s, x < 256) (ht : ∀ x ∈ t, x < 256)
    (h : subBytes s = subBytes t) : s = t :=
  map_inj_on subByte (fun x => x < 256) subByte_inj s t hs ht h

theorem shiftRows_length (s : List Nat) : (shiftRows s).length = 16 := rfl

theorem shiftRows_lt (s : List Nat) (hs : ∀ x ∈ s, x < 256) : ∀ x ∈ shiftRows s, x < 256 := by
  intro x hx
  simp only [shiftRows, List.mem_map] at hx
  obtain ⟨i, -, rfl⟩ := hx
  exact getD_lt s hs i

theorem shiftRows_inj (s t : List Nat) (hs : s.length = 16) (ht : t.length = 16)
    (h : shiftRows s = shiftRows t) : s = t := by
  simp only [shiftRows, List.map_cons, List.map_nil, List.cons.injEq, and_true] at h
  obtain ⟨h0, h5, h10, h15, h4, h9, h14, h3, h8, h13, h2, h7, h12, h1, h6, h11⟩ := h
  apply ext_getD s t 16 hs ht
  intro i hi
  interval_cases i <;> assumption

theorem mixColumn_length (a0 a1 a2 a3 : Nat) : (mixColumn a0 a1 a2 a3).length = 4 := rfl

theorem mixColumn_lt (a0 a1 a2 a3 : Nat) (h0 : a0 < 256) (h1 : a1 < 256) (h2 : a2 < 256)
    (h3 : a3 < 256) : ∀ x ∈ mixColumn a0 a1 a2 a3, x < 256 := by
  have f0 := xtime_lt a0 h0
  have f1 := xtime_lt a1 h1
  have f2 := xtime_lt a2 h2
  have f3 := xtime_lt a3 h3
  intro x hx
  simp only [mixColumn, List.mem_cons, List.mem_singleton, List.not_mem_nil, or_false] at hx
  rcases hx with rfl | rfl | rfl | rfl <;>
    exact xor_lt_256 (xor_lt_256 (xor_lt_256 (by first | assumption | exact xor_lt_256 ‹_› ‹_›)
      (by first | assumption | exact xor_lt_256 ‹_› ‹_›))
      (by first | assumption | exact xor_lt_256 ‹_› ‹_›))
      (by first | assumption | exact xor_lt_256 ‹_› ‹_›)

theorem mixColumns_length (s : List Nat) : (mixColumns s).length = 16 := rfl

theorem mixColumns_lt (s : List Nat) (hs : ∀ x ∈ s, x < 256) : ∀ x ∈ mixColumns s, x < 256 := by
  intro x hx
  simp only [mixColumns, List.mem_append] at hx
  rcases hx with ((hx | hx) | hx) | hx <;>
    exact mixColumn_lt _ _ _ _ (getD_lt s hs _) (getD_lt s hs _) (getD_lt s hs _)
      (getD_lt s hs _) x hx

theorem mixColumns_inj (s t : List Nat) (hs : s.length = 16) (ht : t.length = 16)
    (hsb : ∀ x ∈ s, x < 256) (htb : ∀ x ∈ t, x < 256) (h : mixColumns s = mixColumns t) :
    s = t := by
  unfold mixColumns at h
  obtain ⟨h012, h3⟩ := List.append_inj h rfl
  obtain ⟨h01, h2⟩ := List.append_inj h012 rfl
  obtain ⟨h0, h1⟩ := List.append_inj h01 rfl
  have k0 := mixColumn_inj _ _ _ _ _ _ _ _ (getD_lt s hsb _) (getD_lt s hsb _) (getD_lt s hsb _)
    (getD_lt s hsb _) (getD_lt t htb _) (getD_lt t htb _) (getD_lt t htb _) (getD_lt t htb _) h0
  have k1 := mixColumn_inj _ _ _ _ _ _ _ _ (getD_lt s hsb _) (getD_lt s hsb _) (getD_lt s hsb _)
    (getD_lt s hsb _) (getD_lt t htb _) (getD_lt t htb _) (getD_lt t htb _) (getD_lt t htb _) h1
  have k2 := mixColumn_inj _ _ _ _ _ _ _ _ (getD_lt s hsb _) (getD_lt s hsb _) (getD_lt s hsb _)
    (getD_lt s hsb _) (getD_lt t htb _) (getD_lt t htb _) (getD_lt t htb _) (getD_lt t htb _) h2
  have k3 := mixColumn_inj _ _ _ _ _ _ _ _ (getD_lt s hsb _) (getD_lt s hsb _) (getD_lt s hsb _)
    (getD_lt s hsb _) (getD_lt t htb _) (getD_lt t htb _) (getD_lt t htb _) (getD_lt t htb _) h3
  obtain ⟨e0, e1, e2, e3⟩ := k0
  obtain ⟨e4, e5, e6, e7⟩ := k1
  obtain ⟨e8, e9, e10, e11⟩ := k2
  obtain ⟨e12, e13, e14, e15⟩ := k3
  apply ext_getD s t 16 hs ht
  intro i hi
  interval_cases i <;> assumption

/-- One round (SubBytes, ShiftRows, MixColumns, AddRoundKey with a 16-byte round key)
keeps a state a list of 16 bytes and is one-to-one on such states. -/
theorem round_inj (rk s t : List Nat) (hrk : rk.length = 16)
    (hs : s.length = 16) (ht : t.length = 16)
    (hsb : ∀ x ∈ s, x < 256) (htb : ∀ x ∈ t, x < 256)
    (h : xorBytes (mixColumns (shiftRows (subBytes s))) rk =
      xorBytes (mixColumns (shiftRows (subBytes t))) rk) : s = t := by
  have h1 := xorBytes_inj rk _ _ (by rw [mixColumns_length, mixColumns_length])
    (by rw [mixColumns_length, hrk]) h
  have h2 := mixColumns_inj _ _ (shiftRows_length _) (shiftRows_length _)
    (shiftRows_lt _ (subBytes_lt s)) (shiftRows_lt _ (subBytes_lt t)) h1
  have h3 := shiftRows_inj _ _ (by rw [subBytes_length, hs]) (by rw [subBytes_length, ht]) h2
  exact subBytes_inj s t hsb htb h3

theorem round_length (rk s : List Nat) (hrk : rk.length = 16) :
    (xorBytes (mixColumns (shiftRows (subBytes s))) rk).length = 16 := by
  rw [xorBytes_length, mixColumns_length, hrk]
  rfl

theorem round_lt (rk s : List Nat) (hrkb : ∀ x ∈ rk, x < 256) :
    ∀ x ∈ xorBytes (mixColumns (shiftRows (subBytes s))) rk, x < 256 :=
  xorBytes_lt _ _ (mixColumns_lt _ (shiftRows_lt _ (subBytes_lt s))) hrkb

/-- The rounds keep a state of 16 bytes and are one-to-one on such states when the
round keys they use are lists of 16 bytes. -/
theorem rounds_spec (w : List (List Nat)) : ∀ n r : Nat,
    (∀ j, r ≤ j → j < r + n → (roundKey w j).length = 16 ∧ ∀ x ∈ roundKey w j, x < 256) →
    ∀ s t : List Nat, s.length = 16 → t.length = 16 → (∀ x ∈ s, x < 256) → (∀ x ∈ t, x < 256) →
      ((rounds w n r s).length = 16 ∧ (∀ x ∈ rounds w n r s, x < 256)) ∧
      (rounds w n r s = rounds w n r t → s = t) := by
  intro n
  induction n with
  | zero =>
    intro r _ s t hs _ hsb _
    exact ⟨⟨hs, hsb⟩, fun h => h⟩
  | succ n ih =>
    intro r hw s t hs ht hsb htb
    obtain ⟨hk, hkb⟩ := hw r (Nat.le_refl _) (by omega)
    have hw2 : ∀ j, r + 1 ≤ j → j < r + 1 + n →
        (roundKey w j).length = 16 ∧ ∀ x ∈ roundKey w j, x < 256 :=
      fun j h1 h2 => hw j (by omega) (by omega)
    have hi := ih (r + 1) hw2 _ _ (round_length _ s hk) (round_length _ t hk)
      (round_lt _ s hkb) (round_lt _ t hkb)
    refine ⟨hi.1, fun h => ?_⟩
    exact round_inj _ s t hk hs ht hsb htb (hi.2 h)

/-- The cipher with a key schedule of fifteen 16-byte round keys is one-to-one on
blocks of 16 bytes. -/
theorem encryptBlock_inj (key s t : List Nat)
    (hw : ∀ j, j < 15 → (roundKey (keySchedule key) j).length = 16 ∧
      ∀ x ∈ roundKey (keySchedule key) j, x < 256)
    (hs : s.length = 16) (ht : t.length = 16) (hsb : ∀ x ∈ s, x < 256) (htb : ∀ x ∈ t, x < 256)
    (h : encryptBlock key s = encryptBlock key t) : s = t := by
  unfold encryptBlock at h
  simp only at h
  obtain ⟨hk0, hk0b⟩ := hw 0 (by omega)
  obtain ⟨hk14, -⟩ := hw 14 (by omega)
  have hr := rounds_spec (keySchedule key) 13 1 (fun j _ h2 => hw j (by omega))
    (xorBytes s (roundKey (keySchedule key) 0)) (xorBytes t (roundKey (keySchedule key) 0))
    (by rw [xorBytes_length, hs, hk0]; rfl) (by rw [xorBytes_length, ht, hk0]; rfl)
    (xorBytes_lt _ _ hsb hk0b) (xorBytes_lt _ _ htb hk0b)
  have hr' := rounds_spec (keySchedule key) 13 1 (fun j _ h2 => hw j (by omega))
    (xorBytes t (roundKey (keySchedule key) 0)) (xorBytes s (roundKey (keySchedule key) 0))
    (by rw [xorBytes_length, ht, hk0]; rfl) (by rw [xorBytes_length, hs, hk0]; rfl)
    (xorBytes_lt _ _ htb hk0b) (xorBytes_lt _ _ hsb hk0b)
  have h1 := xorBytes_inj _ _ _ (by rw [shiftRows_length, shiftRows_length])
    (by rw [shiftRows_length, hk14]) h
  have h2 := shiftRows_inj _ _ (by rw [subBytes_length]; exact hr.1.1)
    (by rw [subBytes_length]; exact hr'.1.1) h1
  have h3 := subBytes_inj _ _ hr.1.2 hr'.1.2 h2
  exact xorBytes_inj _ s t (by rw [hs, ht]) (by rw [hs, hk0]) (hr.2 h3)

/-! ### The key schedule -/

theorem getD_mem_words (w : List (List Nat)) (i : Nat) (h : i < w.length) : w.getD i [] ∈ w := by
  rw [List.getD_eq_getElem?_getD, List.getElem?_eq_getElem h]
  exact List.getElem_mem h

set_option maxRecDepth 100000 in
theorem rcon_lt : ∀ b ∈ rcon, b < 256 := by decide

/-- The next word of the key schedule is a word of four bytes when the words so far
are. -/
theorem nextWord_ok (w : List (List Nat))
    (hw : ∀ x ∈ w, x.length = 4 ∧ ∀ b ∈ x, b < 256) (hl : 8 ≤ w.length) :
    (nextWord w).length = 4 ∧ ∀ b ∈ nextWord w, b < 256 := by
  obtain ⟨ha, hab⟩ := hw _ (getD_mem_words w (w.length - 8) (by omega))
  obtain ⟨hp, hpb⟩ := hw _ (getD_mem_words w (w.length - 1) (by omega))
  have hrot : (rotWord (w.getD (w.length - 1) [])).length = 4 := by
    simp only [rotWord, List.length_append, List.length_drop, List.length_take, hp]
    rfl
  have hc : ∀ b ∈ [rcon.getD (w.length / 8 - 1) 0, 0, 0, 0], b < 256 := by
    intro b hb
    simp only [List.mem_cons, List.mem_singleton, List.not_mem_nil, or_false] at hb
    rcases hb with rfl | rfl | rfl | rfl
    · exact getD_lt rcon rcon_lt _
    all_goals decide
  unfold nextWord
  simp only
  split
  · refine ⟨?_, xorBytes_lt _ _ hab (xorBytes_lt _ _ (subBytes_lt _) hc)⟩
    rw [xorBytes_length, xorBytes_length, subBytes_length, hrot, ha]
    rfl
  · split
    · refine ⟨?_, xorBytes_lt _ _ hab (subBytes_lt _)⟩
      rw [xorBytes_length, subBytes_length, hp, ha]
      rfl
    · refine ⟨?_, xorBytes_lt _ _ hab hpb⟩
      rw [xorBytes_length, hp, ha]
      rfl

theorem expandKey_ok : ∀ (n : Nat) (w : List (List Nat)),
    (∀ x ∈ w, x.length = 4 ∧ ∀ b ∈ x, b < 256) → 8 ≤ w.length →
    (∀ x ∈ expandKey n w, x.length = 4 ∧ ∀ b ∈ x, b < 256) ∧
      (expandKey n w).length = w.length + n := by
  intro n
  induction n with
  | zero => intro w hw _; exact ⟨hw, rfl⟩
  | succ n ih =>
    intro w hw hl
    have hw2 : ∀ x ∈ w ++ [nextWord w], x.length = 4 ∧ ∀ b ∈ x, b < 256 := by
      intro x hx
      rcases List.mem_append.mp hx with h | h
      · exact hw x h
      · rw [List.mem_singleton.mp h]
        exact nextWord_ok w hw hl
    obtain ⟨h1, h2⟩ := ih (w ++ [nextWord w]) hw2 (by simp; omega)
    refine ⟨h1, ?_⟩
    show (expandKey n (w ++ [nextWord w])).length = _
    rw [h2]
    simp
    omega

/-- The key schedule of a 32-byte key: 60 words of four bytes. -/
theorem keySchedule_ok (key : List Nat) (hk : key.length = 32) (hkb : ∀ b ∈ key, b < 256) :
    (∀ x ∈ keySchedule key, x.length = 4 ∧ ∀ b ∈ x, b < 256) ∧
      (keySchedule key).length = 60 := by
  have h0 : ∀ x ∈ (List.range 8).map (fun j => (key.drop (4 * j)).take 4),
      x.length = 4 ∧ ∀ b ∈ x, b < 256 := by
    intro x hx
    simp only [List.mem_map, List.mem_range] at hx
    obtain ⟨j, hj, rfl⟩ := hx
    refine ⟨?_, fun b hb => hkb b (List.mem_of_mem_drop (List.mem_of_mem_take hb))⟩
    simp only [List.length_take, List.length_drop, hk]
    omega
  obtain ⟨h1, h2⟩ := expandKey_ok 52 _ h0 (by simp)
  refine ⟨h1, ?_⟩
  unfold keySchedule
  rw [h2]
  simp

/-- Each of the fifteen round keys of a 32-byte key is a list of 16 bytes. -/
theorem roundKey_ok (key : List Nat) (hk : key.length = 32) (hkb : ∀ b ∈ key, b < 256)
    (j : Nat) (hj : j < 15) :
    (roundKey (keySchedule key) j).length = 16 ∧ ∀ x ∈ roundKey (keySchedule key) j, x < 256 := by
  obtain ⟨hw, hl⟩ := keySchedule_ok key hk hkb
  obtain ⟨a0, b0⟩ := hw _ (getD_mem_words (keySchedule key) (4 * j) (by omega))
  obtain ⟨a1, b1⟩ := hw _ (getD_mem_words (keySchedule key) (4 * j + 1) (by omega))
  obtain ⟨a2, b2⟩ := hw _ (getD_mem_words (keySchedule key) (4 * j + 2) (by omega))
  obtain ⟨a3, b3⟩ := hw _ (getD_mem_words (keySchedule key) (4 * j + 3) (by omega))
  unfold roundKey
  refine ⟨by simp only [List.length_append, a0, a1, a2, a3], ?_⟩
  intro x hx
  simp only [List.mem_append] at hx
  rcases hx with ((h | h) | h) | h
  · exact b0 x h
  · exact b1 x h
  · exact b2 x h
  · exact b3 x h

theorem encryptBlock_lt (key s : List Nat)
    (hw : ∀ x ∈ roundKey (keySchedule key) 14, x < 256) : ∀ x ∈ encryptBlock key s, x < 256 :=
  xorBytes_lt _ _ (shiftRows_lt _ (subBytes_lt _)) hw

end AES

theorem Fin.ofNat_inj_of_lt (a b : Nat) (ha : a < 256) (hb : b < 256)
    (h : (Fin.ofNat a : Byte) = Fin.ofNat b) : a = b := by
  have := congrArg Fin.val h
  simp only [Fin.ofNat, Nat.mod_eq_of_lt ha, Nat.mod_eq_of_lt hb] at this
  exact this

/-- AES-256 under a 32-byte key gives a block of 16 bytes. -/
theorem aes256_length (key blk : List Byte) (hk : key.length = 32) :
    (aes256 key blk).length = 16 := by
  have hv : ∀ b ∈ key.map Fin.val, b < 256 := by
    intro b hb
    simp only [List.mem_map] at hb
    obtain ⟨x, -, rfl⟩ := hb
    exact x.isLt
  have hw := AES.roundKey_ok (key.map Fin.val) (by simpa using hk) hv 14 (by omega)
  unfold aes256 AES.encryptBlock
  simp only [List.length_map]
  rw [AES.xorBytes_length, AES.shiftRows_length, hw.1]
  rfl

/-- AES-256 under a 32-byte key is one-to-one on 16-byte blocks. -/
theorem aes256_inj (key blk1 blk2 : List Byte) (hk : key.length = 32)
    (h1 : blk1.length = 16) (h2 : blk2.length = 16) (h : aes256 key blk1 = aes256 key blk2) :
    blk1 = blk2 := by
  have hv : ∀ l : List Byte, ∀ b ∈ l.map Fin.val, b < 256 := by
    intro l b hb
    simp only [List.mem_map] at hb
    obtain ⟨x, -, rfl⟩ := hb
    exact x.isLt
  have hw := AES.roundKey_ok (key.map Fin.val) (by simpa using hk) (hv key)
  unfold aes256 at h
  have hE1 := AES.encryptBlock_lt (key.map Fin.val) (blk1.map Fin.val) (hw 14 (by omega)).2
  have hE2 := AES.encryptBlock_lt (key.map Fin.val) (blk2.map Fin.val) (hw 14 (by omega)).2
  have e := AES.map_inj_on (Fin.ofNat : Nat → Byte) (fun x => x < 256)
    (fun a b ha hb hab => Fin.ofNat_inj_of_lt a b ha hb hab) _ _ hE1 hE2 h
  have e2 := AES.encryptBlock_inj _ _ _ hw (by simpa using h1) (by simpa using h2)
    (hv blk1) (hv blk2) e
  exact List.map_injective_iff.mpr Fin.val_injective e2

namespace GCM

theorem foldl_beNat_inj : ∀ (bs cs : List Byte) (a c : Nat), bs.length = cs.length →
    bs.foldl (fun acc b => acc * 256 + b.val) a = cs.foldl (fun acc b => acc * 256 + b.val) c →
    a = c ∧ bs = cs := by
  intro bs
  induction bs with
  | nil =>
    intro cs a c hl h
    have : cs = [] := List.length_eq_zero.mp hl.symm
    subst this
    exact ⟨h, rfl⟩
  | cons b bs ih =>
    intro cs a c hl h
    cases cs with
    | nil => simp at hl
    | cons d cs =>
      simp only [List.foldl_cons] at h
      obtain ⟨h1, h2⟩ := ih cs _ _ (by simpa using hl) h
      have hb := b.isLt
      have hd := d.isLt
      have : a = c ∧ b.val = d.val := by omega
      exact ⟨this.1, by rw [Fin.ext this.2, h2]⟩

/-- Byte strings of one length with the same big-endian value are equal. -/
theorem beNat_inj (bs cs : List Byte) (hl : bs.length = cs.length) (h : beNat bs = beNat cs) :
    bs = cs :=
  (foldl_beNat_inj bs cs 0 0 hl h).2

theorem foldl_beNat_lt : ∀ (bs : List Byte) (a : Nat),
    bs.foldl (fun acc b => acc * 256 + b.val) a < (a + 1) * 256 ^ bs.length := by
  intro bs
  induction bs with
  | nil => intro a; simp
  | cons b bs ih =>
    intro a
    simp only [List.foldl_cons, List.length_cons]
    have h := ih (a * 256 + b.val)
    have hb := b.isLt
    calc _ < (a * 256 + b.val + 1) * 256 ^ bs.length := h
      _ ≤ ((a + 1) * 256) * 256 ^ bs.length := Nat.mul_le_mul_right _ (by omega)
      _ = (a + 1) * 256 ^ (bs.length + 1) := by rw [Nat.pow_succ]; ring

theorem beNat_lt (bs : List Byte) : beNat bs < 256 ^ bs.length := by
  have := foldl_beNat_lt bs 0
  simpa [beNat] using this

theorem digits_eq (a b : Nat) : ∀ len : Nat,
    (∀ j < len, a / 256 ^ j % 256 = b / 256 ^ j % 256) → a % 256 ^ len = b % 256 ^ len := by
  intro len
  induction len with
  | zero => intro _; simp [Nat.mod_one]
  | succ n ih =>
    intro h
    rw [Nat.mod_pow_succ, Nat.mod_pow_succ, ih (fun j hj => h j (by omega)), h n (by omega)]

/-- Two numbers with the same `len` low-order bytes agree modulo `256 ^ len`. -/
theorem natBE_inj (len a b : Nat) (h : natBE len a = natBE len b) :
    a % 256 ^ len = b % 256 ^ len := by
  apply digits_eq
  intro j hj
  unfold natBE at h
  have h2 := List.map_inj_left.mp h (len - 1 - j) (List.mem_range.mpr (by omega))
  have h3 := congrArg Fin.val h2
  simp only [Fin.ofNat] at h3
  have : len - 1 - (len - 1 - j) = j := by omega
  rw [this] at h3
  exact h3

theorem xor_mod_two_pow (a b n : Nat) : (a ^^^ b) % 2 ^ n = a % 2 ^ n ^^^ b % 2 ^ n := by
  apply Nat.eq_of_testBit_eq
  intro i
  rw [Nat.testBit_xor, Nat.testBit_mod_two_pow, Nat.testBit_mod_two_pow,
    Nat.testBit_mod_two_pow, Nat.testBit_xor]
  cases decide (i < n) <;> simp

/-- Under one 32-byte key, two different 12-byte nonces give different tags for the
same associated data and ciphertext: the two pre-counter blocks differ, and AES-256
under a fixed key is one-to-one. -/
theorem tagOf_ne_of_nonce_ne (key iv1 iv2 aad ct : List Byte) (hk : key.length = 32)
    (h1 : iv1.length = 12) (h2 : iv2.length = 12) (hne : iv1 ≠ iv2) :
    tagOf aes256 key iv1 aad ct ≠ tagOf aes256 key iv2 aad ct := by
  have hE : ∀ blk : List Byte, (aes256 key blk).length = 16 :=
    fun blk => aes256_length key blk hk
  intro h
  unfold tagOf at h
  simp only at h
  have hm := natBE_inj 16 _ _ h
  have e256 : (256 : Nat) ^ 16 = 2 ^ 128 := by norm_num
  rw [e256, xor_mod_two_pow, xor_mod_two_pow] at hm
  have hx := Nat.xor_left_inj.mp hm
  have b1 := beNat_lt (aes256 key (j0 aes256 key iv1))
  have b2 := beNat_lt (aes256 key (j0 aes256 key iv2))
  rw [hE, e256] at b1 b2
  rw [Nat.mod_eq_of_lt b1, Nat.mod_eq_of_lt b2] at hx
  have hb := beNat_inj _ _ (by rw [hE, hE]) hx
  have hj1 : j0 aes256 key iv1 = iv1 ++ [0, 0, 0, 1] := by simp [j0, h1]
  have hj2 : j0 aes256 key iv2 = iv2 ++ [0, 0, 0, 1] := by simp [j0, h2]
  rw [hj1, hj2] at hb
  have := aes256_inj key _ _ hk (by simp [h1]) (by simp [h2]) hb
  exact hne (List.append_cancel_right this)

end GCM

/-! ## The library model, call by call -/

namespace OpenSSL

theorem cipherInit_cipher (enc : Bool) (ctx : GcmCtx) (c : Cipher) :
    cipherInit enc ctx (some c) none none =
      ⟨1, ⟨some c, enc, 12, none, none, [], [], List.replicate 16 0, -1⟩, [], 0⟩ := by
  simp [cipherInit, ok]

theorem ctrl_set_ivlen (c : Cipher) (enc : Bool) (l : Nat) (k v : Option (List Byte))
    (a d b : List Byte) (t : Int) (p : Option (List Byte)) :
    ctrl ⟨some c, enc, l, k, v, a, d, b, t⟩ Ctrl.GCM_SET_IVLEN 12 p =
      ⟨1, ⟨some c, enc, 12, k, v, a, d, b, t⟩, [], 0⟩ := by
  simp [ctrl, ok]

theorem cipherInit_key_iv (enc e0 : Bool) (c : Cipher) (l : Nat) (k0 v0 : Option (List Byte))
    (a d b : List Byte) (t : Int) (key iv : List Byte) :
    cipherInit enc ⟨some c, e0, l, k0, v0, a, d, b, t⟩ none (some key) (some iv) =
      ⟨1, ⟨some c, enc, l, some (key.take 32), some (iv.take l), [], [], b, -1⟩, [], 0⟩ := by
  simp [cipherInit, ok]

theorem update_neg (enc : Bool) (ctx : GcmCtx) (out : Bool) (input : List Byte) (inl : Int)
    (h : inl < 0) : update enc ctx out input inl = ⟨0, ctx, [], 0⟩ := by
  simp [update, fail, h]

theorem update_aad (enc : Bool) (c : Cipher) (l : Nat) (k v b : List Byte) (t : Int)
    (input : List Byte) (n : Nat) (h : 0 ≤ castInt n) :
    update enc ⟨some c, enc, l, some k, some v, [], [], b, t⟩ false input (castInt n) =
      ⟨1, ⟨some c, enc, l, some k, some v, input.take (castInt n).toNat, [], b, t⟩, [],
        castInt n⟩ := by
  have h2 : ¬ castInt n < 0 := by omega
  have h3 := castInt_lt n
  simp [update, fail, h2]
  omega

theorem update_data (enc : Bool) (c : Cipher) (l : Nat) (k v a b : List Byte) (t : Int)
    (input : List Byte) (n : Nat) (h : 0 ≤ castInt n) :
    update enc ⟨some c, enc, l, some k, some v, a, [], b, t⟩ true input (castInt n) =
      ⟨1, ⟨some c, enc, l, some k, some v, a,
          if enc then GCM.xorStream (GCM.ksAt aes256 k v) 0 (input.take (castInt n).toNat)
          else input.take (castInt n).toNat, b, t⟩,
        GCM.xorStream (GCM.ksAt aes256 k v) 0 (input.take (castInt n).toNat), castInt n⟩ := by
  have h2 : ¬ castInt n < 0 := by omega
  have h3 := castInt_lt n
  simp [update, fail, h2]
  omega

theorem final_encrypt (c : Cipher) (l : Nat) (k v a d b : List Byte) (t : Int) :
    final true ⟨some c, true, l, some k, some v, a, d, b, t⟩ =
      ⟨1, ⟨some c, true, l, some k, none, a, d, GCM.tagOf aes256 k v a d, 16⟩, [], 0⟩ := by
  simp [final, ok]

theorem ctrl_get_tag (c : Cipher) (l : Nat) (k v : Option (List Byte)) (a d b : List Byte)
    (p : Option (List Byte)) :
    ctrl ⟨some c, true, l, k, v, a, d, b, 16⟩ Ctrl.GCM_GET_TAG 16 p =
      ⟨1, ⟨some c, true, l, k, v, a, d, b, 16⟩, b.take 16, 0⟩ := by
  simp [ctrl]

theorem ctrl_set_tag (c : Cipher) (l : Nat) (k v : Option (List Byte)) (a d b : List Byte)
    (t : Int) (tag : List Byte) :
    ctrl ⟨some c, false, l, k, v, a, d, b, t⟩ Ctrl.GCM_SET_TAG 16 (some tag) =
      ⟨1, ⟨some c, false, l, k, v, a, d, memWrite b 0 (tag.take 16), 16⟩, [], 0⟩ := by
  simp [ctrl, ok]

theorem final_decrypt (c : Cipher) (l : Nat) (k v a d b : List Byte) :
    final false ⟨some c, false, l, some k, some v, a, d, b, 16⟩ =
      if (GCM.tagOf aes256 k v a d).take 16 = b.take 16 then
        ⟨1, ⟨some c, false, l, some k, none, a, d, b, 16⟩, [], 0⟩
      else ⟨0, ⟨some c, false, l, some k, none, a, d, b, 16⟩, [], 0⟩ := by
  simp [final, ok, fail]

end OpenSSL

/-! ## The two functions over the library model -/

theorem encryptTry_openssl (ctx : GcmCtx) (key pt aad nonce ct0 tag0 : List Byte)
    (hk : key.length = 32) (hn : nonce.length = 12) (hc : ct0.length = pt.length)
    (ht : tag0.length = 16) :
    (encryptTry openssl ctx key pt aad ⟨nonce, ct0, tag0⟩).res =
      if castInt aad.length < 0 then .error Error.encUpdateAad
      else if castInt pt.length < 0 then .error Error.encUpdatePt
      else
        .ok ⟨nonce, GCM.xorStream (GCM.ksAt aes256 key nonce) 0 (pt.take (castInt pt.length).toNat),
          GCM.tagOf aes256 key nonce (aad.take (castInt aad.length).toNat)
            (GCM.xorStream (GCM.ksAt aes256 key nonce) 0 (pt.take (castInt pt.length).toNat))⟩ := by
  have hk' : key.take 32 = key := by rw [← hk]; simp
  have hn' : nonce.take 12 = nonce := by rw [← hn]; simp
  rw [← Run.after_res [] (encryptTry openssl ctx key pt aad ⟨nonce, ct0, tag0⟩)]
  unfold encryptTry encryptAad encryptPt
  simp only [openssl, OpenSSL.cipherInit_cipher, hn, castInt_12, OpenSSL.ctrl_set_ivlen, OpenSSL.cipherInit_key_iv, hk', hn',
    Run.after_emit_bind, Run.after_throwIf_bind, Run.bind_assoc, Run.pure_bind, Run.ite_bind, Run.after_ite, Run.after_pure, List.append_assoc, List.cons_append, List.nil_append,
     bne_self_eq_false, Bool.false_eq_true, if_false]
  by_cases ha : castInt aad.length < 0
  · have hne := castInt_neg_ne_nil aad ha
    simp [ha, hne, OpenSSL.update_neg]
  · have ha' : 0 ≤ castInt aad.length := by omega
    by_cases hp : castInt pt.length < 0
    · have hne := castInt_neg_ne_nil pt hp
      by_cases hae : aad = []
      · subst hae
        simp [hp, hne, OpenSSL.update_neg]
      · simp [hae, ha, ha', hp, hne, OpenSSL.update_neg, OpenSSL.update_aad]
    · have hp' : 0 ≤ castInt pt.length := by omega
      have hlen := castInt_toNat_le pt.length
      have hfull : ∀ t : List Byte, t.length = 16 → memWrite tag0 0 (t.take 16) = t := by
        intro t h16
        have : t.take 16 = t := by rw [← h16]; simp
        rw [this]
        exact memWrite_full _ _ (by rw [h16, ht])
      have hct : ∀ y : List Byte, y.length = (castInt pt.length).toNat →
          resize (memWrite ct0 0 y) (castInt pt.length).toNat = y := by
        intro y hy
        rw [← hy]
        exact resize_memWrite _ _ (by omega)
      by_cases hae : aad = [] <;> by_cases hpe : pt = []
      · subst hae; subst hpe
        have : ct0 = [] := List.length_eq_zero.mp hc
        subst this
        simp [OpenSSL.final_encrypt, OpenSSL.ctrl_get_tag, ht, hfull, castInt_16, GCM.xorStream, resize, memWrite]
      · subst hae
        simp [hpe, hp, hp', OpenSSL.update_data, OpenSSL.final_encrypt, OpenSSL.ctrl_get_tag, ht, hfull, hct, memWrite_nil_src]
        exact hct _ (by simp; omega)
      · subst hpe
        have : ct0 = [] := List.length_eq_zero.mp hc
        subst this
        simp [hae, ha, ha', OpenSSL.update_aad, OpenSSL.final_encrypt, OpenSSL.ctrl_get_tag, ht, hfull, GCM.xorStream, resize, memWrite]
      · simp [hae, hpe, ha, ha', hp, hp', OpenSSL.update_aad, OpenSSL.update_data, OpenSSL.final_encrypt, OpenSSL.ctrl_get_tag, ht, hfull, hct, memWrite_nil_src]
        exact hct _ (by simp; omega)

theorem decryptTry_openssl (ctx : GcmCtx) (key nonce ct tag aad pt0 : List Byte)
    (hk : key.length = 32) (hn : nonce.length = 12) (ht : tag.length = 16)
    (hp0 : pt0.length = ct.length) :
    (decryptTry openssl ctx key nonce ct tag aad pt0).res =
      if castInt aad.length < 0 then .error Error.decUpdateAad
      else if castInt ct.length < 0 then .error Error.decUpdateCt
      else if GCM.tagOf aes256 key nonce (aad.take (castInt aad.length).toNat)
          (ct.take (castInt ct.length).toNat) = tag then
        .ok (GCM.xorStream (GCM.ksAt aes256 key nonce) 0 (ct.take (castInt ct.length).toNat))
      else .error Error.decFinal := by
  have hk' : key.take 32 = key := by rw [← hk]; simp
  have hn' : nonce.take 12 = nonce := by rw [← hn]; simp
  have ht' : tag.take 16 = tag := by rw [← ht]; simp
  have hbuf : memWrite (List.replicate 16 0) 0 tag = tag := memWrite_full _ _ (by simp [ht])
  have htag : ∀ a d : List Byte, (GCM.tagOf aes256 key nonce a d).take 16 = GCM.tagOf aes256 key nonce a d := by
    intro a d
    exact List.take_of_length_le (by simp)
  rw [← Run.after_res [] (decryptTry openssl ctx key nonce ct tag aad pt0)]
  unfold decryptTry decryptAad decryptCt
  simp only [openssl, OpenSSL.cipherInit_cipher, hn, ht, castInt_12, castInt_16, OpenSSL.ctrl_set_ivlen,
    OpenSSL.cipherInit_key_iv, hk', hn',
    Run.after_emit_bind, Run.after_throwIf_bind, Run.bind_assoc, Run.pure_bind, Run.ite_bind, Run.after_ite, Run.after_pure,
    List.append_assoc, List.cons_append, List.nil_append, bne_self_eq_false, Bool.false_eq_true, if_false]
  by_cases ha : castInt aad.length < 0
  · have hne := castInt_neg_ne_nil aad ha
    simp [ha, hne, OpenSSL.update_neg]
  · have ha' : 0 ≤ castInt aad.length := by omega
    by_cases hc : castInt ct.length < 0
    · have hne := castInt_neg_ne_nil ct hc
      by_cases hae : aad = []
      · subst hae
        simp [hc, hne, OpenSSL.update_neg]
      · simp [hae, ha, ha', hc, hne, OpenSSL.update_neg, OpenSSL.update_aad]
    · have hc' : 0 ≤ castInt ct.length := by omega
      have hlen := castInt_toNat_le ct.length
      have hpt : ∀ y : List Byte, y.length = (castInt ct.length).toNat →
          resize (memWrite pt0 0 y) (castInt ct.length).toNat = y := by
        intro y hy
        rw [← hy]
        exact resize_memWrite _ _ (by omega)
      by_cases hae : aad = [] <;> by_cases hce : ct = []
      · subst hae; subst hce
        have : pt0 = [] := List.length_eq_zero.mp hp0
        subst this
        by_cases hv : GCM.tagOf aes256 key nonce [] [] = tag <;>
          simp [hv, OpenSSL.ctrl_set_tag, OpenSSL.final_decrypt, ht', memWrite_full, ht, htag, GCM.xorStream,
            resize_nil, memWrite_nil_src]
      · subst hae
        by_cases hv : GCM.tagOf aes256 key nonce [] (ct.take (castInt ct.length).toNat) = tag <;>
          simp [hv, hce, hc, hc', OpenSSL.update_data, OpenSSL.ctrl_set_tag, OpenSSL.final_decrypt,
            ht', memWrite_full, ht, htag, memWrite_nil_src]
        exact hpt _ (by simp; omega)
      · subst hce
        have : pt0 = [] := List.length_eq_zero.mp hp0
        subst this
        by_cases hv : GCM.tagOf aes256 key nonce (aad.take (castInt aad.length).toNat) [] = tag <;>
          simp [hv, hae, ha, ha', OpenSSL.update_aad, OpenSSL.ctrl_set_tag, OpenSSL.final_decrypt,
            ht', memWrite_full, ht, htag, GCM.xorStream, resize_nil, memWrite_nil_src]
      · by_cases hv : GCM.tagOf aes256 key nonce (aad.take (castInt aad.length).toNat)
            (ct.take (castInt ct.length).toNat) = tag <;>
          simp [hv, hae, hce, ha, ha', hc, hc', OpenSSL.update_aad, OpenSSL.update_data,
            OpenSSL.ctrl_set_tag, OpenSSL.final_decrypt, ht', memWrite_full, ht, htag, memWrite_nil_src]
        exact hpt _ (by simp; omega)

theorem tryCatchAll_free_res {α : Type} (x : Run α) :
    (Run.tryCatchAll x (fun e => do emit Call.EVP_CIPHER_CTX_free; Run.raise e)).res = x.res := by
  unfold Run.tryCatchAll
  cases h : x.res with
  | error e => rfl
  | ok a => rfl

/-- The outcome of `aes256_gcm_encrypt` over the library model, for a 32-byte key and a
working generator: an update fails when the cast of a length is negative; otherwise
the first `(int)size` bytes of the plaintext are encrypted and the first `(int)size`
bytes of the associated data are authenticated. -/
theorem encrypt_openssl_res (rnd : Int → Int × List Byte) (key pt aad : List Byte)
    (hk : key.length = 32) (hr : (rnd 12).1 = 1) :
    (aes256_gcm_encrypt openssl rnd key pt aad).res =
      if castInt aad.length < 0 then .error Error.encUpdateAad
      else if castInt pt.length < 0 then .error Error.encUpdatePt
      else
        .ok ⟨memWrite (resize [] 12) 0 (rnd 12).2,
          GCM.xorStream (GCM.ksAt aes256 key (memWrite (resize [] 12) 0 (rnd 12).2)) 0
            (pt.take (castInt pt.length).toNat),
          GCM.tagOf aes256 key (memWrite (resize [] 12) 0 (rnd 12).2)
            (aad.take (castInt aad.length).toNat)
            (GCM.xorStream (GCM.ksAt aes256 key (memWrite (resize [] 12) 0 (rnd 12).2)) 0
              (pt.take (castInt pt.length).toNat))⟩ := by
  rw [← encryptTry_openssl OpenSSL.ctxNew key pt aad (memWrite (resize [] 12) 0 (rnd 12).2)
    (resize [] pt.length) (resize [] 16) hk (by simp) (by simp) (by simp)]
  rw [← Run.after_res [] (aes256_gcm_encrypt openssl rnd key pt aad)]
  unfold aes256_gcm_encrypt
  simp only [Run.after_throwIf_bind, Run.after_emit_bind, hk, hr, resize_length, castInt_12,
    bne_self_eq_false, Bool.false_eq_true, if_false]
  show (Run.after _ (Run.after _ (Run.tryCatchAll _ _))).res = _
  rw [Run.after_res, Run.after_res, tryCatchAll_free_res]

/-- The outcome of `aes256_gcm_decrypt` over the library model, for inputs that pass
the length checks: the tag computed over what is fed to the library is compared with
the tag supplied. -/
theorem decrypt_openssl_res (key nonce ct tag aad : List Byte)
    (hk : key.length = 32) (hn : nonce.length = 12) (ht : tag.length = 16) :
    (aes256_gcm_decrypt openssl key nonce ct tag aad).res =
      if castInt aad.length < 0 then .error Error.decUpdateAad
      else if castInt ct.length < 0 then .error Error.decUpdateCt
      else if GCM.tagOf aes256 key nonce (aad.take (castInt aad.length).toNat)
          (ct.take (castInt ct.length).toNat) = tag then
        .ok (GCM.xorStream (GCM.ksAt aes256 key nonce) 0 (ct.take (castInt ct.length).toNat))
      else .error Error.decFinal := by
  rw [← decryptTry_openssl OpenSSL.ctxNew key nonce ct tag aad (resize [] ct.length) hk hn ht
    (by simp)]
  rw [← Run.after_res [] (aes256_gcm_decrypt openssl key nonce ct tag aad)]
  unfold aes256_gcm_decrypt
  simp only [Run.after_throwIf_bind, Run.after_emit_bind, hk, hn, ht,
    bne_self_eq_false, Bool.false_eq_true, if_false]
  show (Run.after _ (Run.after _ (Run.tryCatchAll _ _))).res = _
  rw [Run.after_res, Run.after_res, tryCatchAll_free_res]

/-! ## Single-bit changes -/

theorem Byte.xor_comm (a b : Byte) : a ^^^ b = b ^^^ a := by
  apply Fin.ext
  show (a.val ^^^ b.val) % 256 = (b.val ^^^ a.val) % 256
  rw [Nat.xor_comm]

theorem Byte.xor_self (a : Byte) : a ^^^ a = 0 := by
  apply Fin.ext
  show (a.val ^^^ a.val) % 256 = 0
  rw [Nat.xor_self]

/-- Inverting one bit of a byte changes the byte. -/
theorem Byte.xor_bit_ne (b : Byte) (j : Nat) (hj : j < 8) : b ^^^ Fin.ofNat (2 ^ j) ≠ b := by
  intro h
  have h1 : (Fin.ofNat (2 ^ j) : Byte) = 0 := by
    have := GCM.xor_cancel (Fin.ofNat (2 ^ j)) b
    rw [Byte.xor_comm (Fin.ofNat (2 ^ j)) b, h, Byte.xor_self] at this
    exact this.symm
  interval_cases j <;> exact absurd h1 (by decide)

@[simp] theorem flipBit_length (v : List Byte) (i : Nat) : (flipBit v i).length = v.length := by
  simp [flipBit]

/-- A byte string with one of its bits inverted differs from the original. -/
theorem flipBit_ne (v : List Byte) (i : Nat) (hi : i < 8 * v.length) : flipBit v i ≠ v := by
  intro h
  have hj : i / 8 < v.length := by omega
  have h1 : (flipBit v i).getD (i / 8) 0 = v.getD (i / 8) 0 := by rw [h]
  have h2 : (flipBit v i).getD (i / 8) 0 = v.getD (i / 8) 0 ^^^ Fin.ofNat (2 ^ (i % 8)) := by
    simp [flipBit, List.getD_eq_getElem?_getD, List.getElem?_set, hj]
  rw [h2] at h1
  exact Byte.xor_bit_ne _ _ (Nat.mod_lt _ (by norm_num)) h1

/-! ## The random generator -/

/-- C10. With a 32-byte key, a generator that does not return 1 makes
`aes256_gcm_encrypt` throw the `RAND_bytes` error; the only call made is `RAND_bytes`
itself, so no context was created or initialised, and nothing is returned. -/
theorem encrypt_entropy_failure (L : Evp) (RAND_bytes : Int → Int × List Byte)
    (key plaintext aad : List Byte) (hk : key.length = 32) (hr : (RAND_bytes 12).1 ≠ 1) :
    aes256_gcm_encrypt L RAND_bytes key plaintext aad =
      ⟨[Call.RAND_bytes 12 (RAND_bytes 12).1], .error Error.randBytes⟩ := by
  rw [← Run.after_nil (aes256_gcm_encrypt L RAND_bytes key plaintext aad)]
  unfold aes256_gcm_encrypt
  simp [Run.after_throwIf_bind, Run.after_emit_bind, hk, hr]

/-- A generator that returns 0 stops the encryption of `hello AEAD` after one call. -/
theorem encrypt_entropy_failure_witness :
    aes256_gcm_encrypt openssl (randFail 0) zeroKey helloAEAD [] =
      ⟨[Call.RAND_bytes 12 0], .error Error.randBytes⟩ :=
  encrypt_entropy_failure openssl (randFail 0) zeroKey helloAEAD [] (by decide) (by decide)

/-! ## Properties that hold whatever the library does -/

theorem Run.ite_elim {α : Type} {P : Run α → Prop} {c : Prop} [Decidable c] {x y : Run α}
    (hx : c → P x) (hy : ¬ c → P y) : P (if c then x else y) := by
  by_cases h : c
  · rw [if_pos h]
    exact hx h
  · rw [if_neg h]
    exact hy h

/-- C7. `aes256_gcm_encrypt` throws the key-length error exactly when the key is not 32
bytes long, and then it has made no call at all: no nonce was drawn and the library
was not touched. -/
theorem encrypt_key_length (L : Evp) (RAND_bytes : Int → Int × List Byte)
    (key plaintext aad : List Byte) :
    (key.length ≠ 32 →
      aes256_gcm_encrypt L RAND_bytes key plaintext aad = ⟨[], .error Error.keyLength⟩) ∧
    (key.length = 32 →
      (aes256_gcm_encrypt L RAND_bytes key plaintext aad).res ≠ .error Error.keyLength) := by
  constructor
  · intro hk
    rw [← Run.after_nil (aes256_gcm_encrypt L RAND_bytes key plaintext aad)]
    unfold aes256_gcm_encrypt
    simp [Run.after_throwIf_bind, hk]
  · intro hk
    obtain ⟨P, hP⟩ : ∃ P : Run GcmEncrypted → Prop,
        P = fun r => r.res ≠ .error Error.keyLength := ⟨_, rfl⟩
    suffices h : P (aes256_gcm_encrypt L RAND_bytes key plaintext aad) by
      rw [hP] at h; exact h
    rw [← Run.after_nil (aes256_gcm_encrypt L RAND_bytes key plaintext aad)]
    unfold aes256_gcm_encrypt
    simp only [Run.after_throwIf_bind, Run.after_emit_bind, hk, bne_self_eq_false, Bool.false_eq_true,
      if_false]
    refine Run.ite_elim (fun _ => by simp [hP]) (fun _ => ?_)
    cases L.EVP_CIPHER_CTX_new with
    | none => simp [Run.after_emit_bind, Run.after_raise, hP]
    | some ctx =>
      simp only [Run.after_emit_bind, Run.after_tryCatchAll]
      unfold encryptTry encryptAad encryptPt
      simp only [Run.after_emit_bind, Run.after_throwIf_bind, Run.bind_assoc, Run.pure_bind, Run.ite_bind, Run.after_ite,
        Run.after_pure, List.append_assoc, List.cons_append, List.nil_append, Run.tryCatchAll_ite,
        Run.tryCatchAll_ok, Run.tryCatchAll_error_free]
      repeat' (refine Run.ite_elim (fun _ => ?_) (fun _ => ?_))
      all_goals simp [hP]

/-- A 31-byte key stops `aes256_gcm_encrypt` before any call; the 32-byte zero key does
not produce the key-length error. -/
theorem encrypt_key_length_witness :
    aes256_gcm_encrypt openssl (randOk zeroNonce) (List.replicate 31 0) helloAEAD [] =
      ⟨[], .error Error.keyLength⟩ ∧
    (aes256_gcm_encrypt openssl (randOk zeroNonce) zeroKey helloAEAD []).res ≠
      .error Error.keyLength :=
  ⟨(encrypt_key_length openssl (randOk zeroNonce) _ helloAEAD []).1 (by decide),
   (encrypt_key_length openssl (randOk zeroNonce) zeroKey helloAEAD []).2 (by decide)⟩

set_option maxHeartbeats 2000000 in
/-- C6. Whatever the library does, `aes256_gcm_decrypt` called with a wrong length
throws a length error and has made no call at all (no context creation, init, update,
set-tag or final): a key that is not 32 bytes long gives the key-length error; a
nonce that is not 12 bytes long gives the nonce-length error, the key having 32
bytes; a tag that is not 16 bytes long gives the tag-length error, key and nonce
having their lengths. Each of the three errors is thrown for its own wrong length
only. -/
theorem decrypt_length_validation (L : Evp) (key nonce ciphertext tag aad : List Byte) :
    (key.length ≠ 32 ∨ nonce.length ≠ 12 ∨ tag.length ≠ 16 →
      (aes256_gcm_decrypt L key nonce ciphertext tag aad).trace = [] ∧
      ((aes256_gcm_decrypt L key nonce ciphertext tag aad).res = .error Error.keyLength ∨
        (aes256_gcm_decrypt L key nonce ciphertext tag aad).res = .error Error.nonceLength ∨
        (aes256_gcm_decrypt L key nonce ciphertext tag aad).res = .error Error.tagLength)) ∧
    (key.length ≠ 32 →
      aes256_gcm_decrypt L key nonce ciphertext tag aad = ⟨[], .error Error.keyLength⟩) ∧
    (key.length = 32 → nonce.length ≠ 12 →
      aes256_gcm_decrypt L key nonce ciphertext tag aad = ⟨[], .error Error.nonceLength⟩) ∧
    (key.length = 32 → nonce.length = 12 → tag.length ≠ 16 →
      aes256_gcm_decrypt L key nonce ciphertext tag aad = ⟨[], .error Error.tagLength⟩) ∧
    ((aes256_gcm_decrypt L key nonce ciphertext tag aad).res = .error Error.keyLength →
      key.length ≠ 32) ∧
    ((aes256_gcm_decrypt L key nonce ciphertext tag aad).res = .error Error.nonceLength →
      nonce.length ≠ 12) ∧
    ((aes256_gcm_decrypt L key nonce ciphertext tag aad).res = .error Error.tagLength →
      tag.length ≠ 16) := by
  obtain ⟨P, hP⟩ : ∃ P : Run (List Byte) → Prop, P = fun r =>
      (key.length ≠ 32 ∨ nonce.length ≠ 12 ∨ tag.length ≠ 16 →
        r.trace = [] ∧ (r.res = .error Error.keyLength ∨ r.res = .error Error.nonceLength ∨
          r.res = .error Error.tagLength)) ∧
      (key.length ≠ 32 → r = ⟨[], .error Error.keyLength⟩) ∧
      (key.length = 32 → nonce.length ≠ 12 → r = ⟨[], .error Error.nonceLength⟩) ∧
      (key.length = 32 → nonce.length = 12 → tag.length ≠ 16 →
        r = ⟨[], .error Error.tagLength⟩) ∧
      (r.res = .error Error.keyLength → key.length ≠ 32) ∧
      (r.res = .error Error.nonceLength → nonce.length ≠ 12) ∧
      (r.res = .error Error.tagLength → tag.length ≠ 16) := ⟨_, rfl⟩
  suffices hs : P (aes256_gcm_decrypt L key nonce ciphertext tag aad) by
    rw [hP] at hs; exact hs
  rw [← Run.after_nil (aes256_gcm_decrypt L key nonce ciphertext tag aad)]
  unfold aes256_gcm_decrypt
  simp only [Run.after_throwIf_bind, Run.after_emit_bind]
  refine Run.ite_elim (fun hk => by subst hP; simp_all) (fun hk => ?_)
  refine Run.ite_elim (fun hn => by subst hP; simp_all) (fun hn => ?_)
  refine Run.ite_elim (fun ht => by subst hP; simp_all) (fun ht => ?_)
  cases L.EVP_CIPHER_CTX_new with
  | none => subst hP; simp_all [Run.after_emit_bind, Run.after_raise]
  | some ctx =>
    simp only [Run.after_emit_bind, Run.after_tryCatchAll]
    unfold decryptTry decryptAad decryptCt
    simp only [Run.after_emit_bind, Run.after_throwIf_bind, Run.bind_assoc, Run.pure_bind, Run.ite_bind, Run.after_ite,
      Run.after_pure, List.append_assoc, List.cons_append, List.nil_append, Run.tryCatchAll_ite,
      Run.tryCatchAll_ok, Run.tryCatchAll_error_free]
    repeat' (refine Run.ite_elim (fun _ => ?_) (fun _ => ?_))
    all_goals subst hP
    all_goals simp_all

/-- A 31-byte key, an 11-byte nonce and a 15-byte tag, each with the other two lengths
right, fail with their own error and no library call. -/
theorem decrypt_length_validation_witness :
    aes256_gcm_decrypt openssl (List.replicate 31 0) zeroNonce helloAEAD zeroTag [] =
      ⟨[], .error Error.keyLength⟩ ∧
    aes256_gcm_decrypt openssl zeroKey (List.replicate 11 0) helloAEAD zeroTag [] =
      ⟨[], .error Error.nonceLength⟩ ∧
    aes256_gcm_decrypt openssl zeroKey zeroNonce helloAEAD (List.replicate 15 0) [] =
      ⟨[], .error Error.tagLength⟩ :=
  ⟨(decrypt_length_validation openssl _ zeroNonce helloAEAD zeroTag []).2.1 (by decide),
   (decrypt_length_validation openssl zeroKey _ helloAEAD zeroTag []).2.2.1 (by decide)
     (by decide),
   (decrypt_length_validation openssl zeroKey zeroNonce helloAEAD _ []).2.2.2.1 (by decide)
     (by decide) (by decide)⟩

/-- C9. Whatever the library and the generator do, an `aes256_gcm_encrypt` call that
returns gives a nonce of exactly 12 bytes and a tag of exactly 16 bytes. -/
theorem encrypt_output_sizes (L : Evp) (RAND_bytes : Int → Int × List Byte)
    (key plaintext aad : List Byte) (m : GcmEncrypted)
    (h : (aes256_gcm_encrypt L RAND_bytes key plaintext aad).res = .ok m) :
    m.nonce.length = 12 ∧ m.tag.length = 16 := by
  obtain ⟨P, hP⟩ : ∃ P : Run GcmEncrypted → Prop,
      P = fun r => ∀ m, r.res = .ok m → m.nonce.length = 12 ∧ m.tag.length = 16 := ⟨_, rfl⟩
  suffices hs : P (aes256_gcm_encrypt L RAND_bytes key plaintext aad) by
    rw [hP] at hs; exact hs m h
  clear h
  rw [← Run.after_nil (aes256_gcm_encrypt L RAND_bytes key plaintext aad)]
  unfold aes256_gcm_encrypt
  simp only [Run.after_throwIf_bind, Run.after_emit_bind]
  refine Run.ite_elim (fun _ => by simp [hP]) (fun _ => ?_)
  refine Run.ite_elim (fun _ => by simp [hP]) (fun _ => ?_)
  cases L.EVP_CIPHER_CTX_new with
  | none => simp [Run.after_emit_bind, Run.after_raise, hP]
  | some ctx =>
    simp only [Run.after_emit_bind, Run.after_tryCatchAll]
    unfold encryptTry encryptAad encryptPt
    simp only [Run.after_emit_bind, Run.after_throwIf_bind, Run.bind_assoc, Run.pure_bind, Run.ite_bind, Run.after_ite,
      Run.after_pure, List.append_assoc, List.cons_append, List.nil_append, Run.tryCatchAll_ite,
      Run.tryCatchAll_ok, Run.tryCatchAll_error_free]
    repeat' (refine Run.ite_elim (fun _ => ?_) (fun _ => ?_))
    all_goals subst hP
    all_goals simp

/-- C2. For inputs that pass the length checks, whatever the library does:
`aes256_gcm_decrypt` returns a plaintext only if `EVP_DecryptFinal_ex` was called and
returned 1, and whenever `EVP_DecryptFinal_ex` returned anything else the call throws
the tag-mismatch error, so that no plaintext reaches the caller. -/
theorem decrypt_only_after_verification (L : Evp) (key nonce ciphertext tag aad : List Byte)
    (hk : key.length = 32) (hn : nonce.length = 12) (ht : tag.length = 16) :
    (∀ p, (aes256_gcm_decrypt L key nonce ciphertext tag aad).res = .ok p →
      Call.EVP_DecryptFinal_ex 1 ∈ (aes256_gcm_decrypt L key nonce ciphertext tag aad).trace) ∧
    (∀ rc, Call.EVP_DecryptFinal_ex rc ∈
        (aes256_gcm_decrypt L key nonce ciphertext tag aad).trace → rc ≠ 1 →
      (aes256_gcm_decrypt L key nonce ciphertext tag aad).res = .error Error.decFinal) := by
  obtain ⟨P, hP⟩ : ∃ P : Run (List Byte) → Prop, P = fun r =>
      (∀ p, r.res = .ok p → Call.EVP_DecryptFinal_ex 1 ∈ r.trace) ∧
      (∀ rc, Call.EVP_DecryptFinal_ex rc ∈ r.trace → rc ≠ 1 → r.res = .error Error.decFinal) :=
    ⟨_, rfl⟩
  suffices hs : P (aes256_gcm_decrypt L key nonce ciphertext tag aad) by
    rw [hP] at hs; exact hs
  rw [← Run.after_nil (aes256_gcm_decrypt L key nonce ciphertext tag aad)]
  unfold aes256_gcm_decrypt
  simp only [Run.after_throwIf_bind, hk, hn, ht, bne_self_eq_false, Bool.false_eq_true, if_false]
  cases L.EVP_CIPHER_CTX_new with
  | none => simp [Run.after_emit_bind, Run.after_raise, hP]
  | some ctx =>
    simp only [Run.after_emit_bind, Run.after_tryCatchAll]
    unfold decryptTry decryptAad decryptCt
    simp only [Run.after_emit_bind, Run.after_throwIf_bind, Run.bind_assoc, Run.pure_bind, Run.ite_bind, Run.after_ite,
      Run.after_pure, List.append_assoc, List.cons_append, List.nil_append, Run.tryCatchAll_ite,
      Run.tryCatchAll_ok, Run.tryCatchAll_error_free]
    repeat' (refine Run.ite_elim (fun _ => ?_) (fun _ => ?_))
    all_goals subst hP
    all_goals simp_all

/-! ## Encryption followed by decryption, over the library model -/

theorem encrypt_rand_failure (L : Evp) (RAND_bytes : Int → Int × List Byte)
    (key plaintext aad : List Byte) (hk : key.length = 32) (hr : (RAND_bytes 12).1 ≠ 1) :
    (aes256_gcm_encrypt L RAND_bytes key plaintext aad).res = .error Error.randBytes := by
  rw [← Run.after_nil (aes256_gcm_encrypt L RAND_bytes key plaintext aad)]
  unfold aes256_gcm_encrypt
  simp [Run.after_throwIf_bind, Run.after_emit_bind, hk, hr]

/-- What a returned message consists of: neither cast was negative, the nonce has 12
bytes, the ciphertext is the key stream applied to the first `(int)size` bytes of the
plaintext, and the tag covers the first `(int)size` bytes of the associated data. -/
theorem encrypt_openssl_inv (RAND_bytes : Int → Int × List Byte) (key pt aad : List Byte)
    (m : GcmEncrypted) (hk : key.length = 32)
    (h : (aes256_gcm_encrypt openssl RAND_bytes key pt aad).res = .ok m) :
    0 ≤ castInt aad.length ∧ 0 ≤ castInt pt.length ∧ m.nonce.length = 12 ∧
    m.ciphertext = GCM.xorStream (GCM.ksAt aes256 key m.nonce) 0
      (pt.take (castInt pt.length).toNat) ∧
    m.tag = GCM.tagOf aes256 key m.nonce (aad.take (castInt aad.length).toNat) m.ciphertext := by
  by_cases hr : (RAND_bytes 12).1 = 1
  · rw [encrypt_openssl_res RAND_bytes key pt aad hk hr] at h
    split at h
    · exact absurd h (by simp)
    · split at h
      · exact absurd h (by simp)
      · simp only [Except.ok.injEq] at h
        subst h
        refine ⟨by omega, by omega, by simp, rfl, rfl⟩
  · rw [encrypt_rand_failure openssl RAND_bytes key pt aad hk hr] at h
    exact absurd h (by simp)

/-- The ciphertext of a returned message is short enough for its length to survive
the cast in `aes256_gcm_decrypt`. -/
theorem encrypt_openssl_ciphertext_cast (RAND_bytes : Int → Int × List Byte)
    (key pt aad : List Byte) (m : GcmEncrypted) (hk : key.length = 32)
    (h : (aes256_gcm_encrypt openssl RAND_bytes key pt aad).res = .ok m) :
    castInt m.ciphertext.length = m.ciphertext.length ∧
    m.ciphertext.length = (castInt pt.length).toNat := by
  obtain ⟨-, hp, -, hc, -⟩ := encrypt_openssl_inv RAND_bytes key pt aad m hk h
  have h1 := castInt_lt pt.length
  have h2 := castInt_toNat_le pt.length
  have hl : m.ciphertext.length = (castInt pt.length).toNat := by
    rw [hc]; simp; omega
  exact ⟨castInt_of_lt _ (by omega), hl⟩

/-- Decryption of the ciphertext of a returned message under any 32-byte key, 12-byte
nonce, 16-byte tag and associated data whose cast is not negative: the tag computed
over what is fed decides between the key stream applied to the ciphertext and the
tag-mismatch error. -/
theorem decrypt_of_encrypt (RAND_bytes : Int → Int × List Byte) (key pt aad : List Byte)
    (m : GcmEncrypted) (hk : key.length = 32)
    (h : (aes256_gcm_encrypt openssl RAND_bytes key pt aad).res = .ok m)
    (key2 nonce2 tag2 aad2 : List Byte) (hk2 : key2.length = 32) (hn2 : nonce2.length = 12)
    (ht2 : tag2.length = 16) (ha2 : 0 ≤ castInt aad2.length) :
    (aes256_gcm_decrypt openssl key2 nonce2 m.ciphertext tag2 aad2).res =
      if GCM.tagOf aes256 key2 nonce2 (aad2.take (castInt aad2.length).toNat) m.ciphertext = tag2
      then .ok (GCM.xorStream (GCM.ksAt aes256 key2 nonce2) 0 m.ciphertext)
      else .error Error.decFinal := by
  obtain ⟨hc1, -⟩ := encrypt_openssl_ciphertext_cast RAND_bytes key pt aad m hk h
  rw [decrypt_openssl_res key2 nonce2 m.ciphertext tag2 aad2 hk2 hn2 ht2]
  have h1 : ¬ castInt aad2.length < 0 := by omega
  have h2 : ¬ castInt m.ciphertext.length < 0 := by omega
  have h3 : m.ciphertext.take (castInt m.ciphertext.length).toNat = m.ciphertext := by
    rw [hc1]; simp
  rw [if_neg h1, if_neg h2, h3]

/-- Round trip below the cast limit: for a 32-byte key, a plaintext of at most 2^31 - 1
bytes and any associated data, whatever the generator yields, if
`aes256_gcm_encrypt` returns `(nonce, ciphertext, tag)` then `aes256_gcm_decrypt` on
them returns exactly the plaintext. -/
theorem round_trip_below_cast_limit (RAND_bytes : Int → Int × List Byte)
    (key pt aad : List Byte) (m : GcmEncrypted) (hk : key.length = 32)
    (hp : pt.length < 2 ^ 31)
    (h : (aes256_gcm_encrypt openssl RAND_bytes key pt aad).res = .ok m) :
    (aes256_gcm_decrypt openssl key m.nonce m.ciphertext m.tag aad).res = .ok pt := by
  obtain ⟨ha, -, hn, hc, ht⟩ := encrypt_openssl_inv RAND_bytes key pt aad m hk h
  rw [decrypt_of_encrypt RAND_bytes key pt aad m hk h key m.nonce m.tag aad hk hn
    (by rw [ht]; simp) ha, if_pos ht.symm]
  have hfull : pt.take (castInt pt.length).toNat = pt := by
    rw [castInt_of_lt _ hp]; simp
  rw [hc, GCM.xorStream_xorStream, hfull]

/-- Size preservation below the cast limit: for a plaintext of at most 2^31 - 1 bytes
the ciphertext of a returned message has the length of the plaintext. -/
theorem ciphertext_length_below_cast_limit (RAND_bytes : Int → Int × List Byte)
    (key pt aad : List Byte) (m : GcmEncrypted) (hk : key.length = 32)
    (hp : pt.length < 2 ^ 31)
    (h : (aes256_gcm_encrypt openssl RAND_bytes key pt aad).res = .ok m) :
    m.ciphertext.length = pt.length := by
  rw [(encrypt_openssl_ciphertext_cast RAND_bytes key pt aad m hk h).2, castInt_of_lt _ hp]
  simp

/-- C3. Over the library model, for a 32-byte key: if `aes256_gcm_encrypt` returns
`(nonce, ciphertext, tag)`, then `aes256_gcm_decrypt` on the same inputs with any one
of the 128 bits of the tag inverted throws the tag-mismatch error and returns no
plaintext. -/
theorem tag_tamper_detected (RAND_bytes : Int → Int × List Byte) (key pt aad : List Byte)
    (m : GcmEncrypted) (hk : key.length = 32)
    (h : (aes256_gcm_encrypt openssl RAND_bytes key pt aad).res = .ok m)
    (i : Nat) (hi : i < 128) :
    (aes256_gcm_decrypt openssl key m.nonce m.ciphertext (flipBit m.tag i) aad).res =
      .error Error.decFinal := by
  obtain ⟨ha, -, hn, -, ht⟩ := encrypt_openssl_inv RAND_bytes key pt aad m hk h
  have htl : m.tag.length = 16 := by rw [ht]; simp
  rw [decrypt_of_encrypt RAND_bytes key pt aad m hk h key m.nonce (flipBit m.tag i) aad hk hn
    (by simp [htl]) ha, ← ht]
  exact if_neg (fun heq => flipBit_ne m.tag i (by omega) heq.symm)

/-! ## Known answers -/

set_option maxRecDepth 1000000 in
/-- Test case 13 of the GCM specification (AES-256, zero key, zero 96-bit IV, empty
plaintext, empty associated data): the model computes the published tag. -/
theorem gcm_test_case_13 : GCM.tagOf aes256 zeroKey zeroNonce [] [] = testCase13Tag := by
  decide

set_option maxRecDepth 1000000 in
set_option maxHeartbeats 4000000 in
/-- The scenario of the specification: under the zero key and the zero nonce,
`hello AEAD` without associated data encrypts to ten bytes and a 16-byte tag. -/
theorem scenario_encrypt :
    (aes256_gcm_encrypt openssl (randOk zeroNonce) zeroKey helloAEAD []).res =
      .ok scenarioMessage := by
  rfl

theorem fourGiB_length : fourGiB.length = 2 ^ 32 := by
  unfold fourGiB
  exact List.length_replicate _ _

theorem castInt_fourGiB : castInt fourGiB.length = 0 := by
  rw [fourGiB_length]
  exact castInt_two_pow_32

theorem castInt_flip_fourGiB (i : Nat) : castInt (flipBit fourGiB i).length = 0 := by
  rw [flipBit_length]
  exact castInt_fourGiB

theorem helloThenFourGiB_length : helloThenFourGiB.length = 2 ^ 32 + 5 := by
  unfold helloThenFourGiB
  rw [List.length_append, fourGiB_length]
  rfl

theorem castInt_helloThenFourGiB : castInt helloThenFourGiB.length = 5 := by
  rw [helloThenFourGiB_length]
  decide

theorem randOk_zeroNonce :
    memWrite (resize [] 12) 0 (randOk zeroNonce 12).2 = zeroNonce := by
  decide

/-! ## Vectors longer than an `int` can count -/

/-- C1, evaluated at a plaintext of 2^32 zero bytes under the zero key and zero nonce,
without associated data: `aes256_gcm_encrypt` returns a message with an empty
ciphertext, and `aes256_gcm_decrypt` on that message returns the empty plaintext, not
the 2^32 bytes that were encrypted. -/
theorem round_trip_lost_at_four_GiB :
    (aes256_gcm_encrypt openssl (randOk zeroNonce) zeroKey fourGiB []).res =
      .ok ⟨zeroNonce, [], testCase13Tag⟩ ∧
    (aes256_gcm_decrypt openssl zeroKey zeroNonce [] testCase13Tag []).res = .ok [] ∧
    fourGiB.length = 2 ^ 32 := by
  have henc : (aes256_gcm_encrypt openssl (randOk zeroNonce) zeroKey fourGiB []).res =
      .ok ⟨zeroNonce, [], testCase13Tag⟩ := by
    rw [encrypt_openssl_res (randOk zeroNonce) zeroKey fourGiB [] rfl rfl, randOk_zeroNonce,
      castInt_fourGiB]
    simp [GCM.xorStream, gcm_test_case_13]
  refine ⟨henc, ?_, fourGiB_length⟩
  have hdec := decrypt_of_encrypt (randOk zeroNonce) zeroKey fourGiB [] _ rfl henc
    zeroKey zeroNonce testCase13Tag [] rfl rfl rfl (by simp)
  simpa [GCM.xorStream, gcm_test_case_13] using hdec

/-- C8, evaluated at a plaintext of 2^32 + 5 bytes: `aes256_gcm_encrypt` returns, and
the ciphertext it returns has 5 bytes. -/
theorem ciphertext_truncated_past_four_GiB :
    Except.map (fun m => m.ciphertext.length)
      (aes256_gcm_encrypt openssl (randOk zeroNonce) zeroKey helloThenFourGiB []).res =
      .ok 5 ∧
    helloThenFourGiB.length = 2 ^ 32 + 5 := by
  refine ⟨?_, helloThenFourGiB_length⟩
  rw [encrypt_openssl_res (randOk zeroNonce) zeroKey helloThenFourGiB [] rfl rfl,
    castInt_helloThenFourGiB]
  simp [Except.map, helloThenFourGiB_length]

/-- C4, evaluated at associated data of 2^32 zero bytes: `aes256_gcm_encrypt` returns
the very message it returns without associated data, and `aes256_gcm_decrypt` with one
bit of the associated data inverted still returns the plaintext. -/
theorem aad_tamper_undetected_at_four_GiB :
    (aes256_gcm_encrypt openssl (randOk zeroNonce) zeroKey helloAEAD fourGiB).res =
      .ok scenarioMessage ∧
    flipBit fourGiB 0 ≠ fourGiB ∧
    (aes256_gcm_decrypt openssl zeroKey scenarioMessage.nonce scenarioMessage.ciphertext
      scenarioMessage.tag (flipBit fourGiB 0)).res = .ok helloAEAD := by
  have henc : (aes256_gcm_encrypt openssl (randOk zeroNonce) zeroKey helloAEAD fourGiB).res =
      .ok scenarioMessage := by
    rw [← scenario_encrypt, encrypt_openssl_res (randOk zeroNonce) zeroKey helloAEAD fourGiB rfl rfl,
      encrypt_openssl_res (randOk zeroNonce) zeroKey helloAEAD [] rfl rfl, castInt_fourGiB]
    simp
  have hne : flipBit fourGiB 0 ≠ fourGiB :=
    flipBit_ne fourGiB 0 (by rw [fourGiB_length]; decide)
  refine ⟨henc, hne, ?_⟩
  have hrt := round_trip_below_cast_limit (randOk zeroNonce) zeroKey helloAEAD fourGiB _ rfl
    (by decide) henc
  rw [decrypt_of_encrypt (randOk zeroNonce) zeroKey helloAEAD fourGiB _ rfl henc zeroKey
    scenarioMessage.nonce scenarioMessage.tag fourGiB rfl rfl rfl (by rw [castInt_fourGiB]),
    castInt_fourGiB] at hrt
  rw [decrypt_of_encrypt (randOk zeroNonce) zeroKey helloAEAD fourGiB _ rfl henc zeroKey
    scenarioMessage.nonce scenarioMessage.tag (flipBit fourGiB 0) rfl rfl rfl
    (by rw [castInt_flip_fourGiB]), castInt_flip_fourGiB]
  simpa using hrt

/-! ## A different key or nonce -/

/-- A byte string within the first 16 bytes of the key stream is xored with the first
key stream block. -/
theorem GCM.xorStream_first_block (E : List Byte → List Byte → List Byte)
    (key iv blk : List Byte) (hb : E key (GCM.ctrBlock (GCM.j0 E key iv) 1) = blk)
    (hl : blk.length = 16) :
    ∀ (p : List Byte) (off : Nat), off + p.length ≤ 16 →
      GCM.xorStream (GCM.ksAt E key iv) off p =
        List.zipWith (fun b k => b ^^^ k) p (blk.drop off) := by
  intro p
  induction p with
  | nil => intro off _; simp [GCM.xorStream]
  | cons b p ih =>
    intro off h
    simp only [List.length_cons] at h
    have ho : off < blk.length := by omega
    rw [GCM.xorStream, ih (off + 1) (by omega), List.drop_eq_getElem_cons ho,
      List.zipWith_cons_cons]
    congr 2
    unfold GCM.ksAt
    rw [Nat.div_eq_of_lt (by omega), Nat.mod_eq_of_lt (by omega), Nat.zero_add, hb,
      List.getD_eq_getElem?_getD, List.getElem?_eq_getElem ho, Option.getD_some]

set_option maxRecDepth 1000000 in
set_option maxHeartbeats 4000000 in
/-- The first key stream block under the zero key and the zero nonce. -/
theorem twoKey_stream_zero :
    aes256 zeroKey (GCM.ctrBlock (GCM.j0 aes256 zeroKey zeroNonce) 1) =
      [0xce, 0xa7, 0x40, 0x3d, 0x4d, 0x60, 0x6b, 0x6e, 0x07, 0x4e, 0xc5, 0xd3, 0xba, 0xf3, 0x9d,
        0x18] := by
  decide

set_option maxRecDepth 1000000 in
set_option maxHeartbeats 4000000 in
/-- The first key stream block under `onesKey` and the zero nonce. -/
theorem twoKey_stream_ones :
    aes256 onesKey (GCM.ctrBlock (GCM.j0 aes256 onesKey zeroNonce) 1) =
      [0xbf, 0x35, 0x98, 0xdc, 0x75, 0x3b, 0x03, 0xbf, 0x93, 0x79, 0x92, 0x45, 0x71, 0x24, 0xc1,
        0x41] := by
  decide

set_option maxRecDepth 1000000 in
set_option maxHeartbeats 4000000 in
/-- The tag of the ciphertext of `twoKeyMessage` under the zero key. -/
theorem twoKey_tag_zero :
    GCM.tagOf aes256 zeroKey zeroNonce [] twoKeyMessage.ciphertext = twoKeyMessage.tag := by
  decide

set_option maxRecDepth 1000000 in
set_option maxHeartbeats 4000000 in
/-- Under `onesKey` the ciphertext of `twoKeyMessage` has the same tag. -/
theorem twoKey_tag_ones :
    GCM.tagOf aes256 onesKey zeroNonce [] twoKeyMessage.ciphertext = twoKeyMessage.tag := by
  decide

/-- Under the zero key and the zero nonce, `twoKeyPlaintext` without associated data
encrypts to `twoKeyMessage`. -/
theorem twoKey_encrypt :
    (aes256_gcm_encrypt openssl (randOk zeroNonce) zeroKey twoKeyPlaintext []).res =
      .ok twoKeyMessage := by
  rw [encrypt_openssl_res (randOk zeroNonce) zeroKey twoKeyPlaintext [] rfl rfl,
    randOk_zeroNonce]
  have hs : GCM.xorStream (GCM.ksAt aes256 zeroKey zeroNonce) 0 twoKeyPlaintext =
      twoKeyMessage.ciphertext := by
    rw [GCM.xorStream_first_block aes256 zeroKey zeroNonce _ twoKey_stream_zero rfl
      twoKeyPlaintext 0 (by decide)]
    decide
  have ht : ([] : List Byte).take (castInt ([] : List Byte).length).toNat = [] := rfl
  have hp : twoKeyPlaintext.take (castInt twoKeyPlaintext.length).toNat = twoKeyPlaintext := by
    decide
  rw [hp, ht, hs, twoKey_tag_zero]
  rfl

/-- Under `onesKey`, `aes256_gcm_decrypt` accepts `twoKeyMessage` and returns sixteen
bytes that are not the plaintext. -/
theorem twoKey_decrypt :
    (aes256_gcm_decrypt openssl onesKey twoKeyMessage.nonce twoKeyMessage.ciphertext
      twoKeyMessage.tag []).res = .ok twoKeyOutput := by
  rw [decrypt_openssl_res onesKey twoKeyMessage.nonce twoKeyMessage.ciphertext
    twoKeyMessage.tag [] rfl rfl rfl]
  have ht : ([] : List Byte).take (castInt ([] : List Byte).length).toNat = [] := rfl
  have hp : twoKeyMessage.ciphertext.take (castInt twoKeyMessage.ciphertext.length).toNat =
      twoKeyMessage.ciphertext := by
    decide
  have hs : GCM.xorStream (GCM.ksAt aes256 onesKey zeroNonce) 0 twoKeyMessage.ciphertext =
      twoKeyOutput := by
    rw [GCM.xorStream_first_block aes256 onesKey zeroNonce _ twoKey_stream_ones rfl
      twoKeyMessage.ciphertext 0 (by decide)]
    decide
  have hn : twoKeyMessage.nonce = zeroNonce := rfl
  rw [hp, ht, hn, twoKey_tag_ones, hs]
  rfl

/-- C5 as stated fails for a different key: the message that `aes256_gcm_encrypt`
returns for `twoKeyPlaintext` under the zero key is accepted by `aes256_gcm_decrypt`
under the key of 32 one-bytes, which returns sixteen bytes instead of throwing the
tag-mismatch error. -/
theorem wrong_key_accepted :
    (aes256_gcm_encrypt openssl (randOk zeroNonce) zeroKey twoKeyPlaintext []).res =
      .ok twoKeyMessage ∧
    zeroKey.length = 32 ∧ onesKey.length = 32 ∧ onesKey ≠ zeroKey ∧
    (aes256_gcm_decrypt openssl onesKey twoKeyMessage.nonce twoKeyMessage.ciphertext
      twoKeyMessage.tag []).res = .ok twoKeyOutput :=
  ⟨twoKey_encrypt, rfl, rfl, by decide, twoKey_decrypt⟩

/-- C5 as amended. Over the library model, for a message that `aes256_gcm_encrypt`
returned under a 32-byte key: `aes256_gcm_decrypt` with the same key and any other
12-byte nonce, otherwise the same inputs, throws the tag-mismatch error; with any
32-byte key, so also with every key other than the one used, and any 12-byte nonce it
throws the tag-mismatch error exactly when the tag computed under that key and nonce
differs from the tag of the message, and when the two tags agree it returns the
ciphertext xored with the key stream of that key and nonce. -/
theorem wrong_key_or_nonce (RAND_bytes : Int → Int × List Byte) (key pt aad : List Byte)
    (m : GcmEncrypted) (hk : key.length = 32)
    (h : (aes256_gcm_encrypt openssl RAND_bytes key pt aad).res = .ok m) :
    (∀ nonce2 : List Byte, nonce2.length = 12 → nonce2 ≠ m.nonce →
      (aes256_gcm_decrypt openssl key nonce2 m.ciphertext m.tag aad).res =
        .error Error.decFinal) ∧
    (∀ key2 nonce2 : List Byte, key2.length = 32 → nonce2.length = 12 →
      ((aes256_gcm_decrypt openssl key2 nonce2 m.ciphertext m.tag aad).res =
          .error Error.decFinal ↔
        GCM.tagOf aes256 key2 nonce2 (aad.take (castInt aad.length).toNat) m.ciphertext ≠
          m.tag) ∧
      (GCM.tagOf aes256 key2 nonce2 (aad.take (castInt aad.length).toNat) m.ciphertext = m.tag →
        (aes256_gcm_decrypt openssl key2 nonce2 m.ciphertext m.tag aad).res =
          .ok (GCM.xorStream (GCM.ksAt aes256 key2 nonce2) 0 m.ciphertext))) := by
  obtain ⟨ha, -, hn, -, ht⟩ := encrypt_openssl_inv RAND_bytes key pt aad m hk h
  have htl : m.tag.length = 16 := by rw [ht]; simp
  constructor
  · intro nonce2 hn2 hne
    rw [decrypt_of_encrypt RAND_bytes key pt aad m hk h key nonce2 m.tag aad hk hn2 htl ha]
    refine if_neg (fun heq => ?_)
    rw [ht] at heq
    exact GCM.tagOf_ne_of_nonce_ne key nonce2 m.nonce _ _ hk hn2 hn hne heq
  · intro key2 nonce2 hk2 hn2
    have hd := decrypt_of_encrypt RAND_bytes key pt aad m hk h key2 nonce2 m.tag aad hk2 hn2
      htl ha
    refine ⟨?_, fun heq => by rw [hd, if_pos heq]⟩
    rw [hd]
    constructor
    · intro hres heq
      rw [if_pos heq] at hres
      exact absurd hres (by simp)
    · intro hne
      rw [if_neg hne]

set_option maxRecDepth 1000000 in
set_option maxHeartbeats 4000000 in
/-- Under the key of 32 one-bytes the tag computed over the scenario ciphertext is
not the tag of the scenario message. -/
theorem onesKey_tag_differs :
    GCM.tagOf aes256 onesKey zeroNonce [] scenarioMessage.ciphertext ≠ scenarioMessage.tag := by
  decide

/-- The scenario message is rejected under the nonce of twelve bytes 01, and under
the key of 32 one-bytes. -/
theorem wrong_key_or_nonce_witness :
    (aes256_gcm_encrypt openssl (randOk zeroNonce) zeroKey helloAEAD []).res =
      .ok scenarioMessage ∧
    onesNonce ≠ scenarioMessage.nonce ∧
    (aes256_gcm_decrypt openssl zeroKey onesNonce scenarioMessage.ciphertext
      scenarioMessage.tag []).res = .error Error.decFinal ∧
    onesKey ≠ zeroKey ∧
    (aes256_gcm_decrypt openssl onesKey zeroNonce scenarioMessage.ciphertext
      scenarioMessage.tag []).res = .error Error.decFinal :=
  ⟨scenario_encrypt, by decide,
   (wrong_key_or_nonce (randOk zeroNonce) zeroKey helloAEAD [] scenarioMessage rfl
     scenario_encrypt).1 onesNonce rfl (by decide),
   by decide,
   ((wrong_key_or_nonce (randOk zeroNonce) zeroKey helloAEAD [] scenarioMessage rfl
     scenario_encrypt).2 onesKey zeroNonce rfl rfl).1.mpr onesKey_tag_differs⟩

/-! ## The scenario of the specification -/

/-- The scenario message has a 12-byte nonce and a 16-byte tag. -/
theorem encrypt_output_sizes_witness :
    (aes256_gcm_encrypt openssl (randOk zeroNonce) zeroKey helloAEAD []).res =
      .ok scenarioMessage ∧
    scenarioMessage.nonce.length = 12 ∧ scenarioMessage.tag.length = 16 :=
  ⟨scenario_encrypt,
   encrypt_output_sizes openssl (randOk zeroNonce) zeroKey helloAEAD [] scenarioMessage
     scenario_encrypt⟩

/-- The scenario message with the lowest bit of `tag[0]` inverted is rejected. -/
theorem tag_tamper_detected_witness :
    (aes256_gcm_encrypt openssl (randOk zeroNonce) zeroKey helloAEAD []).res =
      .ok scenarioMessage ∧
    (aes256_gcm_decrypt openssl zeroKey scenarioMessage.nonce scenarioMessage.ciphertext
      (flipBit scenarioMessage.tag 0) []).res = .error Error.decFinal :=
  ⟨scenario_encrypt,
   tag_tamper_detected (randOk zeroNonce) zeroKey helloAEAD [] scenarioMessage rfl
     scenario_encrypt 0 (by decide)⟩

/-- The scenario message decrypts to `hello AEAD`. -/
theorem scenario_round_trip :
    (aes256_gcm_decrypt openssl zeroKey scenarioMessage.nonce scenarioMessage.ciphertext
      scenarioMessage.tag []).res = .ok helloAEAD :=
  round_trip_below_cast_limit (randOk zeroNonce) zeroKey helloAEAD [] scenarioMessage rfl
    (by decide) scenario_encrypt

/-- The scenario message is returned as `hello AEAD`, so the finalisation was called
and returned 1. -/
theorem decrypt_only_after_verification_witness :
    (aes256_gcm_decrypt openssl zeroKey scenarioMessage.nonce scenarioMessage.ciphertext
      scenarioMessage.tag []).res = .ok helloAEAD ∧
    Call.EVP_DecryptFinal_ex 1 ∈ (aes256_gcm_decrypt openssl zeroKey scenarioMessage.nonce
      scenarioMessage.ciphertext scenarioMessage.tag []).trace :=
  ⟨scenario_round_trip,
   (decrypt_only_after_verification openssl zeroKey scenarioMessage.nonce
     scenarioMessage.ciphertext scenarioMessage.tag [] rfl rfl rfl).1 helloAEAD
     scenario_round_trip⟩

/-! ## The program's own example -/

theorem Run.bind_res_of_ok {α β : Type} (x : Run α) (f : α → Run β) (a : α)
    (h : x.res = .ok a) : (x >>= f).res = (f a).res := by
  show (Run.andThen x f).res = (f a).res
  unfold Run.andThen
  rw [h]

/-- With a generator that works when the nonce is drawn, `main` over the library model
prints `Decrypted: hello AES-256-GCM` and a newline, whatever bytes the generator
yields for the key and the nonce. -/
theorem main_prints_message (RAND_bytes : Int → Int × List Byte)
    (hr : (RAND_bytes 12).1 = 1) :
    (main openssl RAND_bytes).res = .ok (decryptedLabel ++ mainMessage ++ [0x0a]) := by
  unfold main
  dsimp only
  have hk : (memWrite (resize [] 32) 0 (RAND_bytes (castInt (resize [] 32).length)).2).length
      = 32 := by simp
  generalize memWrite (resize [] 32) 0 (RAND_bytes (castInt (resize [] 32).length)).2 = key
    at hk
  obtain ⟨m, henc⟩ : ∃ m, (aes256_gcm_encrypt openssl RAND_bytes key mainMessage []).res =
      .ok m := by
    have h0 : ¬ castInt ([] : List Byte).length < 0 := by decide
    have h17 : ¬ castInt mainMessage.length < 0 := by decide
    exact ⟨_, (encrypt_openssl_res RAND_bytes key mainMessage [] hk hr).trans
      ((if_neg h0).trans (if_neg h17))⟩
  have hdec := round_trip_below_cast_limit RAND_bytes key mainMessage [] m hk (by decide) henc
  rw [Run.bind_res_of_ok _ _ () rfl, Run.bind_res_of_ok _ _ m henc,
    Run.bind_res_of_ok _ _ mainMessage hdec]
  rfl

/-- The program's example under the zero generator. -/
theorem main_prints_message_witness :
    (main openssl (randOk zeroNonce)).res = .ok (decryptedLabel ++ mainMessage ++ [0x0a]) :=
  main_prints_message (randOk zeroNonce) rfl

/-! ## Order of the checks and the lengths passed on -/

/-- C15. Order of the length checks of `aes256_gcm_decrypt`, whatever the library does:
a key that is not 32 bytes long gives the key-length error and no library call,
whatever the lengths of nonce and tag; a 32-byte key with a nonce that is not 12 bytes
long gives the nonce-length error and no library call, whatever the length of the
tag. -/
theorem decrypt_check_order (L : Evp) (key nonce ciphertext tag aad : List Byte) :
    (key.length ≠ 32 →
      aes256_gcm_decrypt L key nonce ciphertext tag aad = ⟨[], .error Error.keyLength⟩) ∧
    (key.length = 32 → nonce.length ≠ 12 →
      aes256_gcm_decrypt L key nonce ciphertext tag aad = ⟨[], .error Error.nonceLength⟩) := by
  refine ⟨fun hk => ?_, fun hk hn => ?_⟩
  · rw [← Run.after_nil (aes256_gcm_decrypt L key nonce ciphertext tag aad)]
    unfold aes256_gcm_decrypt
    simp [Run.after_throwIf_bind, hk]
  · rw [← Run.after_nil (aes256_gcm_decrypt L key nonce ciphertext tag aad)]
    unfold aes256_gcm_decrypt
    simp [Run.after_throwIf_bind, hk, hn]

theorem decrypt_check_order_witness :
    aes256_gcm_decrypt openssl (List.replicate 31 0) (List.replicate 11 0) helloAEAD
        (List.replicate 15 0) [] = ⟨[], .error Error.keyLength⟩ ∧
    aes256_gcm_decrypt openssl zeroKey (List.replicate 11 0) helloAEAD
        (List.replicate 15 0) [] = ⟨[], .error Error.nonceLength⟩ :=
  ⟨(decrypt_check_order openssl (List.replicate 31 0) (List.replicate 11 0) helloAEAD
      (List.replicate 15 0) []).1 (by decide),
   (decrypt_check_order openssl zeroKey (List.replicate 11 0) helloAEAD
      (List.replicate 15 0) []).2 (by decide) (by decide)⟩

set_option maxHeartbeats 2000000 in
/-- C16. For a plaintext, a ciphertext and associated data of at most 2^31 - 1 bytes the
cast to `int` keeps each length, and, whatever the library and the generator do, every
`EVP_EncryptUpdate` call of `aes256_gcm_encrypt` and every `EVP_DecryptUpdate` call of
`aes256_gcm_decrypt` is passed the true length of the vector it is given, which is
the associated data or the plaintext, respectively the ciphertext. -/
theorem update_lengths_exact (L : Evp) (RAND_bytes : Int → Int × List Byte)
    (key nonce tag plaintext ciphertext aad : List Byte)
    (hp : plaintext.length ≤ 2 ^ 31 - 1) (hc : ciphertext.length ≤ 2 ^ 31 - 1)
    (ha : aad.length ≤ 2 ^ 31 - 1) :
    castInt plaintext.length = plaintext.length ∧
    castInt ciphertext.length = ciphertext.length ∧
    castInt aad.length = aad.length ∧
    (∀ out input inl rc, Call.EVP_EncryptUpdate out input inl rc ∈
        (aes256_gcm_encrypt L RAND_bytes key plaintext aad).trace →
      inl = (input.length : Int) ∧ (input = aad ∨ input = plaintext)) ∧
    (∀ out input inl rc, Call.EVP_DecryptUpdate out input inl rc ∈
        (aes256_gcm_decrypt L key nonce ciphertext tag aad).trace →
      inl = (input.length : Int) ∧ (input = aad ∨ input = ciphertext)) := by
  have hp1 : castInt plaintext.length = plaintext.length := castInt_of_lt _ (by omega)
  have hc1 : castInt ciphertext.length = ciphertext.length := castInt_of_lt _ (by omega)
  have ha1 : castInt aad.length = aad.length := castInt_of_lt _ (by omega)
  refine ⟨hp1, hc1, ha1, ?_, ?_⟩
  · obtain ⟨P, hP⟩ : ∃ P : Run GcmEncrypted → Prop, P = fun r =>
        ∀ out input inl rc, Call.EVP_EncryptUpdate out input inl rc ∈ r.trace →
          inl = (input.length : Int) ∧ (input = aad ∨ input = plaintext) := ⟨_, rfl⟩
    suffices hs : P (aes256_gcm_encrypt L RAND_bytes key plaintext aad) by
      rw [hP] at hs; exact hs
    rw [← Run.after_nil (aes256_gcm_encrypt L RAND_bytes key plaintext aad)]
    unfold aes256_gcm_encrypt
    simp only [Run.after_throwIf_bind, Run.after_emit_bind]
    refine Run.ite_elim (fun _ => by simp [hP]) (fun _ => ?_)
    refine Run.ite_elim (fun _ => by simp [hP]) (fun _ => ?_)
    cases L.EVP_CIPHER_CTX_new with
    | none => simp [Run.after_emit_bind, Run.after_raise, hP]
    | some ctx =>
      simp only [Run.after_emit_bind, Run.after_tryCatchAll]
      unfold encryptTry encryptAad encryptPt
      simp only [Run.after_emit_bind, Run.after_throwIf_bind, Run.bind_assoc, Run.pure_bind, Run.ite_bind, Run.after_ite,
        Run.after_pure, List.append_assoc, List.cons_append, List.nil_append, Run.tryCatchAll_ite,
        Run.tryCatchAll_ok, Run.tryCatchAll_error_free]
      repeat' (refine Run.ite_elim (fun _ => ?_) (fun _ => ?_))
      all_goals subst hP
      all_goals simp [hp1, ha1]
      all_goals aesop
  · obtain ⟨P, hP⟩ : ∃ P : Run (List Byte) → Prop, P = fun r =>
        ∀ out input inl rc, Call.EVP_DecryptUpdate out input inl rc ∈ r.trace →
          inl = (input.length : Int) ∧ (input = aad ∨ input = ciphertext) := ⟨_, rfl⟩
    suffices hs : P (aes256_gcm_decrypt L key nonce ciphertext tag aad) by
      rw [hP] at hs; exact hs
    rw [← Run.after_nil (aes256_gcm_decrypt L key nonce ciphertext tag aad)]
    unfold aes256_gcm_decrypt
    simp only [Run.after_throwIf_bind, Run.after_emit_bind]
    refine Run.ite_elim (fun _ => by simp [hP]) (fun _ => ?_)
    refine Run.ite_elim (fun _ => by simp [hP]) (fun _ => ?_)
    refine Run.ite_elim (fun _ => by simp [hP]) (fun _ => ?_)
    cases L.EVP_CIPHER_CTX_new with
    | none => simp [Run.after_emit_bind, Run.after_raise, hP]
    | some ctx =>
      simp only [Run.after_emit_bind, Run.after_tryCatchAll]
      unfold decryptTry decryptAad decryptCt
      simp only [Run.after_emit_bind, Run.after_throwIf_bind, Run.bind_assoc, Run.pure_bind, Run.ite_bind, Run.after_ite,
        Run.after_pure, List.append_assoc, List.cons_append, List.nil_append, Run.tryCatchAll_ite,
        Run.tryCatchAll_ok, Run.tryCatchAll_error_free]
      repeat' (refine Run.ite_elim (fun _ => ?_) (fun _ => ?_))
      all_goals subst hP
      all_goals simp [hc1, ha1]
      all_goals aesop

theorem update_lengths_exact_witness :
    helloAEAD.length ≤ 2 ^ 31 - 1 ∧
    (castInt helloAEAD.length = helloAEAD.length ∧
    castInt scenarioMessage.ciphertext.length = scenarioMessage.ciphertext.length ∧
    castInt mainMessage.length = mainMessage.length ∧
    (∀ out input inl rc, Call.EVP_EncryptUpdate out input inl rc ∈
        (aes256_gcm_encrypt openssl (randOk zeroNonce) zeroKey helloAEAD mainMessage).trace →
      inl = (input.length : Int) ∧ (input = mainMessage ∨ input = helloAEAD)) ∧
    (∀ out input inl rc, Call.EVP_DecryptUpdate out input inl rc ∈
        (aes256_gcm_decrypt openssl zeroKey zeroNonce scenarioMessage.ciphertext
          scenarioMessage.tag mainMessage).trace →
      inl = (input.length : Int) ∧
        (input = mainMessage ∨ input = scenarioMessage.ciphertext))) :=
  ⟨by decide, update_lengths_exact openssl (randOk zeroNonce) zeroKey zeroNonce
    scenarioMessage.tag helloAEAD scenarioMessage.ciphertext mainMessage (by decide) (by decide)
    (by decide)⟩

/-! ## The context -/

set_option maxHeartbeats 2000000 in
/-- C12. Whatever the library and the generator do and on every exit path, in the run
of `aes256_gcm_encrypt` and in the run of `aes256_gcm_decrypt` the number of
`EVP_CIPHER_CTX_free` calls equals the number of contexts that `EVP_CIPHER_CTX_new`
created, which is at most one, and when a context was created the free is the last
library call of the run. -/
theorem context_released (L : Evp) (RAND_bytes : Int → Int × List Byte)
    (key nonce tag plaintext ciphertext aad : List Byte) :
    ((aes256_gcm_encrypt L RAND_bytes key plaintext aad).trace.count Call.EVP_CIPHER_CTX_free =
        (aes256_gcm_encrypt L RAND_bytes key plaintext aad).trace.count
          (Call.EVP_CIPHER_CTX_new true) ∧
      (aes256_gcm_encrypt L RAND_bytes key plaintext aad).trace.count
          (Call.EVP_CIPHER_CTX_new true) ≤ 1 ∧
      (Call.EVP_CIPHER_CTX_new true ∈ (aes256_gcm_encrypt L RAND_bytes key plaintext aad).trace →
        (aes256_gcm_encrypt L RAND_bytes key plaintext aad).trace.getLast? =
          some Call.EVP_CIPHER_CTX_free)) ∧
    ((aes256_gcm_decrypt L key nonce ciphertext tag aad).trace.count Call.EVP_CIPHER_CTX_free =
        (aes256_gcm_decrypt L key nonce ciphertext tag aad).trace.count
          (Call.EVP_CIPHER_CTX_new true) ∧
      (aes256_gcm_decrypt L key nonce ciphertext tag aad).trace.count
          (Call.EVP_CIPHER_CTX_new true) ≤ 1 ∧
      (Call.EVP_CIPHER_CTX_new true ∈ (aes256_gcm_decrypt L key nonce ciphertext tag aad).trace →
        (aes256_gcm_decrypt L key nonce ciphertext tag aad).trace.getLast? =
          some Call.EVP_CIPHER_CTX_free)) := by
  constructor
  · obtain ⟨P, hP⟩ : ∃ P : Run GcmEncrypted → Prop, P = fun r =>
        r.trace.count Call.EVP_CIPHER_CTX_free = r.trace.count (Call.EVP_CIPHER_CTX_new true) ∧
        r.trace.count (Call.EVP_CIPHER_CTX_new true) ≤ 1 ∧
        (Call.EVP_CIPHER_CTX_new true ∈ r.trace →
          r.trace.getLast? = some Call.EVP_CIPHER_CTX_free) := ⟨_, rfl⟩
    suffices hs : P (aes256_gcm_encrypt L RAND_bytes key plaintext aad) by
      rw [hP] at hs; exact hs
    rw [← Run.after_nil (aes256_gcm_encrypt L RAND_bytes key plaintext aad)]
    unfold aes256_gcm_encrypt
    simp only [Run.after_throwIf_bind, Run.after_emit_bind]
    refine Run.ite_elim (fun _ => by simp [hP]) (fun _ => ?_)
    refine Run.ite_elim (fun _ => by simp [hP]) (fun _ => ?_)
    cases L.EVP_CIPHER_CTX_new with
    | none => simp [Run.after_emit_bind, Run.after_raise, hP]
    | some ctx =>
      simp only [Run.after_emit_bind, Run.after_tryCatchAll]
      unfold encryptTry encryptAad encryptPt
      simp only [Run.after_emit_bind, Run.after_throwIf_bind, Run.bind_assoc, Run.pure_bind, Run.ite_bind, Run.after_ite,
        Run.after_pure, List.append_assoc, List.cons_append, List.nil_append, Run.tryCatchAll_ite,
        Run.tryCatchAll_ok, Run.tryCatchAll_error_free]
      repeat' (refine Run.ite_elim (fun _ => ?_) (fun _ => ?_))
      all_goals subst hP
      all_goals simp
  · obtain ⟨P, hP⟩ : ∃ P : Run (List Byte) → Prop, P = fun r =>
        r.trace.count Call.EVP_CIPHER_CTX_free = r.trace.count (Call.EVP_CIPHER_CTX_new true) ∧
        r.trace.count (Call.EVP_CIPHER_CTX_new true) ≤ 1 ∧
        (Call.EVP_CIPHER_CTX_new true ∈ r.trace →
          r.trace.getLast? = some Call.EVP_CIPHER_CTX_free) := ⟨_, rfl⟩
    suffices hs : P (aes256_gcm_decrypt L key nonce ciphertext tag aad) by
      rw [hP] at hs; exact hs
    rw [← Run.after_nil (aes256_gcm_decrypt L key nonce ciphertext tag aad)]
    unfold aes256_gcm_decrypt
    simp only [Run.after_throwIf_bind, Run.after_emit_bind]
    refine Run.ite_elim (fun _ => by simp [hP]) (fun _ => ?_)
    refine Run.ite_elim (fun _ => by simp [hP]) (fun _ => ?_)
    refine Run.ite_elim (fun _ => by simp [hP]) (fun _ => ?_)
    cases L.EVP_CIPHER_CTX_new with
    | none => simp [Run.after_emit_bind, Run.after_raise, hP]
    | some ctx =>
      simp only [Run.after_emit_bind, Run.after_tryCatchAll]
      unfold decryptTry decryptAad decryptCt
      simp only [Run.after_emit_bind, Run.after_throwIf_bind, Run.bind_assoc, Run.pure_bind, Run.ite_bind, Run.after_ite,
        Run.after_pure, List.append_assoc, List.cons_append, List.nil_append, Run.tryCatchAll_ite,
        Run.tryCatchAll_ok, Run.tryCatchAll_error_free]
      repeat' (refine Run.ite_elim (fun _ => ?_) (fun _ => ?_))
      all_goals subst hP
      all_goals simp

/-! ## The calls of a run that returns -/

set_option maxHeartbeats 2000000 in
/-- The library calls of an `aes256_gcm_encrypt` run that returns, in order, whatever
the library and the generator do. -/
theorem encrypt_trace_of_ok (L : Evp) (RAND_bytes : Int → Int × List Byte)
    (key plaintext aad : List Byte) (m : GcmEncrypted)
    (h : (aes256_gcm_encrypt L RAND_bytes key plaintext aad).res = .ok m) :
    m.nonce = memWrite (resize [] 12) 0 (RAND_bytes 12).2 ∧
    (aes256_gcm_encrypt L RAND_bytes key plaintext aad).trace =
      [Call.RAND_bytes 12 1, Call.EVP_CIPHER_CTX_new true,
        Call.EVP_EncryptInit_ex (some Cipher.aes_256_gcm) none none 1,
        Call.EVP_CIPHER_CTX_ctrl Ctrl.GCM_SET_IVLEN 12 none 1,
        Call.EVP_EncryptInit_ex none (some key) (some m.nonce) 1] ++
      (if aad = [] then [] else [Call.EVP_EncryptUpdate false aad (castInt aad.length) 1]) ++
      (if plaintext = [] then []
        else [Call.EVP_EncryptUpdate true plaintext (castInt plaintext.length) 1]) ++
      [Call.EVP_EncryptFinal_ex 1,
        Call.EVP_CIPHER_CTX_ctrl Ctrl.GCM_GET_TAG 16 (some (resize [] 16)) 1,
        Call.EVP_CIPHER_CTX_free] := by
  obtain ⟨P, hP⟩ : ∃ P : Run GcmEncrypted → Prop, P = fun r => ∀ m, r.res = .ok m →
      m.nonce = memWrite (resize [] 12) 0 (RAND_bytes 12).2 ∧
      r.trace =
        [Call.RAND_bytes 12 1, Call.EVP_CIPHER_CTX_new true,
          Call.EVP_EncryptInit_ex (some Cipher.aes_256_gcm) none none 1,
          Call.EVP_CIPHER_CTX_ctrl Ctrl.GCM_SET_IVLEN 12 none 1,
          Call.EVP_EncryptInit_ex none (some key) (some m.nonce) 1] ++
        (if aad = [] then [] else [Call.EVP_EncryptUpdate false aad (castInt aad.length) 1]) ++
        (if plaintext = [] then []
          else [Call.EVP_EncryptUpdate true plaintext (castInt plaintext.length) 1]) ++
        [Call.EVP_EncryptFinal_ex 1,
          Call.EVP_CIPHER_CTX_ctrl Ctrl.GCM_GET_TAG 16 (some (resize [] 16)) 1,
          Call.EVP_CIPHER_CTX_free] := ⟨_, rfl⟩
  suffices hs : P (aes256_gcm_encrypt L RAND_bytes key plaintext aad) by
    rw [hP] at hs; exact hs m h
  clear h
  rw [← Run.after_nil (aes256_gcm_encrypt L RAND_bytes key plaintext aad)]
  unfold aes256_gcm_encrypt
  simp only [Run.after_throwIf_bind, Run.after_emit_bind]
  refine Run.ite_elim (fun _ => by simp [hP]) (fun _ => ?_)
  refine Run.ite_elim (fun _ => by simp [hP]) (fun _ => ?_)
  cases L.EVP_CIPHER_CTX_new with
  | none => simp [Run.after_emit_bind, Run.after_raise, hP]
  | some ctx =>
    simp only [Run.after_emit_bind, Run.after_tryCatchAll]
    unfold encryptTry encryptAad encryptPt
    simp only [Run.after_emit_bind, Run.after_throwIf_bind, Run.bind_assoc, Run.pure_bind, Run.ite_bind, Run.after_ite,
      Run.after_pure, List.append_assoc, List.cons_append, List.nil_append, Run.tryCatchAll_ite,
      Run.tryCatchAll_ok, Run.tryCatchAll_error_free]
    repeat' (refine Run.ite_elim (fun _ => ?_) (fun _ => ?_))
    all_goals subst hP
    all_goals simp_all


set_option maxHeartbeats 2000000 in
/-- The library calls of an `aes256_gcm_decrypt` run that returns, in order, whatever
the library does. -/
theorem decrypt_trace_of_ok (L : Evp) (key nonce ciphertext tag aad p : List Byte)
    (h : (aes256_gcm_decrypt L key nonce ciphertext tag aad).res = .ok p) :
    (aes256_gcm_decrypt L key nonce ciphertext tag aad).trace =
      [Call.EVP_CIPHER_CTX_new true,
        Call.EVP_DecryptInit_ex (some Cipher.aes_256_gcm) none none 1,
        Call.EVP_CIPHER_CTX_ctrl Ctrl.GCM_SET_IVLEN 12 none 1,
        Call.EVP_DecryptInit_ex none (some key) (some nonce) 1] ++
      (if aad = [] then [] else [Call.EVP_DecryptUpdate false aad (castInt aad.length) 1]) ++
      (if ciphertext = [] then []
        else [Call.EVP_DecryptUpdate true ciphertext (castInt ciphertext.length) 1]) ++
      [Call.EVP_CIPHER_CTX_ctrl Ctrl.GCM_SET_TAG 16 (some tag) 1,
        Call.EVP_DecryptFinal_ex 1,
        Call.EVP_CIPHER_CTX_free] := by
  obtain ⟨P, hP⟩ : ∃ P : Run (List Byte) → Prop, P = fun r => ∀ p, r.res = .ok p →
      r.trace =
        [Call.EVP_CIPHER_CTX_new true,
          Call.EVP_DecryptInit_ex (some Cipher.aes_256_gcm) none none 1,
          Call.EVP_CIPHER_CTX_ctrl Ctrl.GCM_SET_IVLEN 12 none 1,
          Call.EVP_DecryptInit_ex none (some key) (some nonce) 1] ++
        (if aad = [] then [] else [Call.EVP_DecryptUpdate false aad (castInt aad.length) 1]) ++
        (if ciphertext = [] then []
          else [Call.EVP_DecryptUpdate true ciphertext (castInt ciphertext.length) 1]) ++
        [Call.EVP_CIPHER_CTX_ctrl Ctrl.GCM_SET_TAG 16 (some tag) 1,
          Call.EVP_DecryptFinal_ex 1,
          Call.EVP_CIPHER_CTX_free] := ⟨_, rfl⟩
  suffices hs : P (aes256_gcm_decrypt L key nonce ciphertext tag aad) by
    rw [hP] at hs; exact hs p h
  clear h
  rw [← Run.after_nil (aes256_gcm_decrypt L key nonce ciphertext tag aad)]
  unfold aes256_gcm_decrypt
  simp only [Run.after_throwIf_bind, Run.after_emit_bind]
  refine Run.ite_elim (fun _ => by simp [hP]) (fun hk => ?_)
  refine Run.ite_elim (fun _ => by simp [hP]) (fun hn => ?_)
  refine Run.ite_elim (fun _ => by simp [hP]) (fun ht => ?_)
  cases L.EVP_CIPHER_CTX_new with
  | none => simp [Run.after_emit_bind, Run.after_raise, hP]
  | some ctx =>
    simp only [Run.after_emit_bind, Run.after_tryCatchAll]
    unfold decryptTry decryptAad decryptCt
    simp only [Run.after_emit_bind, Run.after_throwIf_bind, Run.bind_assoc, Run.pure_bind, Run.ite_bind, Run.after_ite,
      Run.after_pure, List.append_assoc, List.cons_append, List.nil_append, Run.tryCatchAll_ite,
      Run.tryCatchAll_ok, Run.tryCatchAll_error_free]
    repeat' (refine Run.ite_elim (fun _ => ?_) (fun _ => ?_))
    all_goals subst hP
    all_goals simp_all

/-! ## The nonce -/

/-- C14. Whatever the library and the generator do, in every `aes256_gcm_encrypt` call
that returns: the nonce of the result is the 12-byte vector after the one
`RAND_bytes` call of the run, which is exactly what the generator stored when it
stored 12 bytes; the IV length was set to 12 and the key and IV initialisation was
given this nonce, and no other IV was ever given; and a call with the same answer of
the generator returns the same nonce under any other library, key, plaintext and
associated data. -/
theorem nonce_binding (L : Evp) (RAND_bytes : Int → Int × List Byte)
    (key plaintext aad : List Byte) (m : GcmEncrypted)
    (h : (aes256_gcm_encrypt L RAND_bytes key plaintext aad).res = .ok m) :
    m.nonce = memWrite (resize [] 12) 0 (RAND_bytes 12).2 ∧
    m.nonce.length = 12 ∧
    ((RAND_bytes 12).2.length = 12 → m.nonce = (RAND_bytes 12).2) ∧
    Call.RAND_bytes 12 1 ∈ (aes256_gcm_encrypt L RAND_bytes key plaintext aad).trace ∧
    Call.EVP_CIPHER_CTX_ctrl Ctrl.GCM_SET_IVLEN 12 none 1 ∈
      (aes256_gcm_encrypt L RAND_bytes key plaintext aad).trace ∧
    Call.EVP_EncryptInit_ex none (some key) (some m.nonce) 1 ∈
      (aes256_gcm_encrypt L RAND_bytes key plaintext aad).trace ∧
    (∀ c k iv rc, Call.EVP_EncryptInit_ex c k (some iv) rc ∈
        (aes256_gcm_encrypt L RAND_bytes key plaintext aad).trace → iv = m.nonce) ∧
    (∀ (L2 : Evp) (key2 plaintext2 aad2 : List Byte) (m2 : GcmEncrypted),
      (aes256_gcm_encrypt L2 RAND_bytes key2 plaintext2 aad2).res = .ok m2 →
        m2.nonce = m.nonce) := by
  obtain ⟨hn, ht⟩ := encrypt_trace_of_ok L RAND_bytes key plaintext aad m h
  refine ⟨hn, by rw [hn]; simp, fun hl => ?_, ?_, ?_, ?_, ?_, ?_⟩
  · rw [hn]; exact memWrite_full _ _ (by simp [hl])
  · rw [ht]; simp
  · rw [ht]; simp
  · rw [ht]; simp
  · intro c k iv rc hmem
    rw [ht] at hmem
    simp only [List.mem_append, List.mem_cons, List.mem_singleton, List.not_mem_nil] at hmem
    split_ifs at hmem <;> simp_all
  · intro L2 key2 plaintext2 aad2 m2 h2
    rw [hn, (encrypt_trace_of_ok L2 RAND_bytes key2 plaintext2 aad2 m2 h2).1]

theorem nonce_binding_witness :
    scenarioMessage.nonce = memWrite (resize [] 12) 0 (randOk zeroNonce 12).2 ∧
    scenarioMessage.nonce.length = 12 ∧
    ((randOk zeroNonce 12).2.length = 12 → scenarioMessage.nonce = (randOk zeroNonce 12).2) ∧
    Call.RAND_bytes 12 1 ∈
      (aes256_gcm_encrypt openssl (randOk zeroNonce) zeroKey helloAEAD []).trace ∧
    Call.EVP_CIPHER_CTX_ctrl Ctrl.GCM_SET_IVLEN 12 none 1 ∈
      (aes256_gcm_encrypt openssl (randOk zeroNonce) zeroKey helloAEAD []).trace ∧
    Call.EVP_EncryptInit_ex none (some zeroKey) (some scenarioMessage.nonce) 1 ∈
      (aes256_gcm_encrypt openssl (randOk zeroNonce) zeroKey helloAEAD []).trace ∧
    (∀ c k iv rc, Call.EVP_EncryptInit_ex c k (some iv) rc ∈
        (aes256_gcm_encrypt openssl (randOk zeroNonce) zeroKey helloAEAD []).trace →
      iv = scenarioMessage.nonce) ∧
    (∀ (L2 : Evp) (key2 plaintext2 aad2 : List Byte) (m2 : GcmEncrypted),
      (aes256_gcm_encrypt L2 (randOk zeroNonce) key2 plaintext2 aad2).res = .ok m2 →
        m2.nonce = scenarioMessage.nonce) :=
  nonce_binding openssl (randOk zeroNonce) zeroKey helloAEAD [] scenarioMessage scenario_encrypt

/-! ## Associated data longer than an `int` can count -/

theorem fourGiB_ne_nil : fourGiB ≠ [] := by
  intro h
  have := fourGiB_length
  rw [h] at this
  exact absurd this (by decide)

theorem encrypt_fourGiB_aad :
    (aes256_gcm_encrypt openssl (randOk zeroNonce) zeroKey helloAEAD fourGiB).res =
      .ok scenarioMessage := by
  rw [← scenario_encrypt, encrypt_openssl_res (randOk zeroNonce) zeroKey helloAEAD fourGiB rfl rfl,
    encrypt_openssl_res (randOk zeroNonce) zeroKey helloAEAD [] rfl rfl, castInt_fourGiB]
  simp

theorem decrypt_fourGiB_aad :
    (aes256_gcm_decrypt openssl zeroKey scenarioMessage.nonce scenarioMessage.ciphertext
      scenarioMessage.tag fourGiB).res = .ok helloAEAD :=
  round_trip_below_cast_limit (randOk zeroNonce) zeroKey helloAEAD fourGiB _ rfl (by decide)
    encrypt_fourGiB_aad

/-- C13, evaluated at associated data of 2^32 zero bytes: `aes256_gcm_encrypt` and
`aes256_gcm_decrypt` both return, and the one update call each of them makes for the
associated data, between the key and IV initialisation and the update for the
message, is passed the length 0. -/
theorem aad_update_length_zero_at_four_GiB :
    (aes256_gcm_encrypt openssl (randOk zeroNonce) zeroKey helloAEAD fourGiB).trace =
      [Call.RAND_bytes 12 1, Call.EVP_CIPHER_CTX_new true,
        Call.EVP_EncryptInit_ex (some Cipher.aes_256_gcm) none none 1,
        Call.EVP_CIPHER_CTX_ctrl Ctrl.GCM_SET_IVLEN 12 none 1,
        Call.EVP_EncryptInit_ex none (some zeroKey) (some zeroNonce) 1,
        Call.EVP_EncryptUpdate false fourGiB 0 1,
        Call.EVP_EncryptUpdate true helloAEAD 10 1,
        Call.EVP_EncryptFinal_ex 1,
        Call.EVP_CIPHER_CTX_ctrl Ctrl.GCM_GET_TAG 16 (some zeroTag) 1,
        Call.EVP_CIPHER_CTX_free] ∧
    (aes256_gcm_decrypt openssl zeroKey scenarioMessage.nonce scenarioMessage.ciphertext
      scenarioMessage.tag fourGiB).trace =
      [Call.EVP_CIPHER_CTX_new true,
        Call.EVP_DecryptInit_ex (some Cipher.aes_256_gcm) none none 1,
        Call.EVP_CIPHER_CTX_ctrl Ctrl.GCM_SET_IVLEN 12 none 1,
        Call.EVP_DecryptInit_ex none (some zeroKey) (some zeroNonce) 1,
        Call.EVP_DecryptUpdate false fourGiB 0 1,
        Call.EVP_DecryptUpdate true scenarioMessage.ciphertext 10 1,
        Call.EVP_CIPHER_CTX_ctrl Ctrl.GCM_SET_TAG 16 (some scenarioMessage.tag) 1,
        Call.EVP_DecryptFinal_ex 1,
        Call.EVP_CIPHER_CTX_free] ∧
    fourGiB.length = 2 ^ 32 := by
  refine ⟨?_, ?_, fourGiB_length⟩
  · rw [(encrypt_trace_of_ok _ _ _ _ _ _ encrypt_fourGiB_aad).2, if_neg fourGiB_ne_nil,
      castInt_fourGiB, if_neg (by decide : helloAEAD ≠ [])]
    rfl
  · rw [decrypt_trace_of_ok _ _ _ _ _ _ _ decrypt_fourGiB_aad, if_neg fourGiB_ne_nil,
      castInt_fourGiB, if_neg (by decide : scenarioMessage.ciphertext ≠ [])]
    rfl

/-! ## The allocation loop of the memory load generator -/

namespace MemoryOverflow

theorem subSize_of_le (a b : Nat) (h : b ≤ a) (ha : a < 2 ^ 64) : subSize a b = a - b := by
  unfold subSize
  have hb : b % 2 ^ 64 = b := Nat.mod_eq_of_lt (by omega)
  rw [hb]
  have : a + 2 ^ 64 - b = (a - b) + 2 ^ 64 := by omega
  rw [this, Nat.add_mod_right]
  exact Nat.mod_eq_of_lt (by omega)

theorem addSize_of_lt (a b : Nat) (h : a + b < 2 ^ 64) : addSize a b = a + b :=
  Nat.mod_eq_of_lt h

/-- The number of chunks needed for `r` more bytes: one more than for `r - min c r`. -/
theorem chunks_step (r c : Nat) (hr : 0 < r) (hc : 0 < c) :
    (r - min c r + c - 1) / c + 1 = (r + c - 1) / c := by
  have h1 : r + c - 1 = (r - 1) + c := by omega
  rw [h1, Nat.add_div_right _ hc]
  congr 1
  rcases Nat.lt_or_ge r c with h | h
  · rw [Nat.min_eq_right (Nat.le_of_lt h)]
    rw [Nat.div_eq_of_lt (by omega), Nat.div_eq_of_lt (by omega)]
  · rw [Nat.min_eq_left h]
    congr 1
    omega

/-- The number of chunks is at most the quotient plus one. -/
theorem chunks_le (t c : Nat) (hc : 0 < c) : (t + c - 1) / c ≤ t / c + 1 := by
  rw [← Nat.add_div_right t hc]
  exact Nat.div_le_div_right (by omega)

/-- The loop of `touch_pages` is left when the block has at most 2^64 - 4096 bytes and
there is fuel for one test per page and one more. -/
theorem touch_pages_returns (bytes : Nat) (hb : bytes ≤ 2 ^ 64 - 4096) :
    ∀ fuel i, bytes ≤ i + fuel * 4096 → touch_pages bytes (fuel + 1) i = some () := by
  intro fuel
  induction fuel with
  | zero =>
    intro i h
    unfold touch_pages
    rw [if_neg (by omega)]
  | succ n ih =>
    intro i h
    unfold touch_pages
    by_cases hi : i < bytes
    · rw [if_pos hi, addSize_of_lt _ _ (by omega)]
      exact ih _ (by omega)
    · rw [if_neg hi]

/-- For a block of more than 2^64 - 4096 bytes the index of `touch_pages` wraps around
before it reaches the end: the loop is never left, whatever the fuel. -/
theorem touch_pages_wraps (bytes : Nat) (hb : 2 ^ 64 - 4096 < bytes) :
    ∀ fuel i, i % 4096 = 0 → i < 2 ^ 64 → touch_pages bytes fuel i = none := by
  intro fuel
  induction fuel with
  | zero => intro i _ _; rfl
  | succ n ih =>
    intro i h1 h2
    unfold touch_pages
    rw [if_pos (by omega)]
    exact ih _ (by unfold addSize; omega) (by unfold addSize; omega)

/-- The loop from any state with `allocated ≤ target_bytes` and room in the vector
for the blocks still to come, when no allocation fails, no block has more than
2^64 - 4096 bytes and the fuel exceeds the bytes still to allocate: it is left with
`allocated = target_bytes`, the capacity unchanged, having added
`ceil(remaining / chunk_bytes)` blocks, each of 1 to `chunk_bytes` bytes, that sum to
the remaining bytes. -/
theorem mainLoop_spec (env : Env) (cfg : Config) (pageFuel : Nat)
    (hc : 0 < cfg.chunk_bytes) (htb : cfg.target_bytes < 2 ^ 64)
    (hpage : min cfg.chunk_bytes cfg.target_bytes ≤ 2 ^ 64 - 4096)
    (hpf : cfg.target_bytes < pageFuel)
    (hnew : ∀ k n, env.new_char k n = true) :
    ∀ fuel allocated capacity blocks, allocated ≤ cfg.target_bytes →
      cfg.target_bytes - allocated < fuel →
      blocks.length + (cfg.target_bytes - allocated + cfg.chunk_bytes - 1) / cfg.chunk_bytes
        ≤ capacity →
      ∃ bs, mainLoop env cfg pageFuel fuel allocated capacity blocks =
          some (.ok ⟨capacity, cfg.target_bytes, blocks ++ bs⟩) ∧
        bs.length = (cfg.target_bytes - allocated + cfg.chunk_bytes - 1) / cfg.chunk_bytes ∧
        (∀ b ∈ bs, 1 ≤ b ∧ b ≤ cfg.chunk_bytes) ∧
        bs.sum = cfg.target_bytes - allocated := by
  intro fuel
  induction fuel with
  | zero => intro allocated capacity blocks _ h; omega
  | succ fuel ih =>
    intro allocated capacity blocks hle hfuel hcap
    unfold mainLoop
    by_cases hlt : allocated < cfg.target_bytes
    · rw [if_pos hlt]
      simp only [hnew, if_true]
      rw [subSize_of_le _ _ hle htb]
      have hmin1 : 1 ≤ min cfg.chunk_bytes (cfg.target_bytes - allocated) := by
        rw [Nat.le_min]; omega
      have hmin2 : min cfg.chunk_bytes (cfg.target_bytes - allocated) ≤
          cfg.target_bytes - allocated := Nat.min_le_right _ _
      have hmin3 : min cfg.chunk_bytes (cfg.target_bytes - allocated) ≤ cfg.chunk_bytes :=
        Nat.min_le_left _ _
      have hmin4 : min cfg.chunk_bytes (cfg.target_bytes - allocated) ≤
          min cfg.chunk_bytes cfg.target_bytes := by
        rw [Nat.le_min]
        exact ⟨hmin3, by omega⟩
      have hstep := chunks_step (cfg.target_bytes - allocated) cfg.chunk_bytes (by omega) hc
      have hpos : 1 ≤ (cfg.target_bytes - allocated + cfg.chunk_bytes - 1) / cfg.chunk_bytes := by
        rw [← hstep]; exact Nat.le_add_left 1 _
      obtain ⟨pf, rfl⟩ : ∃ pf, pageFuel = pf + 1 := ⟨pageFuel - 1, by omega⟩
      rw [touch_pages_returns _ (by omega) pf 0 (by omega)]
      simp only
      have hpush : push_back env capacity blocks
          (min cfg.chunk_bytes (cfg.target_bytes - allocated)) =
          .ok (capacity, blocks ++ [min cfg.chunk_bytes (cfg.target_bytes - allocated)]) := by
        unfold push_back
        rw [if_pos (by omega)]
      rw [hpush]
      simp only
      rw [addSize_of_lt _ _ (by omega)]
      have hrem : cfg.target_bytes -
          (allocated + min cfg.chunk_bytes (cfg.target_bytes - allocated)) =
          cfg.target_bytes - allocated - min cfg.chunk_bytes (cfg.target_bytes - allocated) := by
        omega
      obtain ⟨bs, h1, h2, h3, h4⟩ := ih
        (allocated + min cfg.chunk_bytes (cfg.target_bytes - allocated)) capacity
        (blocks ++ [min cfg.chunk_bytes (cfg.target_bytes - allocated)]) (by omega) (by omega)
        (by rw [hrem, List.length_append, List.length_singleton]; omega)
      refine ⟨min cfg.chunk_bytes (cfg.target_bytes - allocated) :: bs, ?_, ?_, ?_, ?_⟩
      · rw [h1]; simp
      · rw [List.length_cons, h2, hrem]
        exact hstep
      · intro b hb
        rcases List.mem_cons.mp hb with rfl | hb
        · exact ⟨hmin1, hmin3⟩
        · exact h3 b hb
      · rw [List.sum_cons, h4]; omega
    · rw [if_neg hlt]
      have heq : allocated = cfg.target_bytes := by omega
      refine ⟨[], by simp [heq], ?_, by simp, by simp [heq]⟩
      rw [heq, Nat.sub_self, Nat.zero_add, List.length_nil]
      exact (Nat.div_eq_of_lt (by omega)).symm

end MemoryOverflow

/-- C17 as amended. For `target_bytes > 0` and `chunk_bytes > 0`, two `std::size_t`
values whose quotient plus one does not wrap around, when no allocation fails and the
fuel exceeds `target_bytes`: if `target_bytes / chunk_bytes + 1` is at most
`blocks.max_size()` and no block exceeds 2^64 - 4096 bytes, the loop of `main` is left
with `allocated = target_bytes` after exactly `ceil(target_bytes / chunk_bytes)`
blocks, each of 1 to `chunk_bytes` bytes, which sum to `target_bytes`, and the block
count is at most the reserved capacity `target_bytes / chunk_bytes + 1`; if
`target_bytes / chunk_bytes + 1` exceeds `blocks.max_size()`, `blocks.reserve` throws
`std::length_error`, which is not caught, and the loop is never entered. -/
theorem allocation_loop (env : MemoryOverflow.Env) (cfg : MemoryOverflow.Config) (fuel : Nat)
    (ht : 0 < cfg.target_bytes) (hc : 0 < cfg.chunk_bytes)
    (htb : cfg.target_bytes < 2 ^ 64)
    (hq : cfg.target_bytes / cfg.chunk_bytes + 1 < 2 ^ 64)
    (hnew : ∀ k n, env.new_char k n = true) (hvec : ∀ n, env.new_ptrs n = true)
    (hfuel : cfg.target_bytes < fuel) :
    (cfg.target_bytes / cfg.chunk_bytes + 1 ≤ env.max_size →
      min cfg.chunk_bytes cfg.target_bytes ≤ 2 ^ 64 - 4096 →
      ∃ blocks,
        MemoryOverflow.main env cfg fuel =
          some (.ok ⟨cfg.target_bytes / cfg.chunk_bytes + 1, cfg.target_bytes, blocks⟩) ∧
        blocks.length = (cfg.target_bytes + cfg.chunk_bytes - 1) / cfg.chunk_bytes ∧
        (∀ b ∈ blocks, 1 ≤ b ∧ b ≤ cfg.chunk_bytes) ∧
        blocks.sum = cfg.target_bytes ∧
        blocks.length ≤ cfg.target_bytes / cfg.chunk_bytes + 1) ∧
    (env.max_size < cfg.target_bytes / cfg.chunk_bytes + 1 →
      MemoryOverflow.main env cfg fuel = some (.error .length_error)) := by
  have hr : MemoryOverflow.reserveArg cfg = cfg.target_bytes / cfg.chunk_bytes + 1 :=
    MemoryOverflow.addSize_of_lt _ _ hq
  constructor
  · intro hres hpage
    obtain ⟨bs, h1, h2, h3, h4⟩ := MemoryOverflow.mainLoop_spec env cfg fuel hc htb hpage hfuel
      hnew fuel 0 (cfg.target_bytes / cfg.chunk_bytes + 1) [] (Nat.zero_le _) (by omega)
      (by
        rw [List.length_nil, Nat.zero_add, Nat.sub_zero]
        exact MemoryOverflow.chunks_le _ _ hc)
    have hlen : bs.length ≤ cfg.target_bytes / cfg.chunk_bytes + 1 := by
      rw [h2, Nat.sub_zero]
      exact MemoryOverflow.chunks_le _ _ hc
    refine ⟨bs, ?_, by simpa using h2, h3, by simpa using h4, hlen⟩
    unfold MemoryOverflow.main MemoryOverflow.reserve
    rw [if_neg (by omega), if_neg (by omega), hr, if_neg (Nat.not_lt.mpr hres),
      if_neg (Nat.succ_ne_zero _), hvec]
    simpa using h1
  · intro hbig
    unfold MemoryOverflow.main MemoryOverflow.reserve
    rw [if_neg (by omega), if_neg (by omega), hr, if_pos hbig]

/-- Ten bytes in chunks of four: blocks of 4, 4 and 2 bytes in a vector reserved for
three. -/
theorem allocation_loop_witness :
    MemoryOverflow.main MemoryOverflow.libstdcxx ⟨10, 4, true⟩ 11 =
      some (.ok ⟨3, 10, [4, 4, 2]⟩) ∧
    ∃ blocks,
      MemoryOverflow.main MemoryOverflow.libstdcxx ⟨10, 4, true⟩ 11 =
        some (.ok ⟨10 / 4 + 1, 10, blocks⟩) ∧
      blocks.length = (10 + 4 - 1) / 4 ∧
      (∀ b ∈ blocks, 1 ≤ b ∧ b ≤ 4) ∧
      blocks.sum = 10 ∧
      blocks.length ≤ 10 / 4 + 1 :=
  ⟨by rfl, (allocation_loop MemoryOverflow.libstdcxx ⟨10, 4, true⟩ 11 (by decide) (by decide)
    (by decide) (by decide) (fun _ _ => rfl) (fun _ => rfl) (by decide)).1 (by decide)
    (by decide)⟩

/-- C17 as stated fails for `target_bytes = 2^60` and `chunk_bytes = 1` (the command
line `1048576TB 1B`) on a 64-bit libstdc++: no allocation fails, yet
`blocks.reserve(2^60 + 1)` throws `std::length_error`, which is not caught; the
program is terminated before the loop, whatever the fuel, so the loop does not end
with `allocated == target_bytes`. -/
theorem reserve_throws_length_error :
    (∀ fuel, MemoryOverflow.main MemoryOverflow.libstdcxx ⟨2 ^ 60, 1, true⟩ fuel =
      some (.error .length_error)) ∧
    (∀ k n, MemoryOverflow.libstdcxx.new_char k n = true) ∧
    (∀ n, MemoryOverflow.libstdcxx.new_ptrs n = true) ∧
    MemoryOverflow.libstdcxx.max_size = 2 ^ 60 - 1 ∧
    MemoryOverflow.reserveArg ⟨2 ^ 60, 1, true⟩ = 2 ^ 60 + 1 :=
  ⟨fun _ => rfl, fun _ _ => rfl, fun _ => rfl, by decide, by decide⟩

end Xlab
